import Mathlib

/-!
Pooled OpenAL sources and the streaming player of `exp/audio/audio_openal.go`.

A shallow embedding of the package state (`alSourceCache`), of `newAlSource`,
`newPlayer`, `player.proceed`, `player.play` and `player.close`, and of
`NextPowerOf2` of `internal/opengl/internal/shader/texturequad.go`, followed
by theorems about them.

The device.
The OpenAL binding (`golang.org/x/mobile/exp/audio/al`) is outside the
repository.  It is not given a semantics of its own here.  Every value a device
call hands back to the program (a generated name, a queue length, a source
state, an error code) is an input of the operation that makes the call, carried
in an `...Env` record, and every call the program makes is appended to the log
`World.calls`.  The only device state kept is the error register read by
`al.Error()`: a call may raise an error code, the register keeps the first code
raised since it was last read, and reading it clears it.

Control.
A Go panic is the outcome `Run.panic`, carrying the state at the panic.  The
global mutex `m` and `runtime.SetFinalizer` are not represented: operations are
run one after the other.
-/

namespace Audio

/-! ## Data model -/

/-- An `al.Source` name (a `uint32` in the binding). -/
abbrev Source := Nat

/-- An `al.Buffer` name (a `uint32` in the binding). -/
abbrev Buffer := Nat

/-- One byte of PCM data. -/
abbrev Byte := Nat

/-- Go `error` values that the package returns or receives. -/
inductive Error where
  /-- The package error `ErrTooManyPlayers`. -/
  | ErrTooManyPlayers
  /-- The reader error `io.EOF`. -/
  | EOF
  /-- Any other error returned by the PCM reader. -/
  | other (code : Nat)
  /-- The error built by `fmt.Errorf` when `al.OpenDevice` fails. -/
  | openDeviceFailed (code : Nat)
  deriving DecidableEq, Repr

/-- The panic sites of the file, each with the value it formats. -/
inductive Panic where
  /-- Line 68, "audio: al.GenSources error: %d". -/
  | genSources (err : Nat)
  /-- Line 106, "audio: before proceed: %d". -/
  | beforeProceed (err : Nat)
  /-- Line 113, "audio: Unqueue in process: %d". -/
  | unqueueInProcess (err : Nat)
  /-- Line 128, "audio: Queue in process: %d". -/
  | queueInProcess (err : Nat)
  /-- Line 141, "audio: PlaySource in process: %d". -/
  | playSourceInProcess (err : Nat)
  /-- Line 188, "audio: error before closing: %d". -/
  | beforeClosing (err : Nat)
  /-- Line 204, "audio: closing error: %d". -/
  | closingError (err : Nat)
  /-- Line 213, "audio: cache state is invalid: source is already closed?". -/
  | alreadyClosed
  /-- Line 221, "audio: cache state is invalid: source is not cached?". -/
  | notCached
  /-- Line 177, `panic(err)` in the streaming loop. -/
  | readError (err : Error)
  /-- Line 125, the slice expression `b[:n]` with `n` above `len(b)`. -/
  | sliceBounds
  deriving DecidableEq, Repr

/-- Calls made to the OpenAL binding, as recorded in `World.calls`. -/
inductive AlCall where
  | openDevice
  | genSources (n : Nat)
  | genBuffers (n : Nat)
  | getError
  | buffersProcessed (s : Source)
  | buffersQueued (s : Source)
  | unqueueBuffers (s : Source) (n : Nat)
  | bufferData (b : Buffer) (format : Nat) (data : List Byte) (freq : Int)
  | queueBuffers (s : Source) (b : Buffer)
  | state (s : Source)
  | rewindSources (s : Source)
  | playSources (s : Source)
  | stopSources (s : Source)
  deriving DecidableEq, Repr

/-- The struct `alSourceCacheEntry` (lines 32-37). -/
structure alSourceCacheEntry where
  source : Source
  buffers : List Buffer
  sampleRate : Int
  isClosed : Bool
  deriving DecidableEq, Repr

/-- The constant `maxSourceNum` (line 39). -/
def maxSourceNum : Nat := 32

/-- The constant `bufferSize` (line 101). -/
def bufferSize : Nat := 1024

/-- The constant `bufferMaxNum` of `play` (line 150). -/
def bufferMaxNum : Int := 8

/-- The binding constant `al.FormatStereo16`. -/
def FormatStereo16 : Nat := 0x1103

/-- The binding constant `al.Stopped`. -/
def Stopped : Int := 0x1014

/-- The conversion `int32(x)` of a Go `int`. -/
def int32 (x : Int) : Int := (x + 2 ^ 31) % 2 ^ 32 - 2 ^ 31

/-- What one `Read(b)` on the PCM source gives back: the bytes `b[:n]` it
placed in the buffer (so `n` is `data.length`) and its error. -/
structure ReadResult where
  data : List Byte
  err : Option Error
  deriving DecidableEq, Repr

/-- The `io.ReadSeeker` held by a player: `reads k` is the result of the
`k`-th `Read` made on it and `pos` counts the reads made so far. -/
structure Reader where
  pos : Nat
  reads : Nat → ReadResult

/-- One call `source.Read(b)`. -/
def Reader.Read (r : Reader) : ReadResult × Reader :=
  (r.reads r.pos, { r with pos := r.pos + 1 })

/-- The struct `player` (lines 43-48). -/
structure player where
  alSource : Source
  alBuffers : List Buffer
  source : Reader
  sampleRate : Int

/-- The package-level state: the variable `alSourceCache` (line 41), the
error register of the OpenAL context and the log of calls made to the binding,
oldest first. -/
structure World where
  alSourceCache : List alSourceCacheEntry
  alErr : Nat
  calls : List AlCall
  deriving DecidableEq, Repr

/-- Outcome of running an operation: it returns `a` in state `s`, it panics in
state `s`, it has not returned within its step budget, or it is blocked. -/
inductive Run (σ α : Type) where
  | ret (a : α) (s : σ)
  | panic (m : Panic) (s : σ)
  | spin
  /-- The goroutine waits for the mutex `m`, which is never unlocked. -/
  | blocked (s : σ)

/-- Record a call to the binding. -/
def World.call (w : World) (c : AlCall) : World :=
  { w with calls := w.calls ++ [c] }

/-- The device raises error code `fault` (0: no error) during the calls just
made; the register keeps an error it already holds. -/
def World.raise (w : World) (fault : Nat) : World :=
  { w with alErr := if w.alErr = 0 then fault else w.alErr }

/-- The call `al.Error()`: returns the register and clears it. -/
def World.Error (w : World) : Nat × World :=
  (w.alErr, { w with alErr := 0, calls := w.calls ++ [AlCall.getError] })

/-- The names a device call writes into a slice made with `make(_, n)`. -/
def names (f : Nat → Nat) (n : Int) : List Nat :=
  (List.range n.toNat).map f

/-! ## newAlSource and newPlayer -/

/-- Device answers during `newAlSource`: `source` is `s[0]` of
`al.GenSources(1)` and `fault` the error code that call raises. -/
structure GenEnv where
  source : Source
  fault : Nat
  deriving DecidableEq, Repr

/-- The loop of lines 53-62: the first entry with the requested sample rate
and `isClosed` set, together with the cache after `e.isClosed = false`. -/
def scan (sampleRate : Int) :
    List alSourceCacheEntry → Option (alSourceCacheEntry × List alSourceCacheEntry)
  | [] => none
  | e :: es =>
    if e.sampleRate ≠ sampleRate then
      (scan sampleRate es).map fun r => (r.1, e :: r.2)
    else if !e.isClosed then
      (scan sampleRate es).map fun r => (r.1, e :: r.2)
    else
      some (e, { e with isClosed := false } :: es)

/-- The function `newAlSource` (lines 52-77). -/
def newAlSource (w : World) (sampleRate : Int) (env : GenEnv) :
    Run World (Source × List Buffer × Option Error) :=
  match scan sampleRate w.alSourceCache with
  | some (e, cache) =>
    Run.ret (e.source, e.buffers, none) { w with alSourceCache := cache }
  | none =>
    if maxSourceNum ≤ w.alSourceCache.length then
      Run.ret (0, [], some Error.ErrTooManyPlayers) w
    else
      let w1 := (w.call (AlCall.genSources 1)).raise env.fault
      let r := w1.Error
      if r.1 ≠ 0 then
        Run.panic (Panic.genSources r.1) r.2
      else
        let e : alSourceCacheEntry :=
          { source := env.source, buffers := [], sampleRate := sampleRate, isClosed := false }
        Run.ret (env.source, e.buffers, none)
          { r.2 with alSourceCache := r.2.alSourceCache ++ [e] }

/-- Device answers during `newPlayer`: the error of `al.OpenDevice()` (`none`
for nil) and the answers for `newAlSource`. -/
structure OpenEnv where
  openDevice : Option Nat
  gen : GenEnv
  deriving DecidableEq, Repr

/-- The function `newPlayer` (lines 79-99); the result is the pair
`(*Player, error)` with exactly one side set. -/
def newPlayer (w : World) (src : Reader) (sampleRate : Int) (env : OpenEnv) :
    Run World (Except Error player) :=
  let w0 := w.call AlCall.openDevice
  match env.openDevice with
  | some e => Run.ret (Except.error (Error.openDeviceFailed e)) w0
  | none =>
    match newAlSource w0 sampleRate env.gen with
    | Run.spin => Run.spin
    | Run.blocked w1 => Run.blocked w1
    | Run.panic m w1 => Run.panic m w1
    | Run.ret (_, _, some err) w1 => Run.ret (Except.error err) w1
    | Run.ret (s, b, none) w1 =>
      Run.ret (Except.ok
        { alSource := s, alBuffers := b, source := src, sampleRate := sampleRate }) w1

/-! ## proceed -/

/-- Device answers during one `proceed`: `processed` is
`BuffersProcessed()`, `unqueued i` the name `UnqueueBuffers` writes at index
`i`, `state` is `State()`; `reclaimFault` is the error raised by the calls of
lines 108-111, `queueFault k` by `BufferData`/`QueueBuffers` in the `k`-th
iteration of the fill loop, `restartFault` by the calls of lines 137-139. -/
structure ProceedEnv where
  processed : Int
  unqueued : Nat → Buffer
  reclaimFault : Nat
  queueFault : Nat → Nat
  state : Int
  restartFault : Nat

/-- Lines 123-126: take the head of the free list, write `data` into it at the
player's sample rate and queue it on the source. -/
def queueChunk (p : player) (w : World) (buf : Buffer) (rest : List Buffer)
    (data : List Byte) : player × World :=
  ({ p with alBuffers := rest },
   (w.call (AlCall.bufferData buf FormatStereo16 data (int32 p.sampleRate))).call
     (AlCall.queueBuffers p.alSource buf))

/-- The loop of lines 118-135; `fuel` bounds the number of reads and `k` is
the index of the iteration within this `proceed`.  The result is `some err`
when line 133 returns and `none` when the loop condition fails. -/
def fill (env : ProceedEnv) :
    Nat → Nat → player → World → Run (player × World) (Option Error)
  | 0, _, _, _ => Run.spin
  | fuel + 1, k, p, w =>
    match p.alBuffers with
    | [] => Run.ret none (p, w)
    | buf :: rest =>
      let rd := p.source.Read
      let p1 : player := { p with source := rd.2 }
      if 0 < rd.1.data.length then
        if bufferSize < rd.1.data.length then
          Run.panic Panic.sliceBounds ({ p1 with alBuffers := rest }, w)
        else
          let q := queueChunk p1 w buf rest rd.1.data
          let r := (q.2.raise (env.queueFault k)).Error
          if r.1 ≠ 0 then
            Run.panic (Panic.queueInProcess r.1) (q.1, r.2)
          else
            match rd.1.err with
            | some err => Run.ret (some err) (q.1, r.2)
            | none => fill env fuel (k + 1) q.1 r.2
      else
        match rd.1.err with
        | some err => Run.ret (some err) (p1, w)
        | none => fill env fuel (k + 1) p1 w

/-- Lines 136-146: restart the source when the device reports it stopped. -/
def restart (env : ProceedEnv) (p : player) (w : World) :
    Run (player × World) (Option Error) :=
  let w1 := w.call (AlCall.state p.alSource)
  if env.state = Stopped then
    let w2 := ((w1.call (AlCall.rewindSources p.alSource)).call
      (AlCall.playSources p.alSource)).raise env.restartFault
    let r := w2.Error
    if r.1 ≠ 0 then
      Run.panic (Panic.playSourceInProcess r.1) (p, r.2)
    else
      Run.ret none (p, r.2)
  else
    Run.ret none (p, w1.raise env.restartFault)

/-- Lines 118-146: the fill loop, then the restart check when the loop ends
without an error. -/
def fillAndRestart (env : ProceedEnv) (fuel : Nat) (p : player) (w : World) :
    Run (player × World) (Option Error) :=
  match fill env fuel 0 p w with
  | Run.ret none (p1, w1) => restart env p1 w1
  | r => r

/-- The method `player.proceed` (lines 103-147); the result is its `error`
(`none` for nil). -/
def proceed (fuel : Nat) (p : player) (w : World) (env : ProceedEnv) :
    Run (player × World) (Option Error) :=
  let r0 := w.Error
  if r0.1 ≠ 0 then
    Run.panic (Panic.beforeProceed r0.1) (p, r0.2)
  else
    let w1 := r0.2.call (AlCall.buffersProcessed p.alSource)
    if 0 < env.processed then
      let bufs := names env.unqueued env.processed
      let w2 := (w1.call (AlCall.unqueueBuffers p.alSource env.processed.toNat)).raise
        env.reclaimFault
      let r1 := w2.Error
      if r1.1 ≠ 0 then
        Run.panic (Panic.unqueueInProcess r1.1) (p, r1.2)
      else
        fillAndRestart env fuel { p with alBuffers := p.alBuffers ++ bufs } r1.2
    else
      fillAndRestart env fuel p (w1.raise env.reclaimFault)

/-! ## play -/

/-- Device answers during the locked part of `play`: `queued` is
`BuffersQueued()`, `gen i` the `i`-th name of `al.GenBuffers(n)`, `fault` the
error raised by the calls of `play`. -/
structure PlayEnv where
  queued : Int
  gen : Nat → Buffer
  fault : Nat

/-- The number `n` of line 153. -/
def playNeed (queued : Int) (free : List Buffer) : Int :=
  bufferMaxNum - queued - free.length

/-- The loop of lines 159-163: fill each buffer with `bufferSize` zero bytes
and queue it. -/
def primeAll (p : player) (bufs : List Buffer) (w : World) : World :=
  bufs.foldl (fun w buf =>
    (w.call (AlCall.bufferData buf FormatStereo16 (List.replicate bufferSize 0)
      (int32 p.sampleRate))).call (AlCall.queueBuffers p.alSource buf)) w

/-- The locked part of `player.play` (lines 152-167); `play` has no panic site
and always returns nil. -/
def play (p : player) (w : World) (env : PlayEnv) : player × World :=
  let w1 := w.call (AlCall.buffersQueued p.alSource)
  let n := playNeed env.queued p.alBuffers
  let r : List Buffer × World :=
    if 0 < n then
      (p.alBuffers ++ names env.gen n, w1.call (AlCall.genBuffers n.toNat))
    else
      (p.alBuffers, w1)
  let r2 : List Buffer × World :=
    if 0 < r.1.length then
      ([], primeAll p r.1 r.2)
    else
      r
  ({ p with alBuffers := r2.1 }, (r2.2.call (AlCall.playSources p.alSource)).raise env.fault)

/-! ## close -/

/-- Device answers during `close`: `queued` is `BuffersQueued()`, `unqueued i`
the name `UnqueueBuffers` writes at index `i`, `fault` the error raised by the
calls of lines 193-198. -/
structure CloseEnv where
  queued : Int
  unqueued : Nat → Buffer
  fault : Nat

/-- The loop of lines 208-222: mark the first entry whose source is `s` as
closed and store `bufs` in it; the two panics are the error results. -/
def release (s : Source) (bufs : List Buffer) :
    List alSourceCacheEntry → Except Panic (List alSourceCacheEntry)
  | [] => Except.error Panic.notCached
  | e :: es =>
    if e.source ≠ s then
      match release s bufs es with
      | Except.ok es1 => Except.ok (e :: es1)
      | Except.error m => Except.error m
    else if e.isClosed then
      Except.error Panic.alreadyClosed
    else
      Except.ok ({ e with buffers := bufs, isClosed := true } :: es)

/-- Lines 191-202: stop the source, take back its queued buffers and clear the
handle. -/
def closeDevice (p : player) (w : World) (env : CloseEnv) : player × World :=
  if p.alSource ≠ 0 then
    let w1 := ((w.call (AlCall.rewindSources p.alSource)).call
      (AlCall.stopSources p.alSource)).call (AlCall.buffersQueued p.alSource)
    if 0 < env.queued then
      ({ p with alBuffers := p.alBuffers ++ names env.unqueued env.queued, alSource := 0 },
       (w1.call (AlCall.unqueueBuffers p.alSource env.queued.toNat)).raise env.fault)
    else
      ({ p with alSource := 0 }, w1.raise env.fault)
  else
    (p, w)

/-- The method `player.close` (lines 185-227). -/
def close (p : player) (w : World) (env : CloseEnv) : Run (player × World) Unit :=
  let r0 := w.Error
  if r0.1 ≠ 0 then
    Run.panic (Panic.beforeClosing r0.1) (p, r0.2)
  else
    let s := p.alSource
    let d := closeDevice p r0.2 env
    let r1 := d.2.Error
    if r1.1 ≠ 0 then
      Run.panic (Panic.closingError r1.1) (d.1, r1.2)
    else if s ≠ 0 then
      match release s d.1.alBuffers r1.2.alSourceCache with
      | Except.error m => Run.panic m (d.1, r1.2)
      | Except.ok cache => Run.ret () (d.1, { r1.2 with alSourceCache := cache })
    else
      Run.ret () (d.1, r1.2)

/-! ## The streaming goroutine of play -/

/-- Device answers during the goroutine started by `play`: for the `i`-th
call of `proceed` and for the deferred `close`. -/
structure StreamEnv where
  proceedEnv : Nat → ProceedEnv
  closeEnv : CloseEnv

/-- The `for` loop of lines 170-180; `rounds` bounds its iterations, `fuel`
the reads of each `proceed`, and `i` counts the calls of `proceed` made so far.
It returns the error that ends the loop. -/
def streamLoop (env : StreamEnv) (fuel : Nat) :
    Nat → Nat → player → World → Run (player × World) Error
  | 0, _, _, _ => Run.spin
  | rounds + 1, i, p, w =>
    match proceed fuel p w (env.proceedEnv i) with
    | Run.ret (some err) s => Run.ret err s
    | Run.ret none (p1, w1) => streamLoop env fuel rounds (i + 1) p1 w1
    | Run.panic m s => Run.panic m s
    | Run.spin => Run.spin
    | Run.blocked s => Run.blocked s

/-- The pool together with every player created so far, in creation order. -/
structure System where
  world : World
  players : List player

/-- An operation of the package: a `newPlayer` call, or the locked part of
`play`, one `proceed` or `close` on the `i`-th player created. -/
inductive Op where
  | newPlayer (src : Reader) (sampleRate : Int) (env : OpenEnv)
  | play (i : Nat) (env : PlayEnv)
  | proceed (i : Nat) (fuel : Nat) (env : ProceedEnv)
  | close (i : Nat) (env : CloseEnv)

/-- Run one operation; `none` when it panics (the process ends), when it does
not return within its step budget, or when there is no `i`-th player. -/
def step (s : System) : Op → Option System
  | Op.newPlayer src sampleRate env =>
    match newPlayer s.world src sampleRate env with
    | Run.ret (Except.ok p) w => some { world := w, players := s.players ++ [p] }
    | Run.ret (Except.error _) w => some { world := w, players := s.players }
    | _ => none
  | Op.play i env =>
    match s.players[i]? with
    | none => none
    | some p =>
      some { world := (play p s.world env).2, players := s.players.set i (play p s.world env).1 }
  | Op.proceed i fuel env =>
    match s.players[i]? with
    | none => none
    | some p =>
      match proceed fuel p s.world env with
      | Run.ret _ (p1, w) => some { world := w, players := s.players.set i p1 }
      | _ => none
  | Op.close i env =>
    match s.players[i]? with
    | none => none
    | some p =>
      match close p s.world env with
      | Run.ret _ (p1, w) => some { world := w, players := s.players.set i p1 }
      | _ => none

/-- Run a sequence of operations from left to right. -/
def run (s : System) : List Op → Option System
  | [] => some s
  | op :: ops =>
    match step s op with
    | none => none
    | some s1 => run s1 ops

/-- The name `al.GenSources` hands out is fresh: it is not zero and no cache
entry carries it. -/
def genFresh (w : World) (env : GenEnv) : Prop :=
  env.source ≠ 0 ∧ ∀ e ∈ w.alSourceCache, e.source ≠ env.source

/-- Whether `newAlSource` reaches the call of `al.GenSources` (line 66). -/
def reachesGen (w : World) (sampleRate : Int) : Prop :=
  scan sampleRate w.alSourceCache = none ∧ w.alSourceCache.length < maxSourceNum

/-- Every `al.GenSources` call made while running `ops` from `s` hands out a
fresh name. -/
def freshRun (s : System) : List Op → Prop
  | [] => True
  | op :: ops =>
    (match op with
      | Op.newPlayer _ sampleRate env =>
        env.openDevice = none → reachesGen s.world sampleRate → genFresh s.world env.gen
      | _ => True) ∧
    (match step s op with
      | none => True
      | some s1 => freshRun s1 ops)

/-- A player is live while its source handle is not zero. -/
def player.live (p : player) : Prop := p.alSource ≠ 0

/-- No two live players hold the same source handle, and the handle of every
live player is the source of exactly one cache entry, which is not closed. -/
def NoDoubleClaim (s : System) : Prop :=
  (∀ (i j : Nat) (p q : player), s.players[i]? = some p → s.players[j]? = some q → i ≠ j →
      p.live → p.alSource ≠ q.alSource) ∧
  (∀ p ∈ s.players, p.live →
      ∃ e, s.world.alSourceCache.filter (fun x => x.source = p.alSource) = [e] ∧
        e.isClosed = false)

/-! ## Concrete devices and scenarios -/

/-- A reader at end of stream. -/
def emptyReader : Reader := { pos := 0, reads := fun _ => { data := [], err := some Error.EOF } }

/-- The package state before any call: empty cache, clear error register,
empty log. -/
def World.init : World := { alSourceCache := [], alErr := 0, calls := [] }

/-- The system before any call. -/
def System.init : System := { world := World.init, players := [] }

/-- A device that opens and hands out the source name `s` without error. -/
def okOpen (s : Source) : OpenEnv := { openDevice := none, gen := { source := s, fault := 0 } }

/-- A device with nothing queued on the source being closed. -/
def idleClose : CloseEnv := { queued := 0, unqueued := fun _ => 0, fault := 0 }

/-- A device that hands back the queued buffers `bs` to `close`. -/
def closeWith (bs : List Buffer) : CloseEnv :=
  { queued := bs.length, unqueued := fun i => bs.getD i 0, fault := 0 }

/-- Claims made one after the other, one per `(sampleRate, source)` pair, on
a device that raises no error. -/
def claimOps (reqs : List (Int × Source)) : List Op :=
  reqs.map fun r => Op.newPlayer emptyReader r.1 (okOpen r.2)

/-- Two players at 44100 Hz, the first closed, then a third player, which
reuses the source of the first. -/
def reuseOps : List Op :=
  [Op.newPlayer emptyReader 44100 (okOpen 1), Op.newPlayer emptyReader 44100 (okOpen 2),
   Op.close 0 idleClose, Op.newPlayer emptyReader 44100 (okOpen 3)]

/-- The state reached by `reuseOps`. -/
def reuseFinal : System :=
  { world :=
      { alSourceCache :=
          [{ source := 1, buffers := [], sampleRate := 44100, isClosed := false },
           { source := 2, buffers := [], sampleRate := 44100, isClosed := false }],
        alErr := 0,
        calls :=
          [AlCall.openDevice, AlCall.genSources 1, AlCall.getError,
           AlCall.openDevice, AlCall.genSources 1, AlCall.getError,
           AlCall.getError, AlCall.rewindSources 1, AlCall.stopSources 1,
           AlCall.buffersQueued 1, AlCall.getError,
           AlCall.openDevice] },
    players :=
      [{ alSource := 0, alBuffers := [], source := emptyReader, sampleRate := 44100 },
       { alSource := 2, alBuffers := [], source := emptyReader, sampleRate := 44100 },
       { alSource := 1, alBuffers := [], source := emptyReader, sampleRate := 44100 }] }

/-- The pool invariant on a cache `c` and the players `ps` created so far:
cached sources are non-zero and pairwise distinct, every live player holds the
source of an entry that is not closed and has the player's sample rate, and
live players hold pairwise distinct sources. -/
structure PoolInv (c : List alSourceCacheEntry) (ps : List player) : Prop where
  nonzero : ∀ e ∈ c, e.source ≠ 0
  nodup : (c.map fun e => e.source).Nodup
  held : ∀ p ∈ ps, p.alSource ≠ 0 →
    ∃ e ∈ c, e.source = p.alSource ∧ e.isClosed = false ∧ e.sampleRate = p.sampleRate
  distinct : ∀ (i j : Nat) (p q : player), ps[i]? = some p → ps[j]? = some q → i ≠ j →
    p.alSource ≠ 0 → p.alSource ≠ q.alSource

/-- The cache entry created by a claim of `(sampleRate, source)`. -/
def claimEntry (r : Int × Source) : alSourceCacheEntry :=
  { source := r.2, buffers := [], sampleRate := r.1, isClosed := false }

/-- The player created by a claim of `(sampleRate, source)` in `claimOps`. -/
def claimPlayer (r : Int × Source) : player :=
  { alSource := r.2, alBuffers := [], source := emptyReader, sampleRate := r.1 }

/-- Thirty-two claims with the pairwise distinct sample rates and source
names 1, ..., 32. -/
def fullReqs : List (Int × Source) :=
  (List.range 32).map fun i => (Int.ofNat i + 1, i + 1)

/-- The state reached from the empty pool by the claims `fullReqs`. -/
def fullPool : System :=
  { world :=
      { alSourceCache := fullReqs.map claimEntry,
        alErr := 0,
        calls := (List.replicate 32
          [AlCall.openDevice, AlCall.genSources 1, AlCall.getError]).flatten },
    players := fullReqs.map claimPlayer }

/-- The state reached from `fullPool` when its first player is closed with
nothing queued on the device. -/
def releasedPool : System :=
  { world :=
      { alSourceCache := (fullReqs.map claimEntry).set 0
          { source := 1, buffers := [], sampleRate := 1, isClosed := true },
        alErr := 0,
        calls := fullPool.world.calls ++
          [AlCall.getError, AlCall.rewindSources 1, AlCall.stopSources 1,
           AlCall.buffersQueued 1, AlCall.getError] },
    players := (fullReqs.map claimPlayer).set 0
      { alSource := 0, alBuffers := [], source := emptyReader, sampleRate := 1 } }

/-- A pool with a free entry at 48000 Hz followed by two free entries at
44100 Hz. -/
def mixedPool : World :=
  { alSourceCache :=
      [{ source := 1, buffers := [5, 6], sampleRate := 48000, isClosed := true },
       { source := 2, buffers := [7], sampleRate := 44100, isClosed := true },
       { source := 3, buffers := [8], sampleRate := 44100, isClosed := true }],
    alErr := 0,
    calls := [] }

/-- Two players at 44100 Hz on the sources 1 and 2, the first then closed with
the buffers 11 and 12 queued on the device. -/
def twoPlayersOps : List Op :=
  [Op.newPlayer emptyReader 44100 (okOpen 1), Op.newPlayer emptyReader 44100 (okOpen 2),
   Op.close 0 (closeWith [11, 12])]

/-- The state reached by `twoPlayersOps` followed by the close of the second
player with the buffers 21 and 22 queued on the device. -/
def twoFreePool : System :=
  { world :=
      { alSourceCache :=
          [{ source := 1, buffers := [11, 12], sampleRate := 44100, isClosed := true },
           { source := 2, buffers := [21, 22], sampleRate := 44100, isClosed := true }],
        alErr := 0,
        calls :=
          [AlCall.openDevice, AlCall.genSources 1, AlCall.getError,
           AlCall.openDevice, AlCall.genSources 1, AlCall.getError,
           AlCall.getError, AlCall.rewindSources 1, AlCall.stopSources 1,
           AlCall.buffersQueued 1, AlCall.unqueueBuffers 1 2, AlCall.getError,
           AlCall.getError, AlCall.rewindSources 2, AlCall.stopSources 2,
           AlCall.buffersQueued 2, AlCall.unqueueBuffers 2 2, AlCall.getError] },
    players :=
      [{ alSource := 0, alBuffers := [11, 12], source := emptyReader, sampleRate := 44100 },
       { alSource := 0, alBuffers := [21, 22], source := emptyReader, sampleRate := 44100 }] }

/-- One player at 44100 Hz on source 1. -/
def onePlayerOps : List Op := [Op.newPlayer emptyReader 44100 (okOpen 1)]

/-- The state reached by `onePlayerOps`. -/
def onePlayerPool : System :=
  { world :=
      { alSourceCache := [{ source := 1, buffers := [], sampleRate := 44100, isClosed := false }],
        alErr := 0,
        calls := [AlCall.openDevice, AlCall.genSources 1, AlCall.getError] },
    players := [{ alSource := 1, alBuffers := [], source := emptyReader, sampleRate := 44100 }] }

/-- The device calls of a `close` on a player that holds source `s`, when
`BuffersQueued()` answers `queued`. -/
def closeCalls (s : Source) (queued : Int) : List AlCall :=
  [AlCall.getError, AlCall.rewindSources s, AlCall.stopSources s, AlCall.buffersQueued s] ++
    (if 0 < queued then [AlCall.unqueueBuffers s queued.toNat] else []) ++ [AlCall.getError]

/-- The player of `onePlayerPool`. -/
def soloPlayer : player :=
  { alSource := 1, alBuffers := [], source := emptyReader, sampleRate := 44100 }

/-- The player `soloPlayer` after a `close` that took back the buffers 101 and
102 from the device. -/
def soloClosed : player :=
  { alSource := 0, alBuffers := [101, 102], source := emptyReader, sampleRate := 44100 }

/-- The package state after that `close`. -/
def soloClosedWorld : World :=
  { alSourceCache :=
      [{ source := 1, buffers := [101, 102], sampleRate := 44100, isClosed := true }],
    alErr := 0,
    calls := onePlayerPool.world.calls ++ closeCalls 1 2 }

/-- The calls of the loop of lines 159-163 on the buffers `bufs`: for each
buffer, in order, `BufferData` with `bufferSize` zero bytes at the sample rate
of the player, then `QueueBuffers`. -/
def primeCalls (p : player) (bufs : List Buffer) : List AlCall :=
  bufs.flatMap fun buf =>
    [AlCall.bufferData buf FormatStereo16 (List.replicate bufferSize 0) (int32 p.sampleRate),
     AlCall.queueBuffers p.alSource buf]

/-- The number of `QueueBuffers` calls on source `s` in a log. -/
def queuedOn (s : Source) (calls : List AlCall) : Nat :=
  calls.countP fun c =>
    match c with
    | AlCall.queueBuffers s1 _ => decide (s1 = s)
    | _ => false

/-- The number of `al.GenBuffers` calls in a log. -/
def genBuffersCalls (calls : List AlCall) : Nat :=
  calls.countP fun c =>
    match c with
    | AlCall.genBuffers _ => true
    | _ => false

/-- The calls `play` makes on a player `p`, given the answers `env` of the
device: the queue-length query, `al.GenBuffers(n)` when `n` is positive, the
priming of every free buffer (old ones first, then the new ones), and
`al.PlaySources`. -/
def playCalls (p : player) (env : PlayEnv) : List AlCall :=
  [AlCall.buffersQueued p.alSource] ++
    (if 0 < playNeed env.queued p.alBuffers then
      [AlCall.genBuffers (playNeed env.queued p.alBuffers).toNat] else []) ++
    primeCalls p (p.alBuffers ++ names env.gen (playNeed env.queued p.alBuffers)) ++
    [AlCall.playSources p.alSource]

/-- A player on source 4 at 44100 Hz with the free buffers 1 and 2. -/
def twoFree : player :=
  { alSource := 4, alBuffers := [1, 2], source := emptyReader, sampleRate := 44100 }

/-- A device with 3 buffers queued that hands out the buffer names 10, 11, ... -/
def threeQueued : PlayEnv := { queued := 3, gen := fun i => 10 + i, fault := 0 }

/-- A device with eight buffers queued on the source being closed, named 20,
21, ..., 27. -/
def eightQueued : CloseEnv := { queued := 8, unqueued := fun i => 20 + i, fault := 0 }

/-- The player `soloPlayer` after a `close` on the device `eightQueued`. -/
def soloEight : player :=
  { alSource := 0, alBuffers := [20, 21, 22, 23, 24, 25, 26, 27], source := emptyReader,
    sampleRate := 44100 }

/-- The package state after that `close`. -/
def soloEightWorld : World :=
  { alSourceCache :=
      [{ source := 1, buffers := [20, 21, 22, 23, 24, 25, 26, 27], sampleRate := 44100,
         isClosed := true }],
    alErr := 0,
    calls := onePlayerPool.world.calls ++ closeCalls 1 8 }

/-- The player that reopens source 1 of `soloEightWorld`. -/
def soloReopened : player :=
  { alSource := 1, alBuffers := [20, 21, 22, 23, 24, 25, 26, 27], source := emptyReader,
    sampleRate := 44100 }

/-- A device with nothing queued that hands out the buffer names 30, 31, ... -/
def noneQueued : PlayEnv := { queued := 0, gen := fun i => 30 + i, fault := 0 }

/-- The player after the read of one loop iteration: the reader has moved on
by one `Read`. -/
def player.afterRead (p : player) : player :=
  { p with source := { p.source with pos := p.source.pos + 1 } }

/-- The player after a loop iteration that queued a chunk: the reader has
moved on by one `Read` and the free list lost its head. -/
def player.afterChunk (p : player) (rest : List Buffer) : player :=
  { p with source := { p.source with pos := p.source.pos + 1 }, alBuffers := rest }

/-- The package state after a loop iteration that queued `data` in `buf`:
the calls `BufferData`, `QueueBuffers` and `al.Error()` were made, in this
order, and the error register was read. -/
def World.afterChunk (w : World) (p : player) (buf : Buffer) (data : List Byte) : World :=
  { w with
    alErr := 0,
    calls := w.calls ++
      [AlCall.bufferData buf FormatStereo16 data (int32 p.sampleRate),
       AlCall.queueBuffers p.alSource buf, AlCall.getError] }

/-- A reader whose every `Read` yields the three bytes 1, 2, 3 together with
`io.EOF`. -/
def shortReader : Reader :=
  { pos := 0, reads := fun _ => { data := [1, 2, 3], err := some Error.EOF } }

/-- A player on source 4 at 44100 Hz with the free buffers 5 and 6, reading
from `shortReader`. -/
def shortPlayer : player :=
  { alSource := 4, alBuffers := [5, 6], source := shortReader, sampleRate := 44100 }

/-- A device on which nothing has been processed, no call raises an error
and the source is playing (`al.Playing`). -/
def quietProceed : ProceedEnv :=
  { processed := 0, unqueued := fun _ => 0, reclaimFault := 0, queueFault := fun _ => 0,
    state := 0x1012, restartFault := 0 }

/-- The byte payloads of the `BufferData` calls of a log, in call order. -/
def payloads (calls : List AlCall) : List (List Byte) :=
  calls.filterMap fun c =>
    match c with
    | AlCall.bufferData _ _ data _ => some data
    | _ => none

/-- The buffers written by the `BufferData` calls of a log, in call order. -/
def filled (calls : List AlCall) : List Buffer :=
  calls.filterMap fun c =>
    match c with
    | AlCall.bufferData b _ _ _ => some b
    | _ => none

/-- The pairs `(source, buffer)` of the `QueueBuffers` calls of a log, in call
order. -/
def queued (calls : List AlCall) : List (Source × Buffer) :=
  calls.filterMap fun c =>
    match c with
    | AlCall.queueBuffers s b => some (s, b)
    | _ => none

/-- The results of the next `n` calls of `Read` on a reader. -/
def Reader.next (rd : Reader) (n : Nat) : List ReadResult :=
  (List.range n).map fun i => rd.reads (rd.pos + i)

/-- The calls made by the fill loop of `proceed`: `BufferData`,
`QueueBuffers` and `al.Error()`. -/
def isFillCall : AlCall → Bool
  | AlCall.bufferData _ _ _ _ => true
  | AlCall.queueBuffers _ _ => true
  | AlCall.getError => true
  | _ => false

/-- What a fill loop that returned has done: it made `n` reads, logged the
calls `extra`, and left the player `p1`. -/
structure FillTrace (p p1 : player) (w w1 : World) (r : Option Error) (n : Nat)
    (extra : List AlCall) : Prop where
  source : p1.source = { p.source with pos := p.source.pos + n }
  alSource : p1.alSource = p.alSource
  sampleRate : p1.sampleRate = p.sampleRate
  cache : w1.alSourceCache = w.alSourceCache
  calls : w1.calls = w.calls ++ extra
  fillCalls : ∀ c ∈ extra, isFillCall c = true
  payloads : payloads extra = ((p.source.next n).map fun x => x.data).filter fun d => !d.isEmpty
  buffers : filled extra ++ p1.alBuffers = p.alBuffers
  queue : queued extra = (filled extra).map fun b => (p.alSource, b)
  tags : ∀ b f d q, AlCall.bufferData b f d q ∈ extra →
    f = FormatStereo16 ∧ q = int32 p.sampleRate ∧ d.length ≤ bufferSize
  done : r = none → p1.alBuffers = [] ∧ ∀ x ∈ p.source.next n, x.err = none
  failed : ∀ e, r = some e → ∃ m, n = m + 1 ∧
    (p.source.reads (p.source.pos + m)).err = some e ∧ ∀ x ∈ p.source.next m, x.err = none

/-- The calls of lines 105-114 of `proceed`, before the fill loop. -/
def reclaimCalls (s : Source) (processed : Int) : List AlCall :=
  [AlCall.getError, AlCall.buffersProcessed s] ++
    (if 0 < processed then [AlCall.unqueueBuffers s processed.toNat, AlCall.getError] else [])

/-- The calls of lines 137-143 of `proceed`, after the fill loop. -/
def restartCalls (s : Source) (state : Int) : List AlCall :=
  [AlCall.state s] ++
    (if state = Stopped then
      [AlCall.rewindSources s, AlCall.playSources s, AlCall.getError] else [])

/-- A reader over the bytes `data` that behaves like `bytes.Reader`: each
`Read` gives the next `bufferSize` bytes (fewer at the end) with a nil error,
and `(0, io.EOF)` once the data is used up. -/
def chunkReader (data : List Byte) : Reader :=
  { pos := 0,
    reads := fun k =>
      if k * bufferSize < data.length then
        { data := (data.drop (k * bufferSize)).take bufferSize, err := none }
      else
        { data := [], err := some Error.EOF } }

/-- The value an operation returned, if it returned. -/
def Run.result? {σ α : Type} : Run σ α → Option α
  | Run.ret a _ => some a
  | _ => none

/-- The state in which an operation returned, if it returned. -/
def Run.state? {σ α : Type} : Run σ α → Option σ
  | Run.ret _ s => some s
  | _ => none

/-- A PCM source of exactly 4096 bytes. -/
def pcm4096 : List Byte := List.replicate 4096 7

/-- A player on source 4 at 44100 Hz right after `play`: every buffer is
queued on the device and the free list is empty; it reads `pcm4096`. -/
def pcmPlayer : player :=
  { alSource := 4, alBuffers := [], source := chunkReader pcm4096, sampleRate := 44100 }

/-- A device that has processed five buffers, named 10, ..., 14, raises no
error and reports the source as playing. -/
def fiveProcessed : ProceedEnv :=
  { processed := 5, unqueued := fun i => 10 + i, reclaimFault := 0, queueFault := fun _ => 0,
    state := 0x1012, restartFault := 0 }

/-- The device raises no error during a `proceed`. -/
def quietDevice (env : ProceedEnv) : Prop :=
  env.reclaimFault = 0 ∧ (∀ k, env.queueFault k = 0) ∧ env.restartFault = 0

/-- The `i`-th chunk of `bufferSize` bytes of `data`. -/
def chunk (data : List Byte) (i : Nat) : List Byte :=
  (data.drop (i * bufferSize)).take bufferSize

/-- The player `p` with its reader moved to read number `i`. -/
def player.atRead (p : player) (i : Nat) : player :=
  { p with source := { p.source with pos := i } }

/-- A device that at every `proceed` has processed one buffer, named 10,
raises no error and reports the source as playing. -/
def oneProcessed : ProceedEnv :=
  { processed := 1, unqueued := fun i => 10 + i, reclaimFault := 0, queueFault := fun _ => 0,
    state := 0x1012, restartFault := 0 }

/-- The number of `al.RewindSources` calls on source `s` in a log. -/
def rewindsOn (s : Source) (calls : List AlCall) : Nat :=
  calls.count (AlCall.rewindSources s)

/-- The number of `al.PlaySources` calls on source `s` in a log. -/
def playsOn (s : Source) (calls : List AlCall) : Nat :=
  calls.count (AlCall.playSources s)

/-- A reader that is never at its end: every `Read` yields the three bytes
1, 2, 3 with a nil error. -/
def steadyReader : Reader :=
  { pos := 0, reads := fun _ => { data := [1, 2, 3], err := none } }

/-- A player on source 4 at 44100 Hz with the free buffer 5, reading
`steadyReader`. -/
def starvedPlayer : player :=
  { alSource := 4, alBuffers := [5], source := steadyReader, sampleRate := 44100 }

/-- The player `starvedPlayer` after one `proceed` that queued its buffer. -/
def fedPlayer : player :=
  { alSource := 4, alBuffers := [], source := { pos := 1, reads := steadyReader.reads },
    sampleRate := 44100 }

/-- The package state after `proceed` on `starvedPlayer` from `World.init`
on a device that reports the source as stopped. -/
def restartedWorld : World :=
  { alSourceCache := [], alErr := 0,
    calls :=
      [AlCall.getError, AlCall.buffersProcessed 4,
       AlCall.bufferData 5 FormatStereo16 [1, 2, 3] 44100, AlCall.queueBuffers 4 5,
       AlCall.getError,
       AlCall.state 4, AlCall.rewindSources 4, AlCall.playSources 4, AlCall.getError] }

/-- A device on which nothing has been processed, no call raises an error
and the source is stopped (`al.Stopped`). -/
def stoppedDevice : ProceedEnv :=
  { processed := 0, unqueued := fun _ => 0, reclaimFault := 0, queueFault := fun _ => 0,
    state := Stopped, restartFault := 0 }

/-- Every entry of the cache `old` is still at its position in `new`, with
the same source handle and the same sample rate. -/
def keepsEntries (old new : List alSourceCacheEntry) : Prop :=
  ∀ (j : Nat) (e : alSourceCacheEntry), old[j]? = some e →
    ∃ e1, new[j]? = some e1 ∧ e1.source = e.source ∧ e1.sampleRate = e.sampleRate

/-- One player at 44100 Hz on source 1 that reads `shortReader`, then closed
while the buffers 20 and 21 are queued on the device. -/
def closeEarlyOps : List Op :=
  [Op.newPlayer shortReader 44100 (okOpen 1), Op.close 0 (closeWith [20, 21])]

/-- The player of `closeEarlyOps` after its `close`: the handle is 0 and the
free list still holds the buffers 20 and 21. -/
def closedEarly : player :=
  { alSource := 0, alBuffers := [20, 21], source := shortReader, sampleRate := 44100 }

/-- The state reached by `closeEarlyOps`: source 1 is free and carries the
buffers 20 and 21. -/
def closedEarlyPool : System :=
  { world :=
      { alSourceCache :=
          [{ source := 1, buffers := [20, 21], sampleRate := 44100, isClosed := true }],
        alErr := 0,
        calls := [AlCall.openDevice, AlCall.genSources 1, AlCall.getError] ++ closeCalls 1 2 },
    players := [closedEarly] }

/-- An operation has ended: it returned or it panicked. -/
def Run.ended {σ α : Type} : Run σ α → Prop
  | Run.ret _ _ => True
  | Run.panic _ _ => True
  | _ => False

/-- A reader whose every `Read` returns `(0, nil)`. -/
def stalledReader : Reader :=
  { pos := 0, reads := fun _ => { data := [], err := none } }

/-- A player on source 4 at 44100 Hz with the free buffer 5, reading
`stalledReader`. -/
def stalledPlayer : player :=
  { alSource := 4, alBuffers := [5], source := stalledReader, sampleRate := 44100 }

/-- A sequence of `proceed` calls on one player, one for each element of
`envs`, each starting from the player and device log the previous one left;
`none` when one of the calls does not return. -/
def proceedAll (fuel : Nat) : List ProceedEnv → player → World → Option (player × World)
  | [], p, w => some (p, w)
  | env :: envs, p, w =>
    match proceed fuel p w env with
    | Run.ret _ (p1, w1) => proceedAll fuel envs p1 w1
    | _ => none

/-- `NextPowerOf2` of package `shader` (texturequad.go, lines 34-43) on
`uint64` values, given as naturals below `2 ^ 64`: `x -= 1` and `x + 1` wrap
modulo `2 ^ 64`; the shifts and ors in between cannot leave that range. -/
def NextPowerOf2 (x : Nat) : Nat :=
  let x0 := (x + 2 ^ 64 - 1) % 2 ^ 64
  let x1 := x0 ||| (x0 >>> 1)
  let x2 := x1 ||| (x1 >>> 2)
  let x3 := x2 ||| (x2 >>> 4)
  let x4 := x3 ||| (x3 >>> 8)
  let x5 := x4 ||| (x4 >>> 16)
  let x6 := x5 ||| (x5 >>> 32)
  (x6 + 1) % 2 ^ 64

/-- The number of free buffers a player has been given by the `j`-th call of
`proceed` after call `i` of the streaming loop: the `n0` buffers of its free
list at call `i` and the buffers the device reported as processed at the
calls `i`, ..., `i + j`. -/
def supply (senv : StreamEnv) (i n0 : Nat) : Nat → Nat
  | 0 => n0 + (senv.proceedEnv i).processed.toNat
  | j + 1 => supply senv i n0 j + (senv.proceedEnv (i + j + 1)).processed.toNat

/-- A device that at a `proceed` has processed two buffers, named 10 and 11,
raises no error and reports the source as playing. -/
def twoProcessed : ProceedEnv :=
  { processed := 2, unqueued := fun i => 10 + i, reclaimFault := 0, queueFault := fun _ => 0,
    state := 0x1012, restartFault := 0 }

/-- A device that has processed two buffers at each of the first two calls of
`proceed` and one buffer at every later call. -/
def twoTwoOne : StreamEnv :=
  { proceedEnv := fun i => if i < 2 then twoProcessed else oneProcessed, closeEnv := idleClose }

/-! ## Lemmas on the two cache loops -/

theorem scan_eq_none_iff (rate : Int) (c : List alSourceCacheEntry) :
    scan rate c = none ↔ ∀ e ∈ c, ¬(e.sampleRate = rate ∧ e.isClosed = true) := by
  induction c with
  | nil => simp [scan]
  | cons e es ih =>
    simp only [scan]
    split_ifs with h1 h2
    · simp [ih, h1]
    · simp only [Option.map_eq_none', ih, List.mem_cons, forall_eq_or_imp]
      simp at h1 h2
      simp [h2]
    · simp at h1 h2
      simp [h1, h2]

theorem scan_eq_some_split {rate : Int} {c c1 : List alSourceCacheEntry} {e : alSourceCacheEntry}
    (h : scan rate c = some (e, c1)) :
    ∃ l1 l2, c = l1 ++ e :: l2 ∧ c1 = l1 ++ { e with isClosed := false } :: l2 ∧
      e.sampleRate = rate ∧ e.isClosed = true ∧
      ∀ x ∈ l1, ¬(x.sampleRate = rate ∧ x.isClosed = true) := by
  induction c generalizing c1 with
  | nil => simp [scan] at h
  | cons a es ih =>
    simp only [scan] at h
    split_ifs at h with h1 h2
    · simp only [Option.map_eq_some'] at h
      obtain ⟨⟨e1, c2⟩, hs, heq⟩ := h
      simp only [Prod.mk.injEq] at heq
      obtain ⟨rfl, rfl⟩ := heq
      obtain ⟨l1, l2, hc, hc1, hr, hcl, hl1⟩ := ih hs
      refine ⟨a :: l1, l2, by simp [hc], by simp [hc1], hr, hcl, ?_⟩
      intro x hx
      rcases List.mem_cons.mp hx with rfl | hx
      · simp [h1]
      · exact hl1 x hx
    · simp only [Option.map_eq_some'] at h
      obtain ⟨⟨e1, c2⟩, hs, heq⟩ := h
      simp only [Prod.mk.injEq] at heq
      obtain ⟨rfl, rfl⟩ := heq
      obtain ⟨l1, l2, hc, hc1, hr, hcl, hl1⟩ := ih hs
      refine ⟨a :: l1, l2, by simp [hc], by simp [hc1], hr, hcl, ?_⟩
      intro x hx
      rcases List.mem_cons.mp hx with rfl | hx
      · simp at h2; simp [h2]
      · exact hl1 x hx
    · simp at h1 h2
      simp only [Option.some.injEq, Prod.mk.injEq] at h
      obtain ⟨rfl, rfl⟩ := h
      exact ⟨[], es, by simp, by simp, h1, h2, by simp⟩

theorem scan_append_free {rate : Int} (l1 l2 : List alSourceCacheEntry) (e : alSourceCacheEntry)
    (hl1 : ∀ x ∈ l1, ¬(x.sampleRate = rate ∧ x.isClosed = true))
    (hr : e.sampleRate = rate) (hc : e.isClosed = true) :
    scan rate (l1 ++ e :: l2) = some (e, l1 ++ { e with isClosed := false } :: l2) := by
  induction l1 with
  | nil => simp [scan, hr, hc]
  | cons a l ih =>
    have ha := hl1 a (by simp)
    have := ih (fun x hx => hl1 x (by simp [hx]))
    simp only [List.cons_append, scan]
    split_ifs with h1 h2
    · simp [this]
    · simp [this]
    · simp at h1 h2; exact absurd ⟨h1, h2⟩ ha

theorem release_ok_split {s : Source} {b : List Buffer} {c c1 : List alSourceCacheEntry}
    (h : release s b c = Except.ok c1) :
    ∃ l1 e l2, c = l1 ++ e :: l2 ∧ c1 = l1 ++ { e with buffers := b, isClosed := true } :: l2 ∧
      e.source = s ∧ e.isClosed = false ∧ ∀ x ∈ l1, x.source ≠ s := by
  induction c generalizing c1 with
  | nil => simp [release] at h
  | cons a es ih =>
    simp only [release] at h
    split_ifs at h with h1 h2
    · split at h
      · rename_i es1 hes
        simp only [Except.ok.injEq] at h
        subst h
        obtain ⟨l1, e, l2, hc, hc1, hs, hcl, hl1⟩ := ih hes
        refine ⟨a :: l1, e, l2, by simp [hc], by simp [hc1], hs, hcl, ?_⟩
        intro x hx
        rcases List.mem_cons.mp hx with rfl | hx
        · exact h1
        · exact hl1 x hx
      · simp at h
    · simp at h1 h2
      simp only [Except.ok.injEq] at h
      subst h
      exact ⟨[], a, es, by simp, by simp, h1, h2, by simp⟩

theorem release_append {s : Source} (b : List Buffer) (l1 l2 : List alSourceCacheEntry)
    (e : alSourceCacheEntry) (hl1 : ∀ x ∈ l1, x.source ≠ s) (hs : e.source = s) :
    release s b (l1 ++ e :: l2) =
      if e.isClosed then Except.error Panic.alreadyClosed
      else Except.ok (l1 ++ { e with buffers := b, isClosed := true } :: l2) := by
  induction l1 with
  | nil => simp [release, hs]
  | cons a l ih =>
    have ha := hl1 a (by simp)
    have := ih (fun x hx => hl1 x (by simp [hx]))
    simp only [List.cons_append, release, this, ha]
    split_ifs <;> simp_all

theorem release_not_cached {s : Source} (b : List Buffer) (c : List alSourceCacheEntry)
    (h : ∀ x ∈ c, x.source ≠ s) : release s b c = Except.error Panic.notCached := by
  induction c with
  | nil => simp [release]
  | cons a l ih =>
    have ha := h a (by simp)
    have := ih (fun x hx => h x (by simp [hx]))
    simp [release, this, ha]

/-! ## The pool invariant -/

theorem getElem?_snoc {α : Type} {l : List α} {a p : α} {i : Nat}
    (h : (l ++ [a])[i]? = some p) :
    (i < l.length ∧ l[i]? = some p) ∨ (i = l.length ∧ p = a) := by
  rcases Nat.lt_or_ge i l.length with hil | hil
  · rw [List.getElem?_append_left hil] at h
    exact Or.inl ⟨hil, h⟩
  · rw [List.getElem?_append_right hil] at h
    rcases Nat.eq_zero_or_pos (i - l.length) with h0 | h0
    · rw [h0] at h
      simp at h
      exact Or.inr ⟨by omega, h.symm⟩
    · rw [List.getElem?_eq_none (by simp; omega)] at h
      simp at h

theorem eq_of_source_eq {c : List alSourceCacheEntry} (hn : (c.map fun e => e.source).Nodup)
    {a b : alSourceCacheEntry} (ha : a ∈ c) (hb : b ∈ c) (h : a.source = b.source) : a = b :=
  List.inj_on_of_nodup_map hn ha hb h

theorem filter_source_eq_singleton {c : List alSourceCacheEntry}
    (hn : (c.map fun e => e.source).Nodup) {e : alSourceCacheEntry} (he : e ∈ c) :
    c.filter (fun x => x.source = e.source) = [e] := by
  induction c with
  | nil => simp at he
  | cons a l ih =>
    simp only [List.map_cons, List.nodup_cons, List.mem_map, not_exists, not_and] at hn
    rcases List.mem_cons.mp he with rfl | hl
    · have : l.filter (fun x => decide (x.source = e.source)) = [] := by
        simp only [List.filter_eq_nil_iff, decide_eq_true_eq]
        intro x hx hxe
        exact hn.1 x hx hxe
      simp [List.filter_cons, this]
    · have hne : a.source ≠ e.source := fun h => hn.1 e hl h.symm
      simp [List.filter_cons, hne, ih hn.2 hl]

theorem PoolInv.reuse {c : List alSourceCacheEntry} {ps : List player} (h : PoolInv c ps)
    {l1 l2 : List alSourceCacheEntry} {e : alSourceCacheEntry} (hc : c = l1 ++ e :: l2)
    (hcl : e.isClosed = true) (b : List Buffer) (src : Reader) {rate : Int}
    (hrate : e.sampleRate = rate) :
    PoolInv (l1 ++ { e with isClosed := false } :: l2)
      (ps ++ [{ alSource := e.source, alBuffers := b, source := src, sampleRate := rate }]) := by
  subst hc
  have hmap : ((l1 ++ { e with isClosed := false } :: l2).map fun e => e.source) =
      ((l1 ++ e :: l2).map fun e => e.source) := by simp
  have hmem : e ∈ l1 ++ e :: l2 := by simp
  -- no live player holds the source of `e`
  have hfree : ∀ q ∈ ps, q.alSource ≠ 0 → q.alSource ≠ e.source := by
    intro q hq hq0 heq
    obtain ⟨e0, he0, hs0, hcl0, -⟩ := h.held q hq hq0
    have := eq_of_source_eq h.nodup he0 hmem (hs0.trans heq)
    subst this
    simp [hcl] at hcl0
  refine ⟨?_, ?_, ?_, ?_⟩
  · intro x hx
    simp only [List.mem_append, List.mem_cons] at hx
    rcases hx with hx | rfl | hx
    · exact h.nonzero x (by simp [hx])
    · exact h.nonzero e hmem
    · exact h.nonzero x (by simp [hx])
  · rw [hmap]; exact h.nodup
  · intro p hp hp0
    simp only [List.mem_append, List.mem_singleton] at hp
    rcases hp with hp | rfl
    · obtain ⟨e0, he0, hs0, hcl0, hr0⟩ := h.held p hp hp0
      refine ⟨e0, ?_, hs0, hcl0, hr0⟩
      simp only [List.mem_append, List.mem_cons] at he0 ⊢
      rcases he0 with h1 | rfl | h2
      · exact Or.inl h1
      · simp [hcl] at hcl0
      · exact Or.inr (Or.inr h2)
    · exact ⟨{ e with isClosed := false }, by simp, rfl, rfl, hrate⟩
  · intro i j p q hi hj hij hp0
    rcases getElem?_snoc hi with ⟨hil, hi1⟩ | ⟨hil, rfl⟩
    · rcases getElem?_snoc hj with ⟨hjl, hj1⟩ | ⟨hjl, rfl⟩
      · exact h.distinct i j p q hi1 hj1 hij hp0
      · exact hfree p (List.getElem?_mem hi1) hp0
    · rcases getElem?_snoc hj with ⟨hjl, hj1⟩ | ⟨hjl, rfl⟩
      · intro heq
        by_cases hq0 : q.alSource = 0
        · exact hp0 (heq.trans hq0)
        · exact hfree q (List.getElem?_mem hj1) hq0 heq.symm
      · omega

theorem PoolInv.fresh {c : List alSourceCacheEntry} {ps : List player} (h : PoolInv c ps)
    {s : Source} (hs0 : s ≠ 0) (hsc : ∀ e ∈ c, e.source ≠ s) (src : Reader) (rate : Int) :
    PoolInv (c ++ [{ source := s, buffers := [], sampleRate := rate, isClosed := false }])
      (ps ++ [{ alSource := s, alBuffers := [], source := src, sampleRate := rate }]) := by
  have hfree : ∀ q ∈ ps, q.alSource ≠ 0 → q.alSource ≠ s := by
    intro q hq hq0 heq
    obtain ⟨e0, he0, hs0, -, -⟩ := h.held q hq hq0
    exact hsc e0 he0 (hs0.trans heq)
  refine ⟨?_, ?_, ?_, ?_⟩
  · intro x hx
    simp only [List.mem_append, List.mem_singleton] at hx
    rcases hx with hx | rfl
    · exact h.nonzero x hx
    · exact hs0
  · rw [List.map_append, List.nodup_append]
    refine ⟨h.nodup, by simp, ?_⟩
    intro a ha hb
    simp only [List.map_cons, List.map_nil, List.mem_singleton] at hb
    simp only [List.mem_map] at ha
    obtain ⟨e, he, rfl⟩ := ha
    exact hsc e he hb
  · intro p hp hp0
    simp only [List.mem_append, List.mem_singleton] at hp
    rcases hp with hp | rfl
    · obtain ⟨e0, he0, hs0, hcl0⟩ := h.held p hp hp0
      exact ⟨e0, by simp [he0], hs0, hcl0⟩
    · exact ⟨{ source := s, buffers := [], sampleRate := rate, isClosed := false },
        by simp, rfl, rfl, rfl⟩
  · intro i j p q hi hj hij hp0
    rcases getElem?_snoc hi with ⟨hil, hi1⟩ | ⟨hil, rfl⟩
    · rcases getElem?_snoc hj with ⟨hjl, hj1⟩ | ⟨hjl, rfl⟩
      · exact h.distinct i j p q hi1 hj1 hij hp0
      · exact hfree p (List.getElem?_mem hi1) hp0
    · rcases getElem?_snoc hj with ⟨hjl, hj1⟩ | ⟨hjl, rfl⟩
      · intro heq
        by_cases hq0 : q.alSource = 0
        · exact hp0 (heq.trans hq0)
        · exact hfree q (List.getElem?_mem hj1) hq0 heq.symm
      · omega

theorem PoolInv.release {c : List alSourceCacheEntry} {ps : List player} (h : PoolInv c ps)
    {i : Nat} {p p1 : player} (hi : ps[i]? = some p) (hp1 : p1.alSource = 0)
    {l1 l2 : List alSourceCacheEntry} {e : alSourceCacheEntry} (hc : c = l1 ++ e :: l2)
    (hes : e.source = p.alSource) (b : List Buffer) :
    PoolInv (l1 ++ { e with buffers := b, isClosed := true } :: l2) (ps.set i p1) := by
  subst hc
  have hmap : ((l1 ++ { e with buffers := b, isClosed := true } :: l2).map fun e => e.source) =
      ((l1 ++ e :: l2).map fun e => e.source) := by simp
  have hmem : e ∈ l1 ++ e :: l2 := by simp
  have hil : i < ps.length := by
    rcases List.getElem?_eq_some_iff.mp hi with ⟨hl, -⟩
    exact hl
  -- a player of the new list is `p1` at index `i`, or an old player elsewhere
  have hget : ∀ (j : Nat) (q : player), (ps.set i p1)[j]? = some q →
      (j = i ∧ q = p1) ∨ (j ≠ i ∧ ps[j]? = some q) := by
    intro j q hj
    rw [List.getElem?_set] at hj
    split_ifs at hj with h1
    · subst h1
      simp at hj
      exact Or.inl ⟨rfl, hj.symm⟩
    · exact Or.inr ⟨fun hh => h1 hh.symm, hj⟩
  refine ⟨?_, ?_, ?_, ?_⟩
  · intro x hx
    simp only [List.mem_append, List.mem_cons] at hx
    rcases hx with hx | rfl | hx
    · exact h.nonzero x (by simp [hx])
    · exact h.nonzero e hmem
    · exact h.nonzero x (by simp [hx])
  · rw [hmap]; exact h.nodup
  · intro q hq hq0
    obtain ⟨j, hj⟩ := List.mem_iff_getElem?.mp hq
    rcases hget j q hj with ⟨-, rfl⟩ | ⟨hji, hj1⟩
    · exact absurd hp1 hq0
    · obtain ⟨e0, he0, hs0, hcl0⟩ := h.held q (List.getElem?_mem hj1) hq0
      have hne : q.alSource ≠ p.alSource := h.distinct j i q p hj1 hi hji hq0
      refine ⟨e0, ?_, hs0, hcl0⟩
      simp only [List.mem_append, List.mem_cons] at he0 ⊢
      rcases he0 with h1 | rfl | h2
      · exact Or.inl h1
      · exact absurd (hs0.symm.trans hes) hne
      · exact Or.inr (Or.inr h2)
  · intro j k q r hj hk hjk hq0
    rcases hget j q hj with ⟨-, rfl⟩ | ⟨hji, hj1⟩
    · exact absurd hp1 hq0
    · rcases hget k r hk with ⟨-, rfl⟩ | ⟨hki, hk1⟩
      · rw [hp1]; exact hq0
      · exact h.distinct j k q r hj1 hk1 hjk hq0

@[simp]
theorem World.call_cache (w : World) (c : AlCall) :
    (w.call c).alSourceCache = w.alSourceCache := rfl

@[simp]
theorem World.call_alErr (w : World) (c : AlCall) : (w.call c).alErr = w.alErr := rfl

@[simp]
theorem World.call_calls (w : World) (c : AlCall) :
    (w.call c).calls = w.calls ++ [c] := rfl

@[simp]
theorem World.raise_cache (w : World) (f : Nat) :
    (w.raise f).alSourceCache = w.alSourceCache := rfl

@[simp]
theorem World.raise_calls (w : World) (f : Nat) : (w.raise f).calls = w.calls := rfl

@[simp]
theorem World.raise_alErr (w : World) (f : Nat) :
    (w.raise f).alErr = if w.alErr = 0 then f else w.alErr := rfl

@[simp]
theorem World.Error_fst (w : World) : w.Error.1 = w.alErr := rfl

@[simp]
theorem World.Error_cache (w : World) : w.Error.2.alSourceCache = w.alSourceCache := rfl

@[simp]
theorem World.Error_alErr (w : World) : w.Error.2.alErr = 0 := rfl

@[simp]
theorem World.Error_calls (w : World) :
    w.Error.2.calls = w.calls ++ [AlCall.getError] := rfl

theorem newAlSource_ret {w w1 : World} {rate : Int} {env : GenEnv} {s : Source}
    {b : List Buffer} {err : Option Error}
    (h : newAlSource w rate env = Run.ret (s, b, err) w1) :
    (∃ e, scan rate w.alSourceCache = some (e, w1.alSourceCache) ∧ s = e.source ∧
        b = e.buffers ∧ err = none ∧ w1 = { w with alSourceCache := w1.alSourceCache }) ∨
    (scan rate w.alSourceCache = none ∧ maxSourceNum ≤ w.alSourceCache.length ∧
        s = 0 ∧ b = [] ∧ err = some Error.ErrTooManyPlayers ∧ w1 = w) ∨
    (scan rate w.alSourceCache = none ∧ w.alSourceCache.length < maxSourceNum ∧
        s = env.source ∧ b = [] ∧ err = none ∧
        w1.alSourceCache = w.alSourceCache ++
          [{ source := env.source, buffers := [], sampleRate := rate, isClosed := false }]) := by
  unfold newAlSource at h
  split at h
  · rename_i e cache hs
    simp only [Run.ret.injEq, Prod.mk.injEq] at h
    obtain ⟨⟨rfl, rfl, rfl⟩, rfl⟩ := h
    exact Or.inl ⟨e, hs, rfl, rfl, rfl, rfl⟩
  · rename_i hs
    dsimp only at h
    split_ifs at h with h1 h2
    · simp only [Run.ret.injEq, Prod.mk.injEq] at h
      obtain ⟨⟨rfl, rfl, rfl⟩, rfl⟩ := h
      exact Or.inr (Or.inl ⟨hs, h1, rfl, rfl, rfl, rfl⟩)
    · simp only [Run.ret.injEq, Prod.mk.injEq] at h
      obtain ⟨⟨rfl, rfl, rfl⟩, rfl⟩ := h
      exact Or.inr (Or.inr ⟨hs, by omega, rfl, rfl, rfl, rfl⟩)

theorem close_ret {p p1 : player} {w w1 : World} {env : CloseEnv} {u : Unit}
    (h : close p w env = Run.ret u (p1, w1)) :
    (p.alSource = 0 ∧ p1 = p ∧ w1.alSourceCache = w.alSourceCache) ∨
    (p.alSource ≠ 0 ∧ p1.alSource = 0 ∧
      p1.alBuffers = p.alBuffers ++ (if 0 < env.queued then names env.unqueued env.queued else []) ∧
      release p.alSource p1.alBuffers w.alSourceCache = Except.ok w1.alSourceCache) := by
  unfold close at h
  dsimp only at h
  by_cases hp : p.alSource = 0
  · simp only [closeDevice, hp, ne_eq, not_true_eq_false, if_false] at h
    split_ifs at h
    simp only [Run.ret.injEq, Prod.mk.injEq] at h
    obtain ⟨-, rfl, rfl⟩ := h
    exact Or.inl ⟨hp, rfl, rfl⟩
  · right
    refine ⟨hp, ?_⟩
    simp only [closeDevice, hp, ne_eq, not_false_eq_true, if_true] at h
    by_cases hq : 0 < env.queued
    · simp only [hq, if_true] at h
      split_ifs at h
      split at h
      · simp at h
      · rename_i cache hr
        simp only [Run.ret.injEq, Prod.mk.injEq] at h
        obtain ⟨-, rfl, rfl⟩ := h
        exact ⟨rfl, by simp [hq], hr⟩
    · simp only [hq, if_false] at h
      split_ifs at h
      split at h
      · simp at h
      · rename_i cache hr
        simp only [Run.ret.injEq, Prod.mk.injEq] at h
        obtain ⟨-, rfl, rfl⟩ := h
        exact ⟨rfl, by simp [hq], hr⟩

theorem newPlayer_ret {w w1 : World} {src : Reader} {rate : Int} {env : OpenEnv}
    {r : Except Error player} (h : newPlayer w src rate env = Run.ret r w1) :
    (∃ e, env.openDevice = some e ∧ r = Except.error (Error.openDeviceFailed e) ∧
        w1 = w.call AlCall.openDevice) ∨
    (env.openDevice = none ∧ ∃ s b err,
        newAlSource (w.call AlCall.openDevice) rate env.gen = Run.ret (s, b, err) w1 ∧
        r = match err with
          | some e => Except.error e
          | none => Except.ok { alSource := s, alBuffers := b, source := src, sampleRate := rate }) := by
  unfold newPlayer at h
  dsimp only at h
  split at h
  · rename_i e he
    simp only [Run.ret.injEq] at h
    exact Or.inl ⟨e, he, h.1.symm, h.2.symm⟩
  · rename_i he
    right
    refine ⟨he, ?_⟩
    split at h
    · simp at h
    · simp at h
    · simp at h
    · rename_i s b err w2 hn
      simp only [Run.ret.injEq] at h
      obtain ⟨rfl, rfl⟩ := h
      exact ⟨_, _, _, hn, rfl⟩
    · rename_i s b w2 hn
      simp only [Run.ret.injEq] at h
      obtain ⟨rfl, rfl⟩ := h
      exact ⟨_, _, _, hn, rfl⟩

theorem fill_ret_same {env : ProceedEnv} {fuel : Nat} : ∀ {k : Nat} {p p1 : player}
    {w w1 : World} {r : Option Error}, fill env fuel k p w = Run.ret r (p1, w1) →
    p1.alSource = p.alSource ∧ p1.sampleRate = p.sampleRate ∧
      w1.alSourceCache = w.alSourceCache := by
  induction fuel with
  | zero =>
    intro k p p1 w w1 r h
    simp [fill] at h
  | succ fuel ih =>
    intro k p p1 w w1 r h
    rw [fill] at h
    split at h
    · simp only [Run.ret.injEq, Prod.mk.injEq] at h
      obtain ⟨-, rfl, rfl⟩ := h
      exact ⟨rfl, rfl, rfl⟩
    · dsimp only at h
      split_ifs at h
      · split at h
        · simp only [Run.ret.injEq, Prod.mk.injEq] at h
          obtain ⟨-, rfl, rfl⟩ := h
          exact ⟨rfl, rfl, rfl⟩
        · have := ih h
          simpa [queueChunk] using this
      · split at h
        · simp only [Run.ret.injEq, Prod.mk.injEq] at h
          obtain ⟨-, rfl, rfl⟩ := h
          exact ⟨rfl, rfl, rfl⟩
        · have := ih h
          simpa using this

theorem restart_ret_same {env : ProceedEnv} {p p1 : player} {w w1 : World} {r : Option Error}
    (h : restart env p w = Run.ret r (p1, w1)) :
    p1.alSource = p.alSource ∧ p1.sampleRate = p.sampleRate ∧
      w1.alSourceCache = w.alSourceCache := by
  unfold restart at h
  dsimp only at h
  split_ifs at h <;>
    · simp only [Run.ret.injEq, Prod.mk.injEq] at h
      obtain ⟨-, rfl, rfl⟩ := h
      exact ⟨rfl, rfl, rfl⟩

theorem fillAndRestart_ret_same {env : ProceedEnv} {fuel : Nat} {p p1 : player} {w w1 : World}
    {r : Option Error} (h : fillAndRestart env fuel p w = Run.ret r (p1, w1)) :
    p1.alSource = p.alSource ∧ p1.sampleRate = p.sampleRate ∧
      w1.alSourceCache = w.alSourceCache := by
  unfold fillAndRestart at h
  split at h
  · rename_i p2 w2 hf
    obtain ⟨a1, a2, a3⟩ := fill_ret_same hf
    obtain ⟨b1, b2, b3⟩ := restart_ret_same h
    exact ⟨b1.trans a1, b2.trans a2, b3.trans a3⟩
  · exact fill_ret_same h

theorem proceed_ret_same {fuel : Nat} {env : ProceedEnv} {p p1 : player} {w w1 : World}
    {r : Option Error} (h : proceed fuel p w env = Run.ret r (p1, w1)) :
    p1.alSource = p.alSource ∧ p1.sampleRate = p.sampleRate ∧
      w1.alSourceCache = w.alSourceCache := by
  unfold proceed at h
  dsimp only at h
  split_ifs at h
  · have := fillAndRestart_ret_same h
    simpa using this
  · have := fillAndRestart_ret_same h
    simpa using this

theorem play_same (p : player) (w : World) (env : PlayEnv) :
    (play p w env).1.alSource = p.alSource ∧ (play p w env).1.sampleRate = p.sampleRate ∧
      (play p w env).2.alSourceCache = w.alSourceCache := by
  have hprime : ∀ (bufs : List Buffer) (w1 : World),
      (primeAll p bufs w1).alSourceCache = w1.alSourceCache := by
    intro bufs
    induction bufs with
    | nil => intro w1; rfl
    | cons b bs ih =>
      intro w1
      simp only [primeAll, List.foldl_cons] at ih ⊢
      rw [ih]
      rfl
  refine ⟨rfl, rfl, ?_⟩
  unfold play
  dsimp only
  split_ifs <;> simp [hprime]

theorem PoolInv.update {c : List alSourceCacheEntry} {ps : List player} (h : PoolInv c ps)
    {i : Nat} {p p1 : player} (hi : ps[i]? = some p) (hs : p1.alSource = p.alSource)
    (hr : p1.sampleRate = p.sampleRate) : PoolInv c (ps.set i p1) := by
  have hget : ∀ (j : Nat) (q : player), (ps.set i p1)[j]? = some q →
      ∃ q0, ps[j]? = some q0 ∧ q.alSource = q0.alSource ∧ q.sampleRate = q0.sampleRate := by
    intro j q hj
    rw [List.getElem?_set] at hj
    split_ifs at hj with h1
    · subst h1
      simp only [Option.some.injEq] at hj
      subst hj
      exact ⟨p, hi, hs, hr⟩
    · exact ⟨q, hj, rfl, rfl⟩
  refine ⟨h.nonzero, h.nodup, ?_, ?_⟩
  · intro q hq hq0
    obtain ⟨j, hj⟩ := List.mem_iff_getElem?.mp hq
    obtain ⟨q0, hj0, hqs, hqr⟩ := hget j q hj
    rw [hqs, hqr]
    rw [hqs] at hq0
    exact h.held q0 (List.getElem?_mem hj0) hq0
  · intro j k q r hj hk hjk hq0
    obtain ⟨q0, hj0, hqs, -⟩ := hget j q hj
    obtain ⟨r0, hk0, hrs, -⟩ := hget k r hk
    rw [hqs, hrs]
    rw [hqs] at hq0
    exact h.distinct j k q0 r0 hj0 hk0 hjk hq0

theorem step_inv {s s1 : System} {op : Op} (h : PoolInv s.world.alSourceCache s.players)
    (hf : freshRun s [op]) (hs : step s op = some s1) :
    PoolInv s1.world.alSourceCache s1.players := by
  cases op with
  | newPlayer src rate env =>
    simp only [step] at hs
    split at hs
    · rename_i p w hn
      simp only [Option.some.injEq] at hs
      subst hs
      rcases newPlayer_ret hn with ⟨e, -, hr, -⟩ | ⟨ho, sx, b, err, hna, hr⟩
      · simp at hr
      · cases err with
        | some e => simp at hr
        | none =>
          simp only [Except.ok.injEq] at hr
          subst hr
          rcases newAlSource_ret hna with ⟨e, hsc, rfl, rfl, -, -⟩ | ⟨-, -, -, -, he, -⟩ |
            ⟨hsc, hlen, rfl, rfl, -, hc⟩
          · obtain ⟨l1, l2, hc, hc1, hrate, hcl, -⟩ := scan_eq_some_split hsc
            simp only [World.call_cache] at hc
            dsimp only
            rw [hc1]
            exact h.reuse hc hcl _ _ hrate
          · simp at he
          · simp only [World.call_cache] at hc hsc hlen
            dsimp only
            rw [hc]
            have hfr := hf.1 ho ⟨hsc, hlen⟩
            exact h.fresh hfr.1 hfr.2 _ _
    · rename_i e w hn
      simp only [Option.some.injEq] at hs
      subst hs
      dsimp only
      rcases newPlayer_ret hn with ⟨e, -, -, rfl⟩ | ⟨ho, sx, b, err, hna, hr⟩
      · simpa using h
      · rcases newAlSource_ret hna with ⟨e, -, -, -, rfl, -⟩ | ⟨-, -, -, -, -, rfl⟩ |
          ⟨-, -, -, -, rfl, -⟩
        · simp at hr
        · simpa using h
        · simp at hr
    · simp at hs
  | play i env =>
    simp only [step] at hs
    split at hs
    · simp at hs
    · rename_i p hi
      simp only [Option.some.injEq] at hs
      subst hs
      dsimp only
      obtain ⟨a1, a2, a3⟩ := play_same p s.world env
      rw [a3]
      exact h.update hi a1 a2
  | proceed i fuel env =>
    simp only [step] at hs
    split at hs
    · simp at hs
    · rename_i p hi
      split at hs
      · rename_i u p1 w hpr
        simp only [Option.some.injEq] at hs
        subst hs
        dsimp only
        obtain ⟨a1, a2, a3⟩ := proceed_ret_same hpr
        rw [a3]
        exact h.update hi a1 a2
      · simp at hs
  | close i env =>
    simp only [step] at hs
    split at hs
    · simp at hs
    · rename_i p hi
      split at hs
      · rename_i u p1 w hcl
        simp only [Option.some.injEq] at hs
        subst hs
        dsimp only
        rcases close_ret hcl with ⟨-, rfl, hc⟩ | ⟨hp0, hp1, -, hrel⟩
        · rw [hc]
          have : s.players.set i p1 = s.players := by
            apply List.ext_getElem?
            intro j
            rw [List.getElem?_set]
            split_ifs with h1 h2
            · subst h1; exact hi.symm
            · subst h1
              rw [List.getElem?_eq_none (by omega)]
            · rfl
          rw [this]
          exact h
        · obtain ⟨l1, e, l2, hc, hc1, hes, -, -⟩ := release_ok_split hrel
          rw [hc1]
          exact h.release hi hp1 hc hes _
      · simp at hs

theorem run_inv {ops : List Op} : ∀ {s s1 : System}, PoolInv s.world.alSourceCache s.players →
    freshRun s ops → run s ops = some s1 → PoolInv s1.world.alSourceCache s1.players := by
  induction ops with
  | nil =>
    intro s s1 h _ hr
    simp only [run, Option.some.injEq] at hr
    subst hr
    exact h
  | cons op ops ih =>
    intro s s1 h hf hr
    simp only [run] at hr
    split at hr
    · simp at hr
    · rename_i s2 hstep
      have hf2 := hf.2
      simp only [hstep] at hf2
      exact ih (step_inv h ⟨hf.1, by simp [freshRun, hstep]⟩ hstep) hf2 hr

theorem PoolInv.empty : PoolInv [] [] :=
  ⟨by simp, by simp, by simp, by simp⟩

theorem PoolInv.noDoubleClaim {s : System} (h : PoolInv s.world.alSourceCache s.players) :
    NoDoubleClaim s := by
  refine ⟨?_, ?_⟩
  · intro i j p q hi hj hij hp
    exact h.distinct i j p q hi hj hij hp
  · intro p hp hlive
    obtain ⟨e, he, hs, hcl, -⟩ := h.held p hp hlive
    refine ⟨e, ?_, hcl⟩
    rw [← hs]
    exact filter_source_eq_singleton h.nodup he

theorem PoolInv.claim_not_held {s : System} (h : PoolInv s.world.alSourceCache s.players)
    {rate : Int} {env : GenEnv} {hd : Source} {b : List Buffer} {w1 : World}
    (hfresh : reachesGen s.world rate → genFresh s.world env)
    (hn : newAlSource s.world rate env = Run.ret (hd, b, none) w1) :
    ∀ p ∈ s.players, p.live → p.alSource ≠ hd := by
  intro p hp hlive heq
  obtain ⟨e0, he0, hs0, hcl0, -⟩ := h.held p hp hlive
  rcases newAlSource_ret hn with ⟨e, hsc, rfl, -, -, -⟩ | ⟨-, -, -, -, he, -⟩ |
    ⟨hsc, hlen, rfl, -, -, -⟩
  · obtain ⟨l1, l2, hc, -, -, hcl, -⟩ := scan_eq_some_split hsc
    have hmem : e ∈ s.world.alSourceCache := by rw [hc]; simp
    have := eq_of_source_eq h.nodup he0 hmem (hs0.trans heq)
    subst this
    simp [hcl] at hcl0
  · simp at he
  · exact (hfresh ⟨hsc, hlen⟩).2 e0 he0 (hs0.trans heq)

/-! ## The claims -/

/-- C1 (no double-claim).  Run any sequence of `newPlayer` (claim), `play`,
`proceed` and `close` (release) operations from an empty `alSourceCache`, every
`al.GenSources` call
handing out a fresh non-zero name.  In the state reached, no two live players
hold the same source handle, the handle of every live player is the source of
exactly one cache entry and that entry has `isClosed == false`; and a further
`newAlSource` call never returns a handle held by a live player. -/
theorem no_double_claim (w0 : World) (ops : List Op) (s : System)
    (h0 : w0.alSourceCache = [])
    (hfresh : freshRun { world := w0, players := [] } ops)
    (hrun : run { world := w0, players := [] } ops = some s) :
    NoDoubleClaim s ∧
    ∀ (rate : Int) (env : GenEnv) (hd : Source) (b : List Buffer) (w1 : World),
      (reachesGen s.world rate → genFresh s.world env) →
      newAlSource s.world rate env = Run.ret (hd, b, none) w1 →
      ∀ p ∈ s.players, p.live → p.alSource ≠ hd := by
  have hinv : PoolInv s.world.alSourceCache s.players :=
    run_inv (s := { world := w0, players := [] }) (by simpa [h0] using PoolInv.empty) hfresh hrun
  exact ⟨hinv.noDoubleClaim, fun rate env hd b w1 hf hn => hinv.claim_not_held hf hn⟩

theorem reuseOps_fresh : freshRun { world := World.init, players := [] } reuseOps := by
  simp [freshRun, reuseOps, step, newPlayer, newAlSource, scan, okOpen, World.init, genFresh,
    reachesGen, World.call, World.raise, World.Error, maxSourceNum, close, closeDevice, release,
    idleClose]

/-- Witness for C1: the hypotheses hold on `reuseOps`, whose third player
reuses source 1 after the first player released it. -/
theorem no_double_claim_witness :
    freshRun { world := World.init, players := [] } reuseOps ∧
    run { world := World.init, players := [] } reuseOps = some reuseFinal ∧
    NoDoubleClaim reuseFinal :=
  ⟨reuseOps_fresh, rfl,
    (no_double_claim World.init reuseOps reuseFinal rfl reuseOps_fresh rfl).1⟩

theorem step_length {s s1 : System} {op : Op} (hs : step s op = some s1) :
    s.world.alSourceCache.length ≤ s1.world.alSourceCache.length ∧
    s1.world.alSourceCache.length ≤ s.world.alSourceCache.length + 1 ∧
    (s.world.alSourceCache.length ≤ maxSourceNum →
      s1.world.alSourceCache.length ≤ maxSourceNum) := by
  cases op with
  | newPlayer src rate env =>
    have key : ∀ (r : Except Error player) (w : World),
        newPlayer s.world src rate env = Run.ret r w →
        s.world.alSourceCache.length ≤ w.alSourceCache.length ∧
        w.alSourceCache.length ≤ s.world.alSourceCache.length + 1 ∧
        (s.world.alSourceCache.length ≤ maxSourceNum →
          w.alSourceCache.length ≤ maxSourceNum) := by
      intro r w hn
      rcases newPlayer_ret hn with ⟨e, -, -, rfl⟩ | ⟨-, sx, b, err, hna, -⟩
      · simp
      · rcases newAlSource_ret hna with ⟨e, hsc, -, -, -, -⟩ | ⟨-, -, -, -, -, rfl⟩ |
          ⟨-, hlen, -, -, -, hc⟩
        · obtain ⟨l1, l2, hc, hc1, -, -, -⟩ := scan_eq_some_split hsc
          simp only [World.call_cache] at hc
          rw [hc1, hc]
          simp
        · simp
        · simp only [World.call_cache] at hc hlen
          rw [hc]
          simp only [List.length_append, List.length_singleton]
          omega
    simp only [step] at hs
    split at hs
    · rename_i p w hn
      simp only [Option.some.injEq] at hs
      subst hs
      exact key _ _ hn
    · rename_i e w hn
      simp only [Option.some.injEq] at hs
      subst hs
      exact key _ _ hn
    · simp at hs
  | play i env =>
    simp only [step] at hs
    split at hs
    · simp at hs
    · simp only [Option.some.injEq] at hs
      subst hs
      dsimp only
      rw [(play_same _ s.world env).2.2]
      simp
  | proceed i fuel env =>
    simp only [step] at hs
    split at hs
    · simp at hs
    · split at hs
      · rename_i u p1 w hpr
        simp only [Option.some.injEq] at hs
        subst hs
        dsimp only
        rw [(proceed_ret_same hpr).2.2]
        simp
      · simp at hs
  | close i env =>
    simp only [step] at hs
    split at hs
    · simp at hs
    · rename_i p hi
      split at hs
      · rename_i u p1 w hcl
        simp only [Option.some.injEq] at hs
        subst hs
        dsimp only
        rcases close_ret hcl with ⟨-, -, hc⟩ | ⟨-, -, -, hrel⟩
        · rw [hc]; simp
        · obtain ⟨l1, e, l2, hc, hc1, -, -, -⟩ := release_ok_split hrel
          rw [hc1, hc]
          simp
      · simp at hs

theorem run_length_le {ops : List Op} : ∀ {s s1 : System},
    s.world.alSourceCache.length ≤ maxSourceNum → run s ops = some s1 →
    s1.world.alSourceCache.length ≤ maxSourceNum := by
  induction ops with
  | nil =>
    intro s s1 h hr
    simp only [run, Option.some.injEq] at hr
    subst hr
    exact h
  | cons op ops ih =>
    intro s s1 h hr
    simp only [run] at hr
    split at hr
    · simp at hr
    · rename_i s2 hstep
      exact ih ((step_length hstep).2.2 h) hr

theorem newAlSource_full {w : World} {rate : Int} (env : GenEnv)
    (hlen : maxSourceNum ≤ w.alSourceCache.length)
    (hno : ∀ e ∈ w.alSourceCache, ¬(e.sampleRate = rate ∧ e.isClosed = true)) :
    newAlSource w rate env = Run.ret (0, [], some Error.ErrTooManyPlayers) w := by
  unfold newAlSource
  rw [(scan_eq_none_iff rate _).mpr hno]
  simp [hlen]

theorem newAlSource_tooMany_iff (w : World) (rate : Int) (env : GenEnv) :
    (∃ hd b w1, newAlSource w rate env = Run.ret (hd, b, some Error.ErrTooManyPlayers) w1) ↔
    (maxSourceNum ≤ w.alSourceCache.length ∧
      ∀ e ∈ w.alSourceCache, ¬(e.sampleRate = rate ∧ e.isClosed = true)) := by
  constructor
  · rintro ⟨hd, b, w1, h⟩
    rcases newAlSource_ret h with ⟨e, -, -, -, he, -⟩ | ⟨hsc, hlen, -, -, -, -⟩ |
      ⟨-, -, -, -, he, -⟩
    · simp at he
    · exact ⟨hlen, (scan_eq_none_iff rate _).mp hsc⟩
    · simp at he
  · rintro ⟨hlen, hno⟩
    exact ⟨0, [], w, newAlSource_full env hlen hno⟩

theorem run_claimOps (reqs : List (Int × Source)) : ∀ (s : System),
    s.world.alErr = 0 → (∀ e ∈ s.world.alSourceCache, e.isClosed = false) →
    s.world.alSourceCache.length + reqs.length ≤ maxSourceNum →
    ∃ s1, run s (claimOps reqs) = some s1 ∧ s1.world.alErr = 0 ∧
      s1.world.alSourceCache = s.world.alSourceCache ++ reqs.map claimEntry ∧
      s1.players = s.players ++ reqs.map claimPlayer := by
  induction reqs with
  | nil =>
    intro s h0 _ _
    exact ⟨s, rfl, h0, by simp, by simp⟩
  | cons r reqs ih =>
    intro s h0 hop hlen
    simp only [List.length_cons] at hlen
    have hscan : scan r.1 s.world.alSourceCache = none :=
      (scan_eq_none_iff _ _).mpr (fun e he h => by simp [hop e he] at h)
    have hlt : ¬ maxSourceNum ≤ s.world.alSourceCache.length := by omega
    obtain ⟨s2, hs2, hstep⟩ : ∃ s2 : System, s2 =
        { world := { alSourceCache := s.world.alSourceCache ++ [claimEntry r], alErr := 0,
                     calls := s.world.calls ++ [AlCall.openDevice, AlCall.genSources 1,
                       AlCall.getError] },
          players := s.players ++ [claimPlayer r] } ∧
        step s (Op.newPlayer emptyReader r.1 (okOpen r.2)) = some s2 := by
      refine ⟨_, rfl, ?_⟩
      simp [step, newPlayer, newAlSource, okOpen, hscan, hlt, h0, claimEntry, claimPlayer,
        World.call, World.raise, World.Error]
    have hc2 : s2.world.alSourceCache = s.world.alSourceCache ++ [claimEntry r] := by rw [hs2]
    have hp2 : s2.players = s.players ++ [claimPlayer r] := by rw [hs2]
    have he2 : s2.world.alErr = 0 := by rw [hs2]
    obtain ⟨s1, hrun, h1, h2, h3⟩ := ih s2 he2 (by
      intro e he
      rw [hc2] at he
      simp only [List.mem_append, List.mem_singleton] at he
      rcases he with he | rfl
      · exact hop e he
      · rfl) (by rw [hc2]; simp only [List.length_append, List.length_singleton]; omega)
    refine ⟨s1, ?_, h1, ?_, ?_⟩
    · simp only [claimOps, List.map_cons, run]
      rw [hstep]
      exact hrun
    · rw [h2, hc2]; simp
    · rw [h3, hp2]; simp

/-- C2 (capacity exhaustion is a reported error).  In every state reached from
an empty `alSourceCache`, `newAlSource` returns `ErrTooManyPlayers` if and only
if the cache holds `maxSourceNum` entries and none of them is closed with the
requested sample rate.  In that case it returns `(0, nil, ErrTooManyPlayers)`
with the package state unchanged (the cache and the call log are the same, so
no `al.GenSources` call was made and nothing panicked), and `newPlayer`, once
the device is open, returns that error and no player.  From the empty pool any
32 claims succeed and every further claim fails. -/
theorem too_many_players (w0 : World) (ops : List Op) (s : System)
    (h0 : w0.alSourceCache = [])
    (hrun : run { world := w0, players := [] } ops = some s)
    (rate : Int) (env : GenEnv) :
    ((∃ hd b w1, newAlSource s.world rate env =
        Run.ret (hd, b, some Error.ErrTooManyPlayers) w1) ↔
      (s.world.alSourceCache.length = maxSourceNum ∧
        ∀ e ∈ s.world.alSourceCache, ¬(e.sampleRate = rate ∧ e.isClosed = true))) ∧
    ((s.world.alSourceCache.length = maxSourceNum ∧
        ∀ e ∈ s.world.alSourceCache, ¬(e.sampleRate = rate ∧ e.isClosed = true)) →
      newAlSource s.world rate env = Run.ret (0, [], some Error.ErrTooManyPlayers) s.world ∧
      ∀ (src : Reader) (oenv : OpenEnv), oenv.openDevice = none →
        newPlayer s.world src rate oenv =
          Run.ret (Except.error Error.ErrTooManyPlayers) (s.world.call AlCall.openDevice)) ∧
    (∀ reqs : List (Int × Source), reqs.length = maxSourceNum →
      ∃ s1, run System.init (claimOps reqs) = some s1 ∧
        s1.players = reqs.map claimPlayer ∧
        ∀ (rate1 : Int) (env1 : GenEnv), newAlSource s1.world rate1 env1 =
          Run.ret (0, [], some Error.ErrTooManyPlayers) s1.world) := by
  have hle : s.world.alSourceCache.length ≤ maxSourceNum :=
    run_length_le (s := { world := w0, players := [] }) (by simp [h0]) hrun
  refine ⟨?_, ?_, ?_⟩
  · rw [newAlSource_tooMany_iff]
    constructor
    · rintro ⟨h1, h2⟩
      exact ⟨le_antisymm hle h1, h2⟩
    · rintro ⟨h1, h2⟩
      exact ⟨h1.ge, h2⟩
  · rintro ⟨h1, h2⟩
    refine ⟨newAlSource_full env h1.ge h2, ?_⟩
    intro src oenv ho
    have := newAlSource_full (w := s.world.call AlCall.openDevice) oenv.gen
      (by simpa using h1.ge) (by simpa using h2)
    simp [newPlayer, ho, this]
  · intro reqs hlen
    obtain ⟨s1, hr, -, hc, hp⟩ := run_claimOps reqs System.init rfl (by simp [System.init, World.init])
      (by simp [System.init, World.init, hlen])
    refine ⟨s1, hr, by simpa [System.init] using hp, ?_⟩
    intro rate1 env1
    apply newAlSource_full
    · rw [hc]; simp [System.init, World.init, hlen]
    · intro e he
      rw [hc] at he
      simp only [System.init, World.init, List.nil_append, List.mem_map] at he
      obtain ⟨r, -, rfl⟩ := he
      simp [claimEntry]

set_option maxRecDepth 100000 in
theorem fullPool_run :
    run { world := World.init, players := [] } (claimOps fullReqs) = some fullPool := by
  rfl

set_option maxRecDepth 100000 in
theorem fullPool_all_claimed :
    fullPool.world.alSourceCache.length = maxSourceNum ∧
    ∀ e ∈ fullPool.world.alSourceCache, ¬(e.sampleRate = 33 ∧ e.isClosed = true) := by
  decide

/-- Witness for C2: after the 32 claims `fullReqs`, a claim at the new sample
rate 33 returns `ErrTooManyPlayers` and leaves the state unchanged. -/
theorem too_many_players_witness :
    run { world := World.init, players := [] } (claimOps fullReqs) = some fullPool ∧
    newAlSource fullPool.world 33 { source := 33, fault := 0 } =
      Run.ret (0, [], some Error.ErrTooManyPlayers) fullPool.world :=
  ⟨fullPool_run, ((too_many_players World.init (claimOps fullReqs) fullPool rfl fullPool_run 33
    { source := 33, fault := 0 }).2.1 fullPool_all_claimed).1⟩

theorem run_append (a b : List Op) : ∀ (s : System),
    run s (a ++ b) = (run s a).bind fun s1 => run s1 b := by
  induction a with
  | nil => intro s; simp [run]
  | cons op a ih =>
    intro s
    simp only [List.cons_append, run]
    split
    · simp
    · exact ih _

theorem newAlSource_reuse_ok {w : World} {rate : Int} (env : GenEnv)
    (h : ∃ e ∈ w.alSourceCache, e.sampleRate = rate ∧ e.isClosed = true) :
    ∃ hd b w1, newAlSource w rate env = Run.ret (hd, b, none) w1 := by
  unfold newAlSource
  split
  · exact ⟨_, _, _, rfl⟩
  · rename_i hs
    obtain ⟨e, he, hr, hc⟩ := h
    exact absurd ⟨hr, hc⟩ ((scan_eq_none_iff rate _).mp hs e he)

set_option maxRecDepth 100000 in
/-- Counterexample to C3: after 32 claims at the sample rates 1, ..., 32 and
the release of the first of them, the claim of the never-seen sample rate 33
still returns `ErrTooManyPlayers`. -/
theorem release_keeps_pool_full :
    run System.init (claimOps fullReqs ++ [Op.close 0 idleClose]) = some releasedPool ∧
    (∀ r ∈ fullReqs, r.1 ≠ 33) ∧
    newAlSource releasedPool.world 33 { source := 33, fault := 0 } =
      Run.ret (0, [], some Error.ErrTooManyPlayers) releasedPool.world := by
  refine ⟨rfl, by decide, rfl⟩

/-- C3, amended.  After 32 claims from the empty pool (fresh non-zero source
names) and the release of one of them, the claim of a sample rate that was
never requested still fails with `ErrTooManyPlayers`, while a claim at the
sample rate of the released entry succeeds. -/
theorem release_frees_same_rate_only (reqs : List (Int × Source)) (i : Nat) (cenv : CloseEnv)
    (s : System) (hlen : reqs.length = maxSourceNum)
    (hnz : ∀ r ∈ reqs, r.2 ≠ 0) (hnd : (reqs.map fun r => r.2).Nodup)
    (hrun : run System.init (claimOps reqs ++ [Op.close i cenv]) = some s) :
    (∀ (rate : Int) (env : GenEnv), (∀ r ∈ reqs, r.1 ≠ rate) →
      newAlSource s.world rate env =
        Run.ret (0, [], some Error.ErrTooManyPlayers) s.world) ∧
    (∀ r, reqs[i]? = some r → ∀ env : GenEnv,
      ∃ hd b w1, newAlSource s.world r.1 env = Run.ret (hd, b, none) w1) := by
  obtain ⟨s1, hr1, -, hc1, hp1⟩ := run_claimOps reqs System.init rfl
    (by simp [System.init, World.init]) (by simp [System.init, World.init, hlen])
  simp only [System.init, World.init, List.nil_append] at hc1 hp1
  rw [run_append, hr1] at hrun
  simp only [Option.some_bind, run] at hrun
  split at hrun
  · simp at hrun
  · rename_i s2 hstep
    simp only [Option.some.injEq] at hrun
    subst hrun
    simp only [step] at hstep
    split at hstep
    · simp at hstep
    · rename_i p hi
      split at hstep
      · rename_i u p1 w hcl
        simp only [Option.some.injEq] at hstep
        subst hstep
        dsimp only
        rw [hp1] at hi
        have hrates : ∀ e ∈ w.alSourceCache, ∃ r ∈ reqs, e.sampleRate = r.1 := by
          rcases close_ret hcl with ⟨-, -, hc⟩ | ⟨-, -, -, hrel⟩
          · intro e he
            rw [hc, hc1] at he
            simp only [List.mem_map] at he
            obtain ⟨r, hr, rfl⟩ := he
            exact ⟨r, hr, rfl⟩
          · obtain ⟨l1, e0, l2, hc, hc2, -, -, -⟩ := release_ok_split hrel
            have hall : ∀ e ∈ l1 ++ e0 :: l2, ∃ r ∈ reqs, e.sampleRate = r.1 := by
              intro e he
              rw [← hc, hc1] at he
              simp only [List.mem_map] at he
              obtain ⟨r, hr, rfl⟩ := he
              exact ⟨r, hr, rfl⟩
            intro e he
            rw [hc2] at he
            simp only [List.mem_append, List.mem_cons] at he
            rcases he with h1 | rfl | h2
            · exact hall e (by simp [h1])
            · exact hall e0 (by simp)
            · exact hall e (by simp [h2])
        have hlenw : w.alSourceCache.length = maxSourceNum := by
          rcases close_ret hcl with ⟨-, -, hc⟩ | ⟨-, -, -, hrel⟩
          · rw [hc, hc1]; simpa using hlen
          · obtain ⟨l1, e0, l2, hc, hc2, -, -, -⟩ := release_ok_split hrel
            have : (l1 ++ e0 :: l2).length = maxSourceNum := by
              rw [← hc, hc1]; simpa using hlen
            rw [hc2]
            simpa using this
        refine ⟨?_, ?_⟩
        · intro rate env hnew
          apply newAlSource_full env hlenw.ge
          intro e he hh
          obtain ⟨r, hr, hre⟩ := hrates e he
          exact hnew r hr (hre.symm.trans hh.1)
        · intro r hri env
          have hpr : p = claimPlayer r := by
            rw [List.getElem?_map, hri] at hi
            simpa using hi.symm
          have hr : r ∈ reqs := List.getElem?_mem hri
          have hlive : p.alSource ≠ 0 := by rw [hpr]; exact hnz r hr
          rcases close_ret hcl with ⟨h0, -, -⟩ | ⟨-, -, -, hrel⟩
          · exact absurd h0 hlive
          · obtain ⟨l1, e0, l2, hc, hc2, hs0, -, -⟩ := release_ok_split hrel
            have he0 : e0 ∈ reqs.map claimEntry := by rw [← hc1, hc]; simp
            simp only [List.mem_map] at he0
            obtain ⟨r0, hr0, rfl⟩ := he0
            have : r0 = r := by
              apply List.inj_on_of_nodup_map hnd hr0 hr
              rw [hpr] at hs0
              exact hs0
            subst this
            apply newAlSource_reuse_ok
            refine ⟨{ claimEntry r0 with buffers := p1.alBuffers, isClosed := true }, ?_, rfl, rfl⟩
            rw [hc2]
            simp
      · simp at hstep

set_option maxRecDepth 100000 in
/-- Witness for C3, amended: the hypotheses hold for the claims `fullReqs`
followed by the release of the first player. -/
theorem release_frees_same_rate_only_witness :
    run System.init (claimOps fullReqs ++ [Op.close 0 idleClose]) = some releasedPool ∧
    (∀ r ∈ fullReqs, r.1 ≠ 40) ∧
    newAlSource releasedPool.world 40 { source := 40, fault := 0 } =
      Run.ret (0, [], some Error.ErrTooManyPlayers) releasedPool.world :=
  ⟨rfl, by decide,
    (release_frees_same_rate_only fullReqs 0 idleClose releasedPool rfl (by decide) (by decide)
      rfl).1 40 { source := 40, fault := 0 } (by decide)⟩

theorem takeWhile_source_ne {s : Source} (l1 l2 : List alSourceCacheEntry)
    (e : alSourceCacheEntry) (hl1 : ∀ x ∈ l1, x.source ≠ s) (hs : e.source = s) :
    (l1 ++ e :: l2).takeWhile (fun x => decide (x.source ≠ s)) = l1 := by
  induction l1 with
  | nil => simp [List.takeWhile, hs]
  | cons a l ih =>
    have ha := hl1 a (by simp)
    have := ih (fun x hx => hl1 x (by simp [hx]))
    simp only [List.cons_append, List.takeWhile_cons, ha, ne_eq, not_false_eq_true,
      decide_True, if_true]
    simp only [ne_eq] at this
    rw [this]

/-- C5 (reuse fast path).  When the cache has an entry with the requested
sample rate and `isClosed == true`, `newAlSource` returns the source and the
buffers of the first such entry in cache order with a nil error.  The new
package state differs from the old one only in that entry, whose `isClosed`
is now false: the cache keeps its length, every other entry and the entry's
source, buffers and sampleRate; the error register and the call log are
untouched, so no `al.GenSources` call is made.  Whatever path `newAlSource`
takes, the handle it returns without error belongs to an entry with the
requested sample rate. -/
theorem reuse_fast_path (w : World) (rate : Int) (env : GenEnv)
    (h : ∃ e ∈ w.alSourceCache, e.sampleRate = rate ∧ e.isClosed = true) :
    (∃ l1 e l2, w.alSourceCache = l1 ++ e :: l2 ∧
      w.alSourceCache.find? (fun x => decide (x.sampleRate = rate ∧ x.isClosed = true)) = some e ∧
      (∀ x ∈ l1, ¬(x.sampleRate = rate ∧ x.isClosed = true)) ∧
      e.sampleRate = rate ∧ e.isClosed = true ∧
      newAlSource w rate env = Run.ret (e.source, e.buffers, none)
        { w with alSourceCache := l1 ++ { e with isClosed := false } :: l2 }) ∧
    (∀ hd b w1, newAlSource w rate env = Run.ret (hd, b, none) w1 →
      ∃ e ∈ w1.alSourceCache, e.source = hd ∧ e.buffers = b ∧ e.sampleRate = rate ∧
        e.isClosed = false) := by
  have hne : scan rate w.alSourceCache ≠ none := by
    intro hs
    obtain ⟨e, he, hr, hc⟩ := h
    exact (scan_eq_none_iff rate _).mp hs e he ⟨hr, hc⟩
  obtain ⟨⟨e, c1⟩, hsc⟩ := Option.ne_none_iff_exists'.mp hne
  obtain ⟨l1, l2, hc, hc1, hr, hcl, hl1⟩ := scan_eq_some_split hsc
  have hnew : newAlSource w rate env = Run.ret (e.source, e.buffers, none)
      { w with alSourceCache := l1 ++ { e with isClosed := false } :: l2 } := by
    unfold newAlSource
    rw [hsc, hc1]
  refine ⟨⟨l1, e, l2, hc, ?_, hl1, hr, hcl, hnew⟩, ?_⟩
  · rw [List.find?_eq_some]
    refine ⟨by simp [hr, hcl], l1, l2, hc, ?_⟩
    intro a ha
    have := hl1 a ha
    simp only [not_and, Bool.not_eq_true] at this
    by_cases hra : a.sampleRate = rate
    · simp [hra, this hra]
    · simp [hra]
  · intro hd b w1 hret
    rw [hnew] at hret
    simp only [Run.ret.injEq, Prod.mk.injEq] at hret
    obtain ⟨⟨rfl, rfl, -⟩, rfl⟩ := hret
    exact ⟨{ e with isClosed := false }, by simp, rfl, rfl, hr, rfl⟩

/-- Witness for C5: in `mixedPool` a claim at 44100 Hz skips the free entry at
48000 Hz and takes source 2, the first free entry at 44100 Hz. -/
theorem reuse_fast_path_witness :
    (∃ e ∈ mixedPool.alSourceCache, e.sampleRate = 44100 ∧ e.isClosed = true) ∧
    newAlSource mixedPool 44100 { source := 9, fault := 0 } =
      Run.ret (2, [7], none)
        { mixedPool with alSourceCache :=
            [{ source := 1, buffers := [5, 6], sampleRate := 48000, isClosed := true },
             { source := 2, buffers := [7], sampleRate := 44100, isClosed := false },
             { source := 3, buffers := [8], sampleRate := 44100, isClosed := true }] } ∧
    (∃ l1 e l2, mixedPool.alSourceCache = l1 ++ e :: l2 ∧
      mixedPool.alSourceCache.find?
        (fun x => decide (x.sampleRate = 44100 ∧ x.isClosed = true)) = some e ∧
      (∀ x ∈ l1, ¬(x.sampleRate = 44100 ∧ x.isClosed = true)) ∧
      e.sampleRate = 44100 ∧ e.isClosed = true ∧
      newAlSource mixedPool 44100 { source := 9, fault := 0 } =
        Run.ret (e.source, e.buffers, none)
          { mixedPool with alSourceCache := l1 ++ { e with isClosed := false } :: l2 }) :=
  ⟨by decide, rfl,
    (reuse_fast_path mixedPool 44100 { source := 9, fault := 0 } (by decide)).1⟩

set_option maxRecDepth 10000 in
/-- Counterexample to C4: two players at 44100 Hz hold the sources 1 and 2;
the first is released with the buffers 11, 12 and then the second with the
buffers 21, 22.  The next `newAlSource(44100)` returns source 1 with the
buffers 11, 12, not the handle and buffers just released. -/
theorem reuse_returns_first_free :
    run System.init (twoPlayersOps ++ [Op.close 1 (closeWith [21, 22])]) = some twoFreePool ∧
    newAlSource twoFreePool.world 44100 { source := 3, fault := 0 } =
      Run.ret (1, [11, 12], none)
        { twoFreePool.world with alSourceCache :=
          [{ source := 1, buffers := [11, 12], sampleRate := 44100, isClosed := false },
           { source := 2, buffers := [21, 22], sampleRate := 44100, isClosed := true }] } :=
  ⟨rfl, rfl⟩

/-- C4, amended (reuse round trip).  In a state reached from the empty pool,
let a live player hold handle S at sample rate R and let `close` release it
with buffer list B.  If no cache entry before the entry of S is free with
sample rate R, the next `newAlSource(R)` returns exactly `(S, B, nil)`. -/
theorem reuse_round_trip (w0 : World) (ops : List Op) (s : System)
    (i : Nat) (p p1 : player) (cenv : CloseEnv) (w1 : World) (genv : GenEnv)
    (h0 : w0.alSourceCache = [])
    (hfresh : freshRun { world := w0, players := [] } ops)
    (hrun : run { world := w0, players := [] } ops = some s)
    (hp : s.players[i]? = some p) (hlive : p.alSource ≠ 0)
    (hclose : close p s.world cenv = Run.ret () (p1, w1))
    (hfirst : ∀ x ∈ s.world.alSourceCache.takeWhile (fun e => decide (e.source ≠ p.alSource)),
      ¬(x.sampleRate = p.sampleRate ∧ x.isClosed = true)) :
    p1.alBuffers = p.alBuffers ++ names cenv.unqueued cenv.queued ∧
    ∃ w2, newAlSource w1 p.sampleRate genv = Run.ret (p.alSource, p1.alBuffers, none) w2 := by
  have hinv : PoolInv s.world.alSourceCache s.players :=
    run_inv (s := { world := w0, players := [] }) (by simpa [h0] using PoolInv.empty) hfresh hrun
  rcases close_ret hclose with ⟨h0, -, -⟩ | ⟨-, -, hb, hrel⟩
  · exact absurd h0 hlive
  · obtain ⟨l1, e, l2, hc, hc1, hes, -, hl1⟩ := release_ok_split hrel
    obtain ⟨e0, he0, hs0, -, hr0⟩ := hinv.held p (List.getElem?_mem hp) hlive
    have hee : e0 = e := eq_of_source_eq hinv.nodup he0 (by rw [hc]; simp) (hs0.trans hes.symm)
    subst hee
    rw [hc, takeWhile_source_ne l1 l2 e0 hl1 hes] at hfirst
    have hscan : scan p.sampleRate
        (l1 ++ { e0 with buffers := p1.alBuffers, isClosed := true } :: l2) = _ :=
      scan_append_free l1 l2 { e0 with buffers := p1.alBuffers, isClosed := true } hfirst hr0 rfl
    refine ⟨?_, ?_⟩
    · rw [hb]
      by_cases hq : 0 < cenv.queued
      · simp [hq]
      · have : cenv.queued.toNat = 0 := by omega
        simp [hq, names, this]
    · refine ⟨{ w1 with alSourceCache :=
          l1 ++ { e0 with buffers := p1.alBuffers, isClosed := false } :: l2 }, ?_⟩
      unfold newAlSource
      rw [hc1, hscan]
      simp [hes]

/-- Witness for C4, amended: a single player on source 1 at 44100 Hz is
released with the buffers 101, 102; the next claim at 44100 Hz returns source
1 with the buffers 101, 102. -/
theorem reuse_round_trip_witness :
    run { world := World.init, players := [] } onePlayerOps = some onePlayerPool ∧
    ∃ w2, newAlSource
        { onePlayerPool.world with
          alSourceCache :=
            [{ source := 1, buffers := [101, 102], sampleRate := 44100, isClosed := true }],
          calls := onePlayerPool.world.calls ++
            [AlCall.getError, AlCall.rewindSources 1, AlCall.stopSources 1,
             AlCall.buffersQueued 1, AlCall.unqueueBuffers 1 2, AlCall.getError] }
        44100 { source := 2, fault := 0 } =
      Run.ret (1, [101, 102], none) w2 :=
  ⟨rfl,
    (reuse_round_trip World.init onePlayerOps onePlayerPool 0
      { alSource := 1, alBuffers := [], source := emptyReader, sampleRate := 44100 }
      { alSource := 0, alBuffers := [101, 102], source := emptyReader, sampleRate := 44100 }
      (closeWith [101, 102]) _ { source := 2, fault := 0 } rfl
      (by simp [freshRun, onePlayerOps, step, newPlayer, newAlSource, scan, okOpen, World.init,
        genFresh, reachesGen, World.call, World.raise, World.Error, maxSourceNum])
      rfl rfl (by decide) rfl (by decide)).2⟩

theorem names_nonpos {f : Nat → Nat} {n : Int} (h : ¬ 0 < n) : names f n = [] := by
  have : n.toNat = 0 := by omega
  simp [names, this]

theorem names_length (f : Nat → Nat) (n : Int) : (names f n).length = n.toNat := by
  simp [names]

theorem close_dead (p : player) (w : World) (env : CloseEnv) (hp : p.alSource = 0)
    (hw : w.alErr = 0) :
    close p w env =
      Run.ret () (p, { w with calls := w.calls ++ [AlCall.getError, AlCall.getError] }) := by
  cases w with
  | mk c e l =>
    simp only at hw
    subst hw
    simp [close, closeDevice, hp, World.Error]

theorem close_ret_alErr {p p1 : player} {w w1 : World} {env : CloseEnv} {u : Unit}
    (h : close p w env = Run.ret u (p1, w1)) : w1.alErr = 0 := by
  unfold close at h
  dsimp only at h
  split_ifs at h
  · split at h
    · simp at h
    · simp only [Run.ret.injEq, Prod.mk.injEq] at h
      obtain ⟨-, -, rfl⟩ := h
      rfl
  · simp only [Run.ret.injEq, Prod.mk.injEq] at h
    obtain ⟨-, -, rfl⟩ := h
    rfl

theorem close_live_panic (p : player) (w : World) (env : CloseEnv) (hp : p.alSource ≠ 0)
    (hw : w.alErr = 0) (hf : env.fault = 0) {m : Panic}
    (hr : release p.alSource (p.alBuffers ++ names env.unqueued env.queued) w.alSourceCache =
      Except.error m) :
    close p w env =
      Run.panic m
        ({ p with alBuffers := p.alBuffers ++ names env.unqueued env.queued, alSource := 0 },
         { w with calls := w.calls ++ closeCalls p.alSource env.queued }) := by
  cases w with
  | mk c e l =>
    simp only at hw hr
    subst hw
    by_cases hq : 0 < env.queued
    · simp [close, closeDevice, hp, hq, hf, World.Error, World.call, World.raise, closeCalls, hr]
    · rw [names_nonpos hq] at hr
      simp at hr
      simp [close, closeDevice, hp, hq, hf, World.Error, World.call, World.raise, closeCalls,
        names_nonpos hq, hr]

theorem close_live_ret (p : player) (w : World) (env : CloseEnv) (hp : p.alSource ≠ 0)
    (hw : w.alErr = 0) (hf : env.fault = 0) {cache : List alSourceCacheEntry}
    (hr : release p.alSource (p.alBuffers ++ names env.unqueued env.queued) w.alSourceCache =
      Except.ok cache) :
    close p w env =
      Run.ret ()
        ({ p with alBuffers := p.alBuffers ++ names env.unqueued env.queued, alSource := 0 },
         { w with alSourceCache := cache,
                  calls := w.calls ++ closeCalls p.alSource env.queued }) := by
  cases w with
  | mk c e l =>
    simp only at hw hr
    subst hw
    by_cases hq : 0 < env.queued
    · simp [close, closeDevice, hp, hq, hf, World.Error, World.call, World.raise, closeCalls, hr]
    · rw [names_nonpos hq] at hr
      simp at hr
      simp [close, closeDevice, hp, hq, hf, World.Error, World.call, World.raise, closeCalls,
        names_nonpos hq, hr]

/-- C6 (close is idempotent).  After a `close` that returned, a second `close`
on the same player returns as well; the only calls it makes to the binding are
the two `al.Error()` reads (no rewind, stop, queue-length query or unqueue),
and it leaves the player, the cache and the error register as the first
`close` left them.  It does not look at the cache: the same holds whatever the
cache contains, also one in which a release would panic. -/
theorem close_idempotent (p p1 : player) (w w1 : World) (env1 env2 : CloseEnv)
    (h1 : close p w env1 = Run.ret () (p1, w1)) :
    close p1 w1 env2 =
      Run.ret () (p1, { w1 with calls := w1.calls ++ [AlCall.getError, AlCall.getError] }) ∧
    ∀ c : List alSourceCacheEntry,
      close p1 { w1 with alSourceCache := c } env2 =
        Run.ret () (p1, { w1 with alSourceCache := c,
                                  calls := w1.calls ++ [AlCall.getError, AlCall.getError] }) := by
  have hp1 : p1.alSource = 0 := by
    rcases close_ret h1 with ⟨h0, rfl, -⟩ | ⟨-, h0, -, -⟩
    · exact h0
    · exact h0
  have hw1 : w1.alErr = 0 := close_ret_alErr h1
  exact ⟨close_dead p1 w1 env2 hp1 hw1, fun c => close_dead p1 _ env2 hp1 hw1⟩

/-- Witness for C6: the player of `onePlayerPool` is closed twice. -/
theorem close_idempotent_witness :
    close soloPlayer onePlayerPool.world (closeWith [101, 102]) =
      Run.ret () (soloClosed, soloClosedWorld) ∧
    close soloClosed soloClosedWorld idleClose =
      Run.ret () (soloClosed,
        { soloClosedWorld with
          calls := soloClosedWorld.calls ++ [AlCall.getError, AlCall.getError] }) :=
  ⟨rfl, (close_idempotent soloPlayer soloClosed onePlayerPool.world soloClosedWorld
    (closeWith [101, 102]) idleClose rfl).1⟩

theorem release_of_find_none {s : Source} (b : List Buffer) {c : List alSourceCacheEntry}
    (h : c.find? (fun e => decide (e.source = s)) = none) :
    release s b c = Except.error Panic.notCached := by
  apply release_not_cached
  intro x hx
  have := List.find?_eq_none.mp h x hx
  simpa using this

theorem split_of_find_some {s : Source} {c : List alSourceCacheEntry} {e : alSourceCacheEntry}
    (h : c.find? (fun e => decide (e.source = s)) = some e) :
    e.source = s ∧ ∃ l1 l2, c = l1 ++ e :: l2 ∧ ∀ x ∈ l1, x.source ≠ s := by
  obtain ⟨hs, l1, l2, hc, hl1⟩ := List.find?_eq_some.mp h
  refine ⟨by simpa using hs, l1, l2, hc, ?_⟩
  intro x hx
  have := hl1 x hx
  simpa using this

/-- C7 (release fails fatally on a broken pool).  Let a player hold the
non-zero source handle `s`, with a zero device error register at both reads
of `close`.  Then `close` panics exactly when the cache has no entry whose
source is `s` (panic of line 221) or the first such entry is already closed
(panic of line 213).  Otherwise it returns, and the new cache is the old one
with that first entry marked closed and carrying the free list of the player
(its old free list followed by the unqueued buffers); no other entry changes. -/
theorem close_panics_iff (p : player) (w : World) (env : CloseEnv)
    (hlive : p.alSource ≠ 0) (hw : w.alErr = 0) (hf : env.fault = 0) :
    ((∃ m st, close p w env = Run.panic m st) ↔
      (w.alSourceCache.find? (fun e => decide (e.source = p.alSource)) = none ∨
       ∃ e, w.alSourceCache.find? (fun e => decide (e.source = p.alSource)) = some e ∧
         e.isClosed = true)) ∧
    (w.alSourceCache.find? (fun e => decide (e.source = p.alSource)) = none →
      ∃ st, close p w env = Run.panic Panic.notCached st) ∧
    (∀ e, w.alSourceCache.find? (fun e => decide (e.source = p.alSource)) = some e →
      e.isClosed = true → ∃ st, close p w env = Run.panic Panic.alreadyClosed st) ∧
    (∀ e, w.alSourceCache.find? (fun e => decide (e.source = p.alSource)) = some e →
      e.isClosed = false →
      ∃ l1 l2, w.alSourceCache = l1 ++ e :: l2 ∧ (∀ x ∈ l1, x.source ≠ p.alSource) ∧
        close p w env =
          Run.ret ()
            ({ p with alBuffers := p.alBuffers ++ names env.unqueued env.queued, alSource := 0 },
             { w with
               alSourceCache := l1 ++
                 { e with buffers := p.alBuffers ++ names env.unqueued env.queued,
                          isClosed := true } :: l2,
               calls := w.calls ++ closeCalls p.alSource env.queued })) := by
  have hnone : w.alSourceCache.find? (fun e => decide (e.source = p.alSource)) = none →
      ∃ st, close p w env = Run.panic Panic.notCached st := by
    intro h
    exact ⟨_, close_live_panic p w env hlive hw hf (release_of_find_none _ h)⟩
  have hclosed : ∀ e, w.alSourceCache.find? (fun e => decide (e.source = p.alSource)) = some e →
      e.isClosed = true → ∃ st, close p w env = Run.panic Panic.alreadyClosed st := by
    intro e h hc
    obtain ⟨hs, l1, l2, hcache, hl1⟩ := split_of_find_some h
    refine ⟨_, close_live_panic p w env hlive hw hf ?_⟩
    rw [hcache, release_append _ l1 l2 e hl1 hs]
    simp [hc]
  have hopen : ∀ e, w.alSourceCache.find? (fun e => decide (e.source = p.alSource)) = some e →
      e.isClosed = false →
      ∃ l1 l2, w.alSourceCache = l1 ++ e :: l2 ∧ (∀ x ∈ l1, x.source ≠ p.alSource) ∧
        close p w env =
          Run.ret ()
            ({ p with alBuffers := p.alBuffers ++ names env.unqueued env.queued, alSource := 0 },
             { w with
               alSourceCache := l1 ++
                 { e with buffers := p.alBuffers ++ names env.unqueued env.queued,
                          isClosed := true } :: l2,
               calls := w.calls ++ closeCalls p.alSource env.queued }) := by
    intro e h hc
    obtain ⟨hs, l1, l2, hcache, hl1⟩ := split_of_find_some h
    refine ⟨l1, l2, hcache, hl1, close_live_ret p w env hlive hw hf ?_⟩
    rw [hcache, release_append _ l1 l2 e hl1 hs]
    simp [hc]
  refine ⟨⟨?_, ?_⟩, hnone, hclosed, hopen⟩
  · rintro ⟨m, st, hpanic⟩
    cases hfind : w.alSourceCache.find? (fun e => decide (e.source = p.alSource)) with
    | none => exact Or.inl rfl
    | some e =>
      right
      refine ⟨e, rfl, ?_⟩
      by_contra hc
      obtain ⟨l1, l2, -, -, hret⟩ := hopen e hfind (by simpa using hc)
      rw [hret] at hpanic
      simp at hpanic
  · rintro (h | ⟨e, h, hc⟩)
    · obtain ⟨st, hst⟩ := hnone h
      exact ⟨_, st, hst⟩
    · obtain ⟨st, hst⟩ := hclosed e h hc
      exact ⟨_, st, hst⟩

/-- Witness for C7: in `mixedPool` every entry is already closed, so closing a
player that holds source 2 panics at line 213. -/
theorem close_panics_iff_witness :
    (∃ m st, close { alSource := 2, alBuffers := [], source := emptyReader, sampleRate := 44100 }
      mixedPool idleClose = Run.panic m st) ∧
    ∃ st, close { alSource := 2, alBuffers := [], source := emptyReader, sampleRate := 44100 }
      mixedPool idleClose = Run.panic Panic.alreadyClosed st :=
  ⟨(close_panics_iff
      { alSource := 2, alBuffers := [], source := emptyReader, sampleRate := 44100 }
      mixedPool idleClose (by decide) rfl rfl).1.mpr (Or.inr ⟨_, rfl, rfl⟩),
   ⟨_, rfl⟩⟩

theorem primeAll_eq (p : player) (bufs : List Buffer) : ∀ w : World,
    primeAll p bufs w = { w with calls := w.calls ++ primeCalls p bufs } := by
  induction bufs with
  | nil => intro w; simp [primeAll, primeCalls]
  | cons b bs ih =>
    intro w
    have := ih ((w.call (AlCall.bufferData b FormatStereo16 (List.replicate bufferSize 0)
      (int32 p.sampleRate))).call (AlCall.queueBuffers p.alSource b))
    simp only [primeAll, List.foldl_cons] at this ⊢
    rw [this]
    simp [primeCalls, World.call, List.flatMap_cons]

theorem queuedOn_primeCalls (p : player) (bufs : List Buffer) :
    queuedOn p.alSource (primeCalls p bufs) = bufs.length := by
  induction bufs with
  | nil => simp [queuedOn, primeCalls]
  | cons b bs ih =>
    simp only [queuedOn, primeCalls, List.flatMap_cons] at ih ⊢
    simp [List.countP_cons, ih]

theorem genBuffersCalls_primeCalls (p : player) (bufs : List Buffer) :
    genBuffersCalls (primeCalls p bufs) = 0 := by
  induction bufs with
  | nil => simp [genBuffersCalls, primeCalls]
  | cons b bs ih =>
    simp only [genBuffersCalls, primeCalls, List.flatMap_cons] at ih ⊢
    simp [List.countP_cons, ih]

theorem play_eq (p : player) (w : World) (env : PlayEnv) :
    play p w env =
      ({ p with alBuffers := [] },
       { w with
         alErr := if w.alErr = 0 then env.fault else w.alErr,
         calls := w.calls ++ [AlCall.buffersQueued p.alSource] ++
           (if 0 < playNeed env.queued p.alBuffers then
              [AlCall.genBuffers (playNeed env.queued p.alBuffers).toNat] else []) ++
           primeCalls p (p.alBuffers ++ names env.gen (playNeed env.queued p.alBuffers)) ++
           [AlCall.playSources p.alSource] }) := by
  cases w with
  | mk c e l =>
    by_cases hn : 0 < playNeed env.queued p.alBuffers
    · have hlen : 0 < (names env.gen (playNeed env.queued p.alBuffers)).length := by
        rw [names_length]; omega
      simp only [play, hn, if_true, List.length_append, primeAll_eq]
      have : 0 < p.alBuffers.length + (names env.gen (playNeed env.queued p.alBuffers)).length := by
        omega
      simp [this, World.call, World.raise]
    · simp only [play, hn, if_false, primeAll_eq, names_nonpos hn, List.append_nil]
      by_cases hl : 0 < p.alBuffers.length
      · simp [hl, World.call, World.raise]
      · have : p.alBuffers = [] := by
          cases hb : p.alBuffers with
          | nil => rfl
          | cons a t => simp [hb] at hl
        simp [this, World.call, World.raise, primeCalls]

theorem queuedOn_append (s : Source) (a b : List AlCall) :
    queuedOn s (a ++ b) = queuedOn s a + queuedOn s b := by
  simp [queuedOn, List.countP_append]

theorem genBuffersCalls_append (a b : List AlCall) :
    genBuffersCalls (a ++ b) = genBuffersCalls a + genBuffersCalls b := by
  simp [genBuffersCalls, List.countP_append]

theorem queuedOn_playCalls (p : player) (env : PlayEnv) :
    queuedOn p.alSource (playCalls p env) =
      (p.alBuffers ++ names env.gen (playNeed env.queued p.alBuffers)).length := by
  simp only [playCalls, queuedOn_append, queuedOn_primeCalls]
  split_ifs <;> simp [queuedOn]

theorem genBuffersCalls_playCalls (p : player) (env : PlayEnv) :
    genBuffersCalls (playCalls p env) = if 0 < playNeed env.queued p.alBuffers then 1 else 0 := by
  simp only [playCalls, genBuffersCalls_append, genBuffersCalls_primeCalls]
  split_ifs <;> simp [genBuffersCalls]

/-- C9 (play primes the queue to depth 8).  With `q` the answer of
`BuffersQueued()` and `f` the length of the free list, `play` calls
`al.GenBuffers(8 - q - f)` when that number is positive and not at all
otherwise, so it obtains `max(0, 8 - q - f)` new buffers; it writes
`bufferSize` = 1024 zero bytes, tagged `int32(sampleRate)` (the sample rate
itself whenever it fits in 32 bits), into every free buffer, old ones first,
and queues each of them; the free list is left empty, the depth of the device
queue becomes `max(8, q + f)`, and the last call is `al.PlaySources`. -/
theorem play_primes_queue (p : player) (w : World) (env : PlayEnv) :
    play p w env =
      ({ p with alBuffers := [] },
       { w with alErr := if w.alErr = 0 then env.fault else w.alErr,
                calls := w.calls ++ playCalls p env }) ∧
    playNeed env.queued p.alBuffers = 8 - env.queued - p.alBuffers.length ∧
    ((names env.gen (playNeed env.queued p.alBuffers)).length : Int) =
      max 0 (8 - env.queued - p.alBuffers.length) ∧
    genBuffersCalls (playCalls p env) =
      (if 0 < 8 - env.queued - (p.alBuffers.length : Int) then 1 else 0) ∧
    env.queued + (queuedOn p.alSource (playCalls p env) : Int) =
      max 8 (env.queued + p.alBuffers.length) ∧
    (playCalls p env).getLast? = some (AlCall.playSources p.alSource) ∧
    (-(2 : Int) ^ 31 ≤ p.sampleRate → p.sampleRate < 2 ^ 31 → int32 p.sampleRate = p.sampleRate) := by
  have hneed : playNeed env.queued p.alBuffers = 8 - env.queued - p.alBuffers.length := rfl
  refine ⟨?_, hneed, ?_, ?_, ?_, ?_, ?_⟩
  · rw [play_eq]
    simp [playCalls]
  · rw [names_length, hneed]
    omega
  · rw [genBuffersCalls_playCalls, hneed]
  · rw [queuedOn_playCalls, List.length_append, names_length, hneed]
    push_cast
    omega
  · unfold playCalls
    rw [List.getLast?_append]
    simp
  · intro h1 h2
    unfold int32
    omega

/-- Witness for C9: a player with 2 free buffers and 3 buffers queued gets
8 - 3 - 2 = 3 new buffers, primes the old and the new ones and starts the
source. -/
theorem play_primes_queue_witness :
    play twoFree World.init threeQueued =
      ({ twoFree with alBuffers := [] },
       { World.init with
         calls :=
           [AlCall.buffersQueued 4, AlCall.genBuffers 3,
            AlCall.bufferData 1 FormatStereo16 (List.replicate 1024 0) 44100,
            AlCall.queueBuffers 4 1,
            AlCall.bufferData 2 FormatStereo16 (List.replicate 1024 0) 44100,
            AlCall.queueBuffers 4 2,
            AlCall.bufferData 10 FormatStereo16 (List.replicate 1024 0) 44100,
            AlCall.queueBuffers 4 10,
            AlCall.bufferData 11 FormatStereo16 (List.replicate 1024 0) 44100,
            AlCall.queueBuffers 4 11,
            AlCall.bufferData 12 FormatStereo16 (List.replicate 1024 0) 44100,
            AlCall.queueBuffers 4 12,
            AlCall.playSources 4] }) ∧
    threeQueued.queued + (queuedOn twoFree.alSource (playCalls twoFree threeQueued) : Int) =
      max 8 (threeQueued.queued + twoFree.alBuffers.length) ∧
    int32 twoFree.sampleRate = twoFree.sampleRate :=
  ⟨rfl, (play_primes_queue twoFree World.init threeQueued).2.2.2.2.1,
    (play_primes_queue twoFree World.init threeQueued).2.2.2.2.2.2 (by decide) (by decide)⟩

/-- C8 (buffers are not leaked by close).  In a state reached from the empty
pool, a `close` of a live player that returns leaves the handle of the player
at 0 and stores in its cache entry exactly the free list `F` of the player
followed by the `BuffersQueued()` buffers taken back from the device, and
changes no other entry; when those buffers are pairwise distinct each of them
occurs exactly once in the entry.  When the same source is claimed again at
the sample rate of the player, the claimant receives that list, and if it
holds 8 buffers the next `play`, with nothing queued, computes
`8 - 0 - 8 = 0`: it calls `al.GenBuffers` not at all and queues the 8
buffers. -/
theorem close_keeps_buffers (w0 : World) (ops : List Op) (s : System)
    (i : Nat) (p p1 : player) (cenv : CloseEnv) (w1 : World)
    (h0 : w0.alSourceCache = [])
    (hfresh : freshRun { world := w0, players := [] } ops)
    (hrun : run { world := w0, players := [] } ops = some s)
    (hp : s.players[i]? = some p) (hlive : p.alSource ≠ 0)
    (hclose : close p s.world cenv = Run.ret () (p1, w1)) :
    p1.alSource = 0 ∧
    p1.alBuffers = p.alBuffers ++ names cenv.unqueued cenv.queued ∧
    (names cenv.unqueued cenv.queued).length = cenv.queued.toNat ∧
    (∃ l1 e l2, s.world.alSourceCache = l1 ++ e :: l2 ∧ (∀ x ∈ l1, x.source ≠ p.alSource) ∧
      e.source = p.alSource ∧
      w1.alSourceCache = l1 ++
        { e with buffers := p.alBuffers ++ names cenv.unqueued cenv.queued,
                 isClosed := true } :: l2) ∧
    ((p.alBuffers ++ names cenv.unqueued cenv.queued).Nodup →
      ∀ b, b ∈ p.alBuffers ∨ b ∈ names cenv.unqueued cenv.queued →
        (p.alBuffers ++ names cenv.unqueued cenv.queued).count b = 1) ∧
    (∀ (genv : GenEnv) (b : List Buffer) (w2 : World),
      newAlSource w1 p.sampleRate genv = Run.ret (p.alSource, b, none) w2 →
      b = p.alBuffers ++ names cenv.unqueued cenv.queued ∧
      (p.alBuffers.length + cenv.queued.toNat = 8 →
        ∀ (src : Reader) (penv : PlayEnv), penv.queued = 0 →
          playNeed penv.queued b = 0 ∧
          genBuffersCalls (playCalls
            { alSource := p.alSource, alBuffers := b, source := src,
              sampleRate := p.sampleRate } penv) = 0 ∧
          queuedOn p.alSource (playCalls
            { alSource := p.alSource, alBuffers := b, source := src,
              sampleRate := p.sampleRate } penv) = 8)) := by
  have hinv : PoolInv s.world.alSourceCache s.players :=
    run_inv (s := { world := w0, players := [] }) (by simpa [h0] using PoolInv.empty) hfresh hrun
  rcases close_ret hclose with ⟨h0, -, -⟩ | ⟨-, hp1, hb, hrel⟩
  · exact absurd h0 hlive
  · have hbufs : p1.alBuffers = p.alBuffers ++ names cenv.unqueued cenv.queued := by
      rw [hb]
      by_cases hq : 0 < cenv.queued
      · simp [hq]
      · simp [hq, names_nonpos hq]
    obtain ⟨l1, e, l2, hc, hc1, hes, -, hl1⟩ := release_ok_split hrel
    rw [hbufs] at hc1
    obtain ⟨e0, he0, hs0, -, hr0⟩ := hinv.held p (List.getElem?_mem hp) hlive
    have hee : e0 = e := eq_of_source_eq hinv.nodup he0 (by rw [hc]; simp) (hs0.trans hes.symm)
    subst hee
    have hnd1 : (w1.alSourceCache.map fun e => e.source).Nodup := by
      have := hinv.nodup
      rw [hc] at this
      rw [hc1]
      simpa using this
    refine ⟨hp1, hbufs, names_length _ _, ⟨l1, e0, l2, hc, hl1, hes, hc1⟩, ?_, ?_⟩
    · intro hnd b hb
      exact List.count_eq_one_of_mem hnd (by simpa using hb)
    · intro genv b w2 hre
      obtain ⟨er, her⟩ : ∃ er : alSourceCacheEntry, er =
          { e0 with buffers := p.alBuffers ++ names cenv.unqueued cenv.queued,
                    isClosed := true } := ⟨_, rfl⟩
      have hmem : er ∈ w1.alSourceCache := by
        rw [hc1, her]; simp
      have hers : er.source = p.alSource := by rw [her]; exact hes
      have herb : er.buffers = p.alBuffers ++ names cenv.unqueued cenv.queued := by rw [her]
      have herr : er.sampleRate = p.sampleRate := by rw [her]; exact hr0
      have herc : er.isClosed = true := by rw [her]
      have hbeq : b = p.alBuffers ++ names cenv.unqueued cenv.queued := by
        rcases newAlSource_ret hre with ⟨e1, hsc, hsrc, hbe, -, -⟩ | ⟨-, -, -, -, he, -⟩ |
          ⟨hsc, -, -, -, -, -⟩
        · obtain ⟨m1, m2, hm, -, -, -, -⟩ := scan_eq_some_split hsc
          have he1 : e1 ∈ w1.alSourceCache := by rw [hm]; simp
          have := eq_of_source_eq hnd1 he1 hmem (by rw [← hsrc, hers])
          rw [hbe, this, herb]
        · simp at he
        · exact absurd ⟨herr, herc⟩ ((scan_eq_none_iff _ _).mp hsc _ hmem)
      refine ⟨hbeq, ?_⟩
      intro h8 src penv hq
      have hlen : b.length = 8 := by
        rw [hbeq, List.length_append, names_length]
        exact h8
      have hneed : playNeed penv.queued b = 0 := by
        simp [playNeed, bufferMaxNum, hq, hlen]
      refine ⟨hneed, ?_, ?_⟩
      · rw [genBuffersCalls_playCalls]
        simp [hneed]
      · have := queuedOn_playCalls
          { alSource := p.alSource, alBuffers := b, source := src,
            sampleRate := p.sampleRate } penv
        simp only at this
        rw [this, hneed]
        simp [names, hlen]

theorem onePlayerOps_fresh : freshRun { world := World.init, players := [] } onePlayerOps := by
  simp [freshRun, onePlayerOps, step, newPlayer, newAlSource, scan, okOpen, World.init,
    genFresh, reachesGen, World.call, World.raise, World.Error, maxSourceNum]

/-- Witness for C8: the player of `onePlayerPool`, with 8 buffers queued, is
closed; its entry then carries the 8 buffers, the next claim at 44100 Hz
receives them and its `play` allocates nothing. -/
theorem close_keeps_buffers_witness :
    run { world := World.init, players := [] } onePlayerOps = some onePlayerPool ∧
    close soloPlayer onePlayerPool.world eightQueued = Run.ret () (soloEight, soloEightWorld) ∧
    newAlSource soloEightWorld 44100 { source := 2, fault := 0 } =
      Run.ret (1, [20, 21, 22, 23, 24, 25, 26, 27], none)
        { soloEightWorld with
          alSourceCache :=
            [{ source := 1, buffers := [20, 21, 22, 23, 24, 25, 26, 27], sampleRate := 44100,
               isClosed := false }] } ∧
    playNeed noneQueued.queued [20, 21, 22, 23, 24, 25, 26, 27] = 0 ∧
    genBuffersCalls (playCalls soloReopened noneQueued) = 0 ∧
    queuedOn 1 (playCalls soloReopened noneQueued) = 8 :=
  ⟨rfl, rfl, rfl,
    ((close_keeps_buffers World.init onePlayerOps onePlayerPool 0 soloPlayer soloEight eightQueued
      soloEightWorld rfl onePlayerOps_fresh rfl rfl (by decide) rfl).2.2.2.2.2
      { source := 2, fault := 0 } [20, 21, 22, 23, 24, 25, 26, 27] _ rfl).2 (by decide)
      emptyReader noneQueued rfl⟩

theorem fill_chunk_panic (env : ProceedEnv) (fuel k : Nat) (p : player) (w : World)
    (buf : Buffer) (rest : List Buffer) (hfree : p.alBuffers = buf :: rest)
    (hn : 0 < (p.source.reads p.source.pos).data.length)
    (hle : (p.source.reads p.source.pos).data.length ≤ bufferSize)
    (hreg : (w.raise (env.queueFault k)).alErr ≠ 0) :
    fill env (fuel + 1) k p w =
      Run.panic (Panic.queueInProcess (w.raise (env.queueFault k)).alErr)
        (p.afterChunk rest, w.afterChunk p buf (p.source.reads p.source.pos).data) := by
  have hle2 : ¬ bufferSize < (p.source.reads p.source.pos).data.length := by omega
  rw [fill]
  simp only [hfree, Reader.Read, hn, hle2, if_true, if_false, queueChunk]
  have h1 : ((((w.call (AlCall.bufferData buf FormatStereo16 (p.source.reads p.source.pos).data
      (int32 p.sampleRate))).call (AlCall.queueBuffers p.alSource buf)).raise
      (env.queueFault k)).Error).1 = (w.raise (env.queueFault k)).alErr := rfl
  rw [if_pos (by rw [h1]; exact hreg), h1]
  simp [player.afterChunk, World.afterChunk, World.Error, World.call, World.raise]

theorem fill_chunk_ok (env : ProceedEnv) (fuel k : Nat) (p : player) (w : World)
    (buf : Buffer) (rest : List Buffer) (hfree : p.alBuffers = buf :: rest)
    (hn : 0 < (p.source.reads p.source.pos).data.length)
    (hle : (p.source.reads p.source.pos).data.length ≤ bufferSize)
    (hreg : (w.raise (env.queueFault k)).alErr = 0) :
    fill env (fuel + 1) k p w =
      match (p.source.reads p.source.pos).err with
      | some err =>
        Run.ret (some err)
          (p.afterChunk rest, w.afterChunk p buf (p.source.reads p.source.pos).data)
      | none =>
        fill env fuel (k + 1) (p.afterChunk rest)
          (w.afterChunk p buf (p.source.reads p.source.pos).data) := by
  have hle2 : ¬ bufferSize < (p.source.reads p.source.pos).data.length := by omega
  rw [fill]
  simp only [hfree, Reader.Read, hn, hle2, if_true, if_false, queueChunk]
  have h1 : ((((w.call (AlCall.bufferData buf FormatStereo16 (p.source.reads p.source.pos).data
      (int32 p.sampleRate))).call (AlCall.queueBuffers p.alSource buf)).raise
      (env.queueFault k)).Error).1 = (w.raise (env.queueFault k)).alErr := rfl
  rw [if_neg (by rw [h1, hreg]; simp)]
  cases (p.source.reads p.source.pos).err <;>
    simp [player.afterChunk, World.afterChunk, World.Error, World.call, World.raise]

theorem fill_empty_read (env : ProceedEnv) (fuel k : Nat) (p : player) (w : World)
    (buf : Buffer) (rest : List Buffer) (hfree : p.alBuffers = buf :: rest)
    (hn : (p.source.reads p.source.pos).data.length = 0) :
    fill env (fuel + 1) k p w =
      match (p.source.reads p.source.pos).err with
      | some err => Run.ret (some err) (p.afterRead, w)
      | none => fill env fuel (k + 1) p.afterRead w := by
  rw [fill]
  simp only [hfree, Reader.Read, hn, Nat.lt_irrefl, if_false]
  cases (p.source.reads p.source.pos).err <;> simp [player.afterRead, hfree]

theorem fillAndRestart_of_fill_err {env : ProceedEnv} {fuel : Nat} {p : player} {w : World}
    {err : Error} {st : player × World} (h : fill env fuel 0 p w = Run.ret (some err) st) :
    fillAndRestart env fuel p w = Run.ret (some err) st := by
  unfold fillAndRestart
  rw [h]

theorem Reader.next_succ (rd : Reader) (n : Nat) :
    rd.next (n + 1) = rd.reads rd.pos :: Reader.next { rd with pos := rd.pos + 1 } n := by
  simp only [Reader.next, List.range_succ_eq_map, List.map_cons, List.map_map]
  simp only [Nat.add_zero, List.cons.injEq, true_and]
  apply List.map_congr_left
  intro i _
  simp [Nat.add_comm, Nat.add_left_comm]

theorem fill_nil (env : ProceedEnv) (fuel k : Nat) (p : player) (w : World)
    (h : p.alBuffers = []) : fill env (fuel + 1) k p w = Run.ret none (p, w) := by
  rw [fill]
  simp [h]

theorem fill_slice_panic (env : ProceedEnv) (fuel k : Nat) (p : player) (w : World)
    (buf : Buffer) (rest : List Buffer) (hfree : p.alBuffers = buf :: rest)
    (hlt : bufferSize < (p.source.reads p.source.pos).data.length) :
    fill env (fuel + 1) k p w = Run.panic Panic.sliceBounds (p.afterChunk rest, w) := by
  have hn : 0 < (p.source.reads p.source.pos).data.length := by omega
  rw [fill]
  simp [hfree, Reader.Read, hn, hlt, player.afterChunk]

theorem fill_ret_spec {env : ProceedEnv} {fuel : Nat} : ∀ {k : Nat} {p p1 : player}
    {w w1 : World} {r : Option Error}, fill env fuel k p w = Run.ret r (p1, w1) →
    ∃ n extra, n ≤ fuel ∧ FillTrace p p1 w w1 r n extra := by
  induction fuel with
  | zero =>
    intro k p p1 w w1 r h
    simp [fill] at h
  | succ fuel ih =>
    intro k p p1 w w1 r h
    cases hfree : p.alBuffers with
    | nil =>
      rw [fill_nil env fuel k p w hfree] at h
      simp only [Run.ret.injEq, Prod.mk.injEq] at h
      obtain ⟨rfl, rfl, rfl⟩ := h
      refine ⟨0, [], Nat.zero_le _, ?_⟩
      exact {
        source := by simp
        alSource := rfl
        sampleRate := rfl
        cache := rfl
        calls := by simp
        fillCalls := by simp
        payloads := by simp [payloads, Reader.next]
        buffers := by simp [filled]
        queue := by simp [queued, filled]
        tags := by simp
        done := fun _ => ⟨hfree, by simp [Reader.next]⟩
        failed := by simp }
    | cons buf rest =>
      by_cases hn : (p.source.reads p.source.pos).data.length = 0
      · have hd : (p.source.reads p.source.pos).data = [] := List.length_eq_zero.mp hn
        rw [fill_empty_read env fuel k p w buf rest hfree hn] at h
        cases herr : (p.source.reads p.source.pos).err with
        | some e =>
          rw [herr] at h
          simp only [Run.ret.injEq, Prod.mk.injEq] at h
          obtain ⟨rfl, rfl, rfl⟩ := h
          refine ⟨1, [], by omega, ?_⟩
          exact {
            source := rfl
            alSource := rfl
            sampleRate := rfl
            cache := rfl
            calls := by simp
            fillCalls := by simp
            payloads := by simp [payloads, Reader.next, hd]
            buffers := by simp [filled, player.afterRead]
            queue := by simp [queued, filled]
            tags := by simp
            done := by simp
            failed := by
              intro e1 he1
              simp only [Option.some.injEq] at he1
              subst he1
              exact ⟨0, rfl, by simpa using herr, by simp [Reader.next]⟩ }
        | none =>
          rw [herr] at h
          obtain ⟨n, extra, hle, t⟩ := ih h
          refine ⟨n + 1, extra, by omega, ?_⟩
          exact {
            source := by
              rw [t.source]
              simp [player.afterRead, Nat.add_assoc, Nat.add_comm 1 n]
            alSource := t.alSource
            sampleRate := t.sampleRate
            cache := t.cache
            calls := t.calls
            fillCalls := t.fillCalls
            payloads := by
              rw [t.payloads, Reader.next_succ]
              simp [hd, player.afterRead]
            buffers := t.buffers
            queue := t.queue
            tags := t.tags
            done := by
              intro hr
              obtain ⟨h1, h2⟩ := t.done hr
              refine ⟨h1, ?_⟩
              rw [Reader.next_succ]
              intro x hx
              rcases List.mem_cons.mp hx with rfl | hx
              · exact herr
              · exact h2 x hx
            failed := by
              intro e he
              obtain ⟨m, hm, h1, h2⟩ := t.failed e he
              refine ⟨m + 1, by omega, ?_, ?_⟩
              · simpa [player.afterRead, Nat.add_assoc, Nat.add_comm 1 m] using h1
              · rw [Reader.next_succ]
                intro x hx
                rcases List.mem_cons.mp hx with rfl | hx
                · exact herr
                · exact h2 x hx }
      · have hpos : 0 < (p.source.reads p.source.pos).data.length := Nat.pos_of_ne_zero hn
        have hd : (p.source.reads p.source.pos).data.isEmpty = false := by
          cases hdd : (p.source.reads p.source.pos).data with
          | nil => simp [hdd] at hn
          | cons a t => rfl
        by_cases hlt : bufferSize < (p.source.reads p.source.pos).data.length
        · rw [fill_slice_panic env fuel k p w buf rest hfree hlt] at h
          simp at h
        · have hle : (p.source.reads p.source.pos).data.length ≤ bufferSize := by omega
          by_cases hreg : (w.raise (env.queueFault k)).alErr = 0
          · rw [fill_chunk_ok env fuel k p w buf rest hfree hpos hle hreg] at h
            cases herr : (p.source.reads p.source.pos).err with
            | some e =>
              rw [herr] at h
              simp only [Run.ret.injEq, Prod.mk.injEq] at h
              obtain ⟨rfl, rfl, rfl⟩ := h
              refine ⟨1,
                [AlCall.bufferData buf FormatStereo16 (p.source.reads p.source.pos).data
                  (int32 p.sampleRate), AlCall.queueBuffers p.alSource buf, AlCall.getError],
                by omega, ?_⟩
              exact {
                source := rfl
                alSource := rfl
                sampleRate := rfl
                cache := rfl
                calls := rfl
                fillCalls := by simp [isFillCall]
                payloads := by
                  rw [Reader.next_succ]
                  simp [payloads, Reader.next, hd, List.filter_cons]
                buffers := by simp [filled, player.afterChunk, hfree]
                queue := by simp [queued, filled]
                tags := by
                  intro b f d q hmem
                  simp at hmem
                  obtain ⟨-, rfl, rfl, rfl⟩ := hmem
                  exact ⟨rfl, rfl, hle⟩
                done := by simp
                failed := by
                  intro e1 he1
                  simp only [Option.some.injEq] at he1
                  subst he1
                  exact ⟨0, rfl, by simpa using herr, by simp [Reader.next]⟩ }
            | none =>
              rw [herr] at h
              obtain ⟨n, extra, hle1, t⟩ := ih h
              refine ⟨n + 1,
                [AlCall.bufferData buf FormatStereo16 (p.source.reads p.source.pos).data
                  (int32 p.sampleRate), AlCall.queueBuffers p.alSource buf, AlCall.getError] ++
                  extra, by omega, ?_⟩
              exact {
                source := by
                  rw [t.source]
                  simp [player.afterChunk, Nat.add_assoc, Nat.add_comm 1 n]
                alSource := t.alSource
                sampleRate := t.sampleRate
                cache := t.cache
                calls := by
                  rw [t.calls]
                  simp [World.afterChunk]
                fillCalls := by
                  intro c hc
                  simp only [List.mem_append, List.mem_cons, List.mem_singleton,
                    List.not_mem_nil, or_false] at hc
                  rcases hc with (rfl | rfl | rfl) | hc
                  · rfl
                  · rfl
                  · rfl
                  · exact t.fillCalls c hc
                payloads := by
                  have := t.payloads
                  simp only [payloads] at this ⊢
                  rw [Reader.next_succ]
                  simp [hd, this, player.afterChunk]
                buffers := by
                  have := t.buffers
                  simp only [filled] at this ⊢
                  simp [hfree, player.afterChunk] at this ⊢
                  exact this
                queue := by
                  have := t.queue
                  simp only [queued, filled] at this ⊢
                  simp [this, player.afterChunk]
                tags := by
                  intro b f d q hmem
                  simp only [List.mem_append, List.mem_cons, List.mem_singleton,
                    List.not_mem_nil, or_false] at hmem
                  rcases hmem with (h1 | h1 | h1) | h1
                  · simp only [AlCall.bufferData.injEq] at h1
                    obtain ⟨-, rfl, rfl, rfl⟩ := h1
                    exact ⟨rfl, rfl, hle⟩
                  · simp at h1
                  · simp at h1
                  · exact t.tags b f d q h1
                done := by
                  intro hr
                  obtain ⟨h1, h2⟩ := t.done hr
                  refine ⟨h1, ?_⟩
                  rw [Reader.next_succ]
                  intro x hx
                  rcases List.mem_cons.mp hx with rfl | hx
                  · exact herr
                  · exact h2 x hx
                failed := by
                  intro e he
                  obtain ⟨m, hm, h1, h2⟩ := t.failed e he
                  refine ⟨m + 1, by omega, ?_, ?_⟩
                  · simpa [player.afterChunk, Nat.add_assoc, Nat.add_comm 1 m] using h1
                  · rw [Reader.next_succ]
                    intro x hx
                    rcases List.mem_cons.mp hx with rfl | hx
                    · exact herr
                    · exact h2 x hx }
          · rw [fill_chunk_panic env fuel k p w buf rest hfree hpos hle hreg] at h
            simp at h

theorem restart_ret {env : ProceedEnv} {p p1 : player} {w w1 : World} {r : Option Error}
    (h : restart env p w = Run.ret r (p1, w1)) :
    r = none ∧ p1 = p ∧ w1.alSourceCache = w.alSourceCache ∧
      w1.calls = w.calls ++ restartCalls p.alSource env.state := by
  unfold restart at h
  dsimp only at h
  by_cases hs : env.state = Stopped
  · simp only [hs, if_true] at h
    split_ifs at h
    simp only [Run.ret.injEq, Prod.mk.injEq] at h
    obtain ⟨rfl, rfl, rfl⟩ := h
    simp [restartCalls, hs]
  · simp only [hs, if_false] at h
    simp only [Run.ret.injEq, Prod.mk.injEq] at h
    obtain ⟨rfl, rfl, rfl⟩ := h
    simp [restartCalls, hs]

theorem fillAndRestart_ret_spec {env : ProceedEnv} {fuel : Nat} {p p1 : player} {w w1 : World}
    {r : Option Error} (h : fillAndRestart env fuel p w = Run.ret r (p1, w1)) :
    ∃ n extra wf, n ≤ fuel ∧ FillTrace p p1 w wf r n extra ∧
      w1.alSourceCache = wf.alSourceCache ∧
      w1.calls = wf.calls ++ (if r = none then restartCalls p.alSource env.state else []) := by
  unfold fillAndRestart at h
  split at h
  · rename_i p2 w2 hf
    obtain ⟨n, extra, hle, t⟩ := fill_ret_spec hf
    obtain ⟨rfl, rfl, hc, hcalls⟩ := restart_ret h
    refine ⟨n, extra, w2, hle, t, hc, ?_⟩
    rw [hcalls, t.alSource]
    simp
  · rename_i hne
    obtain ⟨n, extra, hle, t⟩ := fill_ret_spec h
    refine ⟨n, extra, w1, hle, t, rfl, ?_⟩
    cases r with
    | none =>
      exfalso
      exact hne p1 w1 h
    | some e => simp

theorem proceed_ret_spec {fuel : Nat} {env : ProceedEnv} {p p1 : player} {w w1 : World}
    {r : Option Error} (h : proceed fuel p w env = Run.ret r (p1, w1)) :
    ∃ n extra wa wf, n ≤ fuel ∧
      FillTrace { p with alBuffers := p.alBuffers ++ names env.unqueued env.processed } p1 wa wf
        r n extra ∧
      w.alErr = 0 ∧
      wa.calls = w.calls ++ reclaimCalls p.alSource env.processed ∧
      w1.calls = wf.calls ++ (if r = none then restartCalls p.alSource env.state else []) := by
  unfold proceed at h
  dsimp only at h
  split_ifs at h with h0 hp h1
  · obtain ⟨n, extra, wf, hle, t, -, hcalls⟩ := fillAndRestart_ret_spec h
    refine ⟨n, extra, _, wf, hle, t, by simpa using h0, ?_, hcalls⟩
    simp [reclaimCalls, hp]
  · obtain ⟨n, extra, wf, hle, t, -, hcalls⟩ := fillAndRestart_ret_spec h
    have hpp : ({ p with alBuffers := p.alBuffers ++ names env.unqueued env.processed } : player)
        = p := by
      rw [names_nonpos hp, List.append_nil]
    refine ⟨n, extra,
      (w.Error.2.call (AlCall.buffersProcessed p.alSource)).raise env.reclaimFault, wf, hle, ?_,
      by simpa using h0, ?_, hcalls⟩
    · rw [hpp]; exact t
    · simp [reclaimCalls, hp]

theorem payloads_append (a b : List AlCall) : payloads (a ++ b) = payloads a ++ payloads b := by
  simp [payloads, List.filterMap_append]

theorem fill_chunks (env : ProceedEnv) (hq : ∀ k, env.queueFault k = 0) :
    ∀ (m fuel k : Nat) (p : player) (w : World) (used rest : List Buffer),
      p.alBuffers = used ++ rest → used.length = m → w.alErr = 0 →
      (∀ i, i < m → (p.source.reads (p.source.pos + i)).err = none ∧
        0 < (p.source.reads (p.source.pos + i)).data.length ∧
        (p.source.reads (p.source.pos + i)).data.length ≤ bufferSize) →
      ∃ w1, fill env (fuel + m) k p w =
          fill env fuel (k + m)
            { p with alBuffers := rest, source := { p.source with pos := p.source.pos + m } } w1 ∧
        w1.alErr = 0 ∧ w1.alSourceCache = w.alSourceCache ∧
        payloads w1.calls = payloads w.calls ++
          (List.range m).map fun i => (p.source.reads (p.source.pos + i)).data := by
  intro m
  induction m with
  | zero =>
    intro fuel k p w used rest hfree hlen hw _
    have : used = [] := List.length_eq_zero.mp hlen
    subst this
    simp only [List.nil_append] at hfree
    refine ⟨w, ?_, hw, rfl, by simp⟩
    simp only [Nat.add_zero]
    congr 1
    cases p with
    | mk a b c d =>
      simp only at hfree
      subst hfree
      rfl
  | succ m ih =>
    intro fuel k p w used rest hfree hlen hw hreads
    cases used with
    | nil => simp at hlen
    | cons buf used1 =>
      simp only [List.length_cons, Nat.add_right_cancel_iff] at hlen
      obtain ⟨he0, hn0, hl0⟩ := hreads 0 (by omega)
      simp only [Nat.add_zero] at he0 hn0 hl0
      have hreg : (w.raise (env.queueFault k)).alErr = 0 := by simp [World.raise, hq, hw]
      have hstep := fill_chunk_ok env (fuel + m) k p w buf (used1 ++ rest)
        (by simpa using hfree) hn0 hl0 hreg
      rw [he0] at hstep
      obtain ⟨w1, hrun, h1, h2, h3⟩ := ih fuel (k + 1) (p.afterChunk (used1 ++ rest))
        (w.afterChunk p buf (p.source.reads p.source.pos).data) used1 rest rfl hlen rfl
        (by
          intro i hi
          have := hreads (i + 1) (by omega)
          simpa [player.afterChunk, Nat.add_assoc, Nat.add_comm 1 i] using this)
      refine ⟨w1, ?_, h1, by rw [h2]; rfl, ?_⟩
      · rw [show fuel + (m + 1) = fuel + m + 1 by omega, hstep, hrun]
        simp [player.afterChunk, Nat.add_assoc, Nat.add_comm 1 m]
      · rw [h3, List.range_succ_eq_map]
        simp [World.afterChunk, payloads_append, payloads, player.afterChunk, Nat.add_assoc,
          Nat.add_comm 1, Function.comp_def]

theorem payloads_reclaimCalls (s : Source) (n : Int) : payloads (reclaimCalls s n) = [] := by
  unfold reclaimCalls
  split_ifs <;> rfl

theorem restart_ok (env : ProceedEnv) (p : player) (w : World) (hw : w.alErr = 0)
    (hf : env.restartFault = 0) :
    restart env p w =
      Run.ret none (p, { w with calls := w.calls ++ restartCalls p.alSource env.state }) := by
  cases w with
  | mk c e l =>
    simp only at hw
    subst hw
    by_cases hs : env.state = Stopped <;>
      simp [restart, hs, hf, World.call, World.raise, World.Error, restartCalls]

theorem proceed_reclaim (fuel : Nat) (p : player) (w : World) (env : ProceedEnv)
    (hw : w.alErr = 0) (hf : env.reclaimFault = 0) :
    proceed fuel p w env =
      fillAndRestart env fuel
        { p with alBuffers := p.alBuffers ++ names env.unqueued env.processed }
        { w with calls := w.calls ++ reclaimCalls p.alSource env.processed } := by
  cases w with
  | mk c e l =>
    simp only at hw
    subst hw
    by_cases hp : 0 < env.processed
    · simp [proceed, hp, hf, World.call, World.raise, World.Error, reclaimCalls]
    · have hpp : ({ p with alBuffers := p.alBuffers ++ names env.unqueued env.processed } :
          player) = p := by
        rw [names_nonpos hp, List.append_nil]
      rw [hpp]
      simp [proceed, hp, hf, World.call, World.raise, World.Error, reclaimCalls]

theorem fillAndRestart_all (env : ProceedEnv) (hq : ∀ k, env.queueFault k = 0)
    (hf : env.restartFault = 0) (fuel : Nat) (p : player) (w : World) (hw : w.alErr = 0)
    (hreads : ∀ i, i < p.alBuffers.length → (p.source.reads (p.source.pos + i)).err = none ∧
      0 < (p.source.reads (p.source.pos + i)).data.length ∧
      (p.source.reads (p.source.pos + i)).data.length ≤ bufferSize) :
    ∃ w1, fillAndRestart env (fuel + 1 + p.alBuffers.length) p w =
        Run.ret none
          ({ p with alBuffers := [],
                    source := { p.source with pos := p.source.pos + p.alBuffers.length } }, w1) ∧
      w1.alErr = 0 ∧ w1.alSourceCache = w.alSourceCache ∧
      payloads w1.calls = payloads w.calls ++
        (List.range p.alBuffers.length).map fun i => (p.source.reads (p.source.pos + i)).data := by
  obtain ⟨w1, hrun, h1, h2, h3⟩ := fill_chunks env hq p.alBuffers.length (fuel + 1) 0 p w
    p.alBuffers [] (by simp) rfl hw hreads
  refine ⟨{ w1 with calls := w1.calls ++ restartCalls p.alSource env.state }, ?_, h1, h2, ?_⟩
  · unfold fillAndRestart
    rw [hrun, fill_nil _ _ _ _ _ rfl]
    simp only
    rw [restart_ok env _ w1 h1 hf]
  · have hr : payloads (restartCalls p.alSource env.state) = [] := by
      unfold restartCalls
      split_ifs <;> rfl
    simp only [payloads_append, h3, hr, List.append_nil]

theorem fillAndRestart_fail (env : ProceedEnv) (hq : ∀ k, env.queueFault k = 0)
    (fuel m : Nat) (p : player) (w : World) (used : List Buffer) (buf : Buffer)
    (rest : List Buffer) (e : Error) (hfree : p.alBuffers = used ++ buf :: rest)
    (hlen : used.length = m) (hw : w.alErr = 0)
    (hreads : ∀ i, i < m → (p.source.reads (p.source.pos + i)).err = none ∧
      0 < (p.source.reads (p.source.pos + i)).data.length ∧
      (p.source.reads (p.source.pos + i)).data.length ≤ bufferSize)
    (hd : (p.source.reads (p.source.pos + m)).data = [])
    (he : (p.source.reads (p.source.pos + m)).err = some e) :
    ∃ w1, fillAndRestart env (fuel + 1 + m) p w =
        Run.ret (some e)
          ({ p with alBuffers := buf :: rest,
                    source := { p.source with pos := p.source.pos + m + 1 } }, w1) ∧
      w1.alErr = 0 ∧ w1.alSourceCache = w.alSourceCache ∧
      payloads w1.calls = payloads w.calls ++
        (List.range m).map fun i => (p.source.reads (p.source.pos + i)).data := by
  obtain ⟨w1, hrun, h1, h2, h3⟩ := fill_chunks env hq m (fuel + 1) 0 p w used (buf :: rest)
    hfree hlen hw hreads
  refine ⟨w1, ?_, h1, h2, h3⟩
  apply fillAndRestart_of_fill_err
  rw [hrun, fill_empty_read env fuel _ _ w1 buf rest rfl (by simp [hd])]
  simp [he, player.afterRead]

theorem chunkReader_reads_lt (data : List Byte) (k : Nat) (h : k * bufferSize < data.length) :
    (chunkReader data).reads k = { data := chunk data k, err := none } ∧
    0 < (chunk data k).length ∧ (chunk data k).length ≤ bufferSize := by
  refine ⟨by simp [chunkReader, h, chunk], ?_, ?_⟩
  · simp only [chunk, List.length_take, List.length_drop]
    have : 0 < bufferSize := by decide
    omega
  · simp only [chunk, List.length_take, List.length_drop]
    omega

theorem chunkReader_reads_ge (data : List Byte) (k : Nat) (h : ¬ k * bufferSize < data.length) :
    (chunkReader data).reads k = { data := [], err := some Error.EOF } := by
  simp [chunkReader, h]

theorem proceed_single (data : List Byte) (fuel : Nat) (p : player) (w : World)
    (env : ProceedEnv) (hfree : p.alBuffers = []) (hsrc : p.source.reads = (chunkReader data).reads)
    (hw : w.alErr = 0) (hproc : env.processed = 1) (hdev : quietDevice env)
    (hmore : p.source.pos * bufferSize < data.length) :
    ∃ w1, proceed (fuel + 2) p w env =
        Run.ret none ({ p with source := { p.source with pos := p.source.pos + 1 } }, w1) ∧
      w1.alErr = 0 ∧ w1.alSourceCache = w.alSourceCache ∧
      payloads w1.calls = payloads w.calls ++ [chunk data p.source.pos] := by
  obtain ⟨hrf, hq, hsf⟩ := hdev
  obtain ⟨hread, hpos, hle⟩ := chunkReader_reads_lt data p.source.pos hmore
  have hnames : names env.unqueued env.processed = [env.unqueued 0] := by
    rw [hproc]
    rfl
  rw [proceed_reclaim _ p w env hw hrf, hfree, hnames]
  obtain ⟨w1, hrun, h1, h2, h3⟩ := fillAndRestart_all env hq hsf fuel
    { p with alBuffers := [] ++ [env.unqueued 0] }
    { w with calls := w.calls ++ reclaimCalls p.alSource env.processed } hw (by
      intro i hi
      simp only [List.nil_append, List.length_singleton, Nat.lt_one_iff] at hi
      subst hi
      simp only [Nat.add_zero, hsrc, hread]
      exact ⟨trivial, hpos, hle⟩)
  refine ⟨w1, ?_, h1, by rw [h2], ?_⟩
  · simp only [List.nil_append, List.length_singleton] at hrun
    simp only [List.nil_append]
    rw [show fuel + 2 = fuel + 1 + 1 by omega, hrun]
  · rw [h3]
    simp [payloads_append, payloads_reclaimCalls, hsrc, hread, List.range_succ]

theorem proceed_last (data : List Byte) (fuel : Nat) (p : player) (w : World)
    (env : ProceedEnv) (hfree : p.alBuffers = []) (hsrc : p.source.reads = (chunkReader data).reads)
    (hw : w.alErr = 0) (hproc : env.processed = 1) (hdev : quietDevice env)
    (hdone : ¬ p.source.pos * bufferSize < data.length) :
    ∃ w1, proceed (fuel + 1) p w env =
        Run.ret (some Error.EOF)
          ({ p with alBuffers := [env.unqueued 0],
                    source := { p.source with pos := p.source.pos + 1 } }, w1) ∧
      w1.alErr = 0 ∧ w1.alSourceCache = w.alSourceCache ∧
      payloads w1.calls = payloads w.calls := by
  obtain ⟨hrf, hq, hsf⟩ := hdev
  have hread := chunkReader_reads_ge data p.source.pos hdone
  have hnames : names env.unqueued env.processed = [env.unqueued 0] := by
    rw [hproc]
    rfl
  rw [proceed_reclaim _ p w env hw hrf, hfree, hnames]
  obtain ⟨w1, hrun, h1, h2, h3⟩ := fillAndRestart_fail env hq fuel 0
    { p with alBuffers := [] ++ [env.unqueued 0] }
    { w with calls := w.calls ++ reclaimCalls p.alSource env.processed } []
    (env.unqueued 0) [] Error.EOF rfl rfl hw (by intro i hi; omega)
    (by simp [hsrc, hread]) (by simp [hsrc, hread])
  refine ⟨w1, ?_, h1, by rw [h2], ?_⟩
  · simp only [Nat.add_zero, List.nil_append] at hrun ⊢
    rw [hrun]
  · rw [h3]
    simp [payloads_append, payloads_reclaimCalls]

theorem chunks_4096 (data : List Byte) (hlen : data.length = 4096) :
    chunk data 0 ++ chunk data 1 ++ chunk data 2 ++ chunk data 3 = data ∧
    ∀ i, i < 4 → (chunk data i).length = 1024 := by
  constructor
  · have h1 := List.take_append_drop 1024 data
    have h2 := List.take_append_drop 1024 (data.drop 1024)
    have h3 := List.take_append_drop 1024 (data.drop 2048)
    have h4 : data.drop 4096 = [] := List.drop_eq_nil_of_le (by omega)
    have h5 : (data.drop 3072).take 1024 = data.drop 3072 := by
      apply List.take_of_length_le
      simp only [List.length_drop]
      omega
    simp only [List.drop_drop] at h2 h3
    norm_num at h2 h3
    simp only [chunk, bufferSize]
    norm_num
    rw [h5, h3, h2, h1]
  · intro i hi
    simp only [chunk, bufferSize, List.length_take, List.length_drop]
    omega

/-- Counterexample to C11: the device has processed five buffers when
`proceed` is first called on a 4096-byte source.  That single call makes all
five reads, queues the 4096 bytes and returns `io.EOF`: the call that performs
the reads does not return nil, and no later call is needed. -/
theorem burst_first_call_returns_eof :
    (proceed 6 pcmPlayer World.init fiveProcessed).result? = some (some Error.EOF) ∧
    (proceed 6 pcmPlayer World.init fiveProcessed).state?.map
      (fun st => (st.1.source.pos, payloads st.2.calls)) =
      some (5, [chunk pcm4096 0, chunk pcm4096 1, chunk pcm4096 2, chunk pcm4096 3]) := by
  have hlen : pcm4096.length = 4096 := List.length_replicate 4096 7
  have hb : bufferSize = 1024 := rfl
  obtain ⟨w1, hrun, -, -, h3⟩ := fillAndRestart_fail fiveProcessed (fun _ => rfl) 1 4
    { pcmPlayer with alBuffers := [10, 11, 12, 13, 14] }
    { World.init with calls := World.init.calls ++ reclaimCalls 4 5 }
    [10, 11, 12, 13] 14 [] Error.EOF rfl rfl rfl
    (by
      intro i hi
      have hlt : i * bufferSize < pcm4096.length := by rw [hlen, hb]; omega
      obtain ⟨h1, h2, h3⟩ := chunkReader_reads_lt pcm4096 i hlt
      have : (chunkReader pcm4096).reads (0 + i) = { data := chunk pcm4096 i, err := none } := by
        rw [Nat.zero_add]; exact h1
      simp only [pcmPlayer, chunkReader] at this ⊢
      rw [this]
      exact ⟨rfl, h2, h3⟩)
    (by
      have := chunkReader_reads_ge pcm4096 4 (by rw [hlen, hb]; omega)
      simp only [pcmPlayer, chunkReader] at this ⊢
      rw [this])
    (by
      have := chunkReader_reads_ge pcm4096 4 (by rw [hlen, hb]; omega)
      simp only [pcmPlayer, chunkReader] at this ⊢
      rw [this])
  have hp : proceed 6 pcmPlayer World.init fiveProcessed =
      fillAndRestart fiveProcessed (1 + 1 + 4)
        { pcmPlayer with alBuffers := [10, 11, 12, 13, 14] }
        { World.init with calls := World.init.calls ++ reclaimCalls 4 5 } := by
    rw [proceed_reclaim 6 pcmPlayer World.init fiveProcessed rfl rfl]
    rfl
  rw [hp, hrun]
  refine ⟨rfl, ?_⟩
  have hc : ∀ i, i < 4 →
      (pcmPlayer.source.reads (pcmPlayer.source.pos + i)).data = chunk pcm4096 i := by
    intro i hi
    have hlt : i * bufferSize < pcm4096.length := by rw [hlen, hb]; omega
    have h1 := (chunkReader_reads_lt pcm4096 i hlt).1
    have : (chunkReader pcm4096).reads (0 + i) = { data := chunk pcm4096 i, err := none } := by
      rw [Nat.zero_add]; exact h1
    simp only [pcmPlayer, chunkReader] at this ⊢
    rw [this]
  have hr : List.range 4 = [0, 1, 2, 3] := rfl
  have hpre : payloads ({ World.init with
      calls := World.init.calls ++ reclaimCalls 4 5 } : World).calls = [] := by
    simp only [payloads_append, payloads_reclaimCalls]
    rfl
  simp only [Run.state?, Option.map_some', h3, hr, List.map_cons, List.map_nil,
    hpre, List.nil_append, Option.some.injEq, Prod.mk.injEq]
  refine ⟨rfl, ?_⟩
  rw [hc 0 (by omega), hc 1 (by omega), hc 2 (by omega), hc 3 (by omega)]

theorem count_fillCalls_zero {extra : List AlCall} (h : ∀ c ∈ extra, isFillCall c = true)
    (c : AlCall) (hc : isFillCall c = false) : extra.count c = 0 := by
  rw [List.count_eq_zero]
  intro hmem
  rw [h c hmem] at hc
  simp at hc

theorem count_reclaim_rewind (s s1 : Source) (n : Int) :
    (reclaimCalls s n).count (AlCall.rewindSources s1) = 0 := by
  unfold reclaimCalls
  split_ifs <;> simp

theorem count_reclaim_play (s s1 : Source) (n : Int) :
    (reclaimCalls s n).count (AlCall.playSources s1) = 0 := by
  unfold reclaimCalls
  split_ifs <;> simp

/-- C12, amended (underrun recovery).  Take a `proceed` call that returns nil:
its fill loop ended without a read error.  The state of the source is queried
once, after the reclaim step and after every `BufferData`/`QueueBuffers` of
the fill loop.  If the device answers `al.Stopped`, the calls that follow are
`al.RewindSources`, `al.PlaySources` and `al.Error()`, in this order, and they
are the only rewind and the only play of the call; if it answers anything
else, the call issues neither rewind nor play. -/
theorem restart_after_fill (fuel : Nat) (p p1 : player) (w w1 : World) (env : ProceedEnv)
    (h : proceed fuel p w env = Run.ret none (p1, w1)) :
    ∃ extra, (∀ c ∈ extra, isFillCall c = true) ∧
      w1.calls = w.calls ++ reclaimCalls p.alSource env.processed ++ extra ++
        restartCalls p.alSource env.state ∧
      (env.state = Stopped →
        restartCalls p.alSource env.state =
          [AlCall.state p.alSource, AlCall.rewindSources p.alSource,
           AlCall.playSources p.alSource, AlCall.getError] ∧
        rewindsOn p.alSource (w1.calls.drop w.calls.length) = 1 ∧
        playsOn p.alSource (w1.calls.drop w.calls.length) = 1) ∧
      (env.state ≠ Stopped →
        restartCalls p.alSource env.state = [AlCall.state p.alSource] ∧
        rewindsOn p.alSource (w1.calls.drop w.calls.length) = 0 ∧
        playsOn p.alSource (w1.calls.drop w.calls.length) = 0) := by
  obtain ⟨n, extra, wa, wf, -, t, -, hwa, hw1⟩ := proceed_ret_spec h
  have hcalls : w1.calls = w.calls ++ reclaimCalls p.alSource env.processed ++ extra ++
      restartCalls p.alSource env.state := by
    rw [hw1, t.calls, hwa]
    simp
  have hdrop : w1.calls.drop w.calls.length = reclaimCalls p.alSource env.processed ++ extra ++
      restartCalls p.alSource env.state := by
    rw [hcalls, List.append_assoc, List.append_assoc, List.drop_left]
    simp
  have hrr := count_reclaim_rewind p.alSource p.alSource env.processed
  have hrp := count_reclaim_play p.alSource p.alSource env.processed
  refine ⟨extra, t.fillCalls, hcalls, ?_, ?_⟩
  · intro hs
    refine ⟨by simp [restartCalls, hs], ?_, ?_⟩
    · rw [hdrop]
      simp only [rewindsOn, List.count_append,
        count_fillCalls_zero t.fillCalls (AlCall.rewindSources p.alSource) rfl,
        hrr]
      simp [restartCalls, hs]
    · rw [hdrop]
      simp only [playsOn, List.count_append,
        count_fillCalls_zero t.fillCalls (AlCall.playSources p.alSource) rfl,
        hrp]
      simp [restartCalls, hs]
  · intro hs
    refine ⟨by simp [restartCalls, hs], ?_, ?_⟩
    · rw [hdrop]
      simp only [rewindsOn, List.count_append,
        count_fillCalls_zero t.fillCalls (AlCall.rewindSources p.alSource) rfl,
        hrr]
      simp [restartCalls, hs]
    · rw [hdrop]
      simp only [playsOn, List.count_append,
        count_fillCalls_zero t.fillCalls (AlCall.playSources p.alSource) rfl,
        hrp]
      simp [restartCalls, hs]

/-- Counterexample to C12: the source is stopped, the reader has data and the
player has the free buffer 5.  `proceed` first fills and queues buffer 5 and
only then queries the state and issues rewind and play: the restart does not
come before the fill. -/
theorem restart_comes_after_fill :
    proceed 2 starvedPlayer World.init stoppedDevice = Run.ret none (fedPlayer, restartedWorld) ∧
    restartedWorld.calls.indexOf (AlCall.queueBuffers 4 5) <
      restartedWorld.calls.indexOf (AlCall.rewindSources 4) :=
  ⟨rfl, by decide⟩

/-- Witness for C12, amended: `proceed` on `starvedPlayer` with a stopped
source issues exactly one rewind and one play, after the fill. -/
theorem restart_after_fill_witness :
    proceed 2 starvedPlayer World.init stoppedDevice = Run.ret none (fedPlayer, restartedWorld) ∧
    rewindsOn 4 (restartedWorld.calls.drop World.init.calls.length) = 1 ∧
    playsOn 4 (restartedWorld.calls.drop World.init.calls.length) = 1 := by
  obtain ⟨extra, -, -, hs, -⟩ :=
    restart_after_fill 2 starvedPlayer fedPlayer World.init restartedWorld stoppedDevice rfl
  exact ⟨rfl, (hs rfl).2⟩

theorem keepsEntries_refl (c : List alSourceCacheEntry) : keepsEntries c c :=
  fun _ e h => ⟨e, h, rfl, rfl⟩

theorem keepsEntries_of_eq {c c1 : List alSourceCacheEntry} (h : c1 = c) : keepsEntries c c1 := by
  subst h
  exact keepsEntries_refl _

theorem keepsEntries_trans {a b c : List alSourceCacheEntry} (h1 : keepsEntries a b)
    (h2 : keepsEntries b c) : keepsEntries a c := by
  intro j e he
  obtain ⟨e1, he1, hs1, hr1⟩ := h1 j e he
  obtain ⟨e2, he2, hs2, hr2⟩ := h2 j e1 he1
  exact ⟨e2, he2, hs2.trans hs1, hr2.trans hr1⟩

theorem keepsEntries_update (l1 l2 : List alSourceCacheEntry) (e e1 : alSourceCacheEntry)
    (hs : e1.source = e.source) (hr : e1.sampleRate = e.sampleRate) :
    keepsEntries (l1 ++ e :: l2) (l1 ++ e1 :: l2) := by
  intro j x hx
  rcases Nat.lt_or_ge j l1.length with hj | hj
  · rw [List.getElem?_append_left hj] at hx ⊢
    exact ⟨x, hx, rfl, rfl⟩
  · rw [List.getElem?_append_right hj] at hx ⊢
    cases hk : j - l1.length with
    | zero =>
      rw [hk] at hx
      simp only [List.getElem?_cons_zero, Option.some.injEq] at hx ⊢
      subst hx
      exact ⟨e1, rfl, hs, hr⟩
    | succ k =>
      rw [hk] at hx
      simp only [List.getElem?_cons_succ] at hx ⊢
      exact ⟨x, hx, rfl, rfl⟩

theorem keepsEntries_append (c l : List alSourceCacheEntry) : keepsEntries c (c ++ l) := by
  intro j x hx
  have hj : j < c.length := by
    rcases List.getElem?_eq_some_iff.mp hx with ⟨h, -⟩
    exact h
  rw [List.getElem?_append_left hj]
  exact ⟨x, hx, rfl, rfl⟩

theorem step_keeps {s s1 : System} {op : Op} (hs : step s op = some s1) :
    keepsEntries s.world.alSourceCache s1.world.alSourceCache := by
  cases op with
  | newPlayer src rate env =>
    have key : ∀ (r : Except Error player) (w : World),
        newPlayer s.world src rate env = Run.ret r w →
        keepsEntries s.world.alSourceCache w.alSourceCache := by
      intro r w hn
      rcases newPlayer_ret hn with ⟨e, -, -, rfl⟩ | ⟨-, sx, b, err, hna, -⟩
      · exact keepsEntries_refl _
      · rcases newAlSource_ret hna with ⟨e, hsc, -, -, -, -⟩ | ⟨-, -, -, -, -, rfl⟩ |
          ⟨-, hlen, -, -, -, hc⟩
        · obtain ⟨l1, l2, hc, hc1, -, -, -⟩ := scan_eq_some_split hsc
          simp only [World.call_cache] at hc
          rw [hc1, hc]
          exact keepsEntries_update l1 l2 e _ rfl rfl
        · exact keepsEntries_refl _
        · simp only [World.call_cache] at hc
          rw [hc]
          exact keepsEntries_append _ _
    simp only [step] at hs
    split at hs
    · rename_i p w hn
      simp only [Option.some.injEq] at hs
      subst hs
      exact key _ _ hn
    · rename_i e w hn
      simp only [Option.some.injEq] at hs
      subst hs
      exact key _ _ hn
    · simp at hs
  | play i env =>
    simp only [step] at hs
    split at hs
    · simp at hs
    · simp only [Option.some.injEq] at hs
      subst hs
      exact keepsEntries_of_eq (play_same _ s.world env).2.2
  | proceed i fuel env =>
    simp only [step] at hs
    split at hs
    · simp at hs
    · split at hs
      · rename_i u p1 w hpr
        simp only [Option.some.injEq] at hs
        subst hs
        exact keepsEntries_of_eq (proceed_ret_same hpr).2.2
      · simp at hs
  | close i env =>
    simp only [step] at hs
    split at hs
    · simp at hs
    · rename_i p hi
      split at hs
      · rename_i u p1 w hcl
        simp only [Option.some.injEq] at hs
        subst hs
        dsimp only
        rcases close_ret hcl with ⟨-, -, hc⟩ | ⟨-, -, -, hrel⟩
        · exact keepsEntries_of_eq hc
        · obtain ⟨l1, e, l2, hc, hc1, -, -, -⟩ := release_ok_split hrel
          rw [hc1, hc]
          exact keepsEntries_update l1 l2 e _ rfl rfl
      · simp at hs

theorem step_same_length {s s1 : System} {op : Op} (hs : step s op = some s1)
    (hop : ∀ src rate env, op ≠ Op.newPlayer src rate env) :
    s1.world.alSourceCache.length = s.world.alSourceCache.length := by
  cases op with
  | newPlayer src rate env => exact absurd rfl (hop src rate env)
  | play i env =>
    simp only [step] at hs
    split at hs
    · simp at hs
    · simp only [Option.some.injEq] at hs
      subst hs
      rw [(play_same _ s.world env).2.2]
  | proceed i fuel env =>
    simp only [step] at hs
    split at hs
    · simp at hs
    · split at hs
      · rename_i u p1 w hpr
        simp only [Option.some.injEq] at hs
        subst hs
        rw [(proceed_ret_same hpr).2.2]
      · simp at hs
  | close i env =>
    simp only [step] at hs
    split at hs
    · simp at hs
    · rename_i p hi
      split at hs
      · rename_i u p1 w hcl
        simp only [Option.some.injEq] at hs
        subst hs
        dsimp only
        rcases close_ret hcl with ⟨-, -, hc⟩ | ⟨-, -, -, hrel⟩
        · rw [hc]
        · obtain ⟨l1, e, l2, hc, hc1, -, -, -⟩ := release_ok_split hrel
          rw [hc1, hc]
          simp
      · simp at hs

theorem run_grows {ops : List Op} : ∀ {s s1 : System}, run s ops = some s1 →
    s.world.alSourceCache.length ≤ s1.world.alSourceCache.length ∧
    s1.world.alSourceCache.length ≤ s.world.alSourceCache.length + ops.length ∧
    keepsEntries s.world.alSourceCache s1.world.alSourceCache := by
  induction ops with
  | nil =>
    intro s s1 hr
    simp only [run, Option.some.injEq] at hr
    subst hr
    exact ⟨le_rfl, by simp, keepsEntries_refl _⟩
  | cons op ops ih =>
    intro s s1 hr
    simp only [run] at hr
    split at hr
    · simp at hr
    · rename_i s2 hstep
      obtain ⟨a1, a2, -⟩ := step_length hstep
      obtain ⟨b1, b2, b3⟩ := ih hr
      refine ⟨a1.trans b1, ?_, keepsEntries_trans (step_keeps hstep) b3⟩
      simp only [List.length_cons]
      omega

/-- C14 (pool growth is monotonic and bounded).  Run any sequence of package
operations from an empty `alSourceCache` to a state `s`.  The cache of `s`
holds at most `maxSourceNum` = 32 entries.  Any further operation leaves the
cache at least as long, at most one entry longer, and still at most 32 long;
`play`, `proceed` and `close` leave its length unchanged, so it grows by at
most one per `newPlayer` call; every entry keeps its position, its source
handle and its sample rate.  The same holds over any further sequence of
operations. -/
theorem pool_growth (w0 : World) (ops : List Op) (s : System)
    (h0 : w0.alSourceCache = [])
    (hrun : run { world := w0, players := [] } ops = some s) :
    s.world.alSourceCache.length ≤ maxSourceNum ∧
    (∀ (op : Op) (s1 : System), step s op = some s1 →
      s.world.alSourceCache.length ≤ s1.world.alSourceCache.length ∧
      s1.world.alSourceCache.length ≤ s.world.alSourceCache.length + 1 ∧
      s1.world.alSourceCache.length ≤ maxSourceNum ∧
      ((∀ src rate env, op ≠ Op.newPlayer src rate env) →
        s1.world.alSourceCache.length = s.world.alSourceCache.length) ∧
      keepsEntries s.world.alSourceCache s1.world.alSourceCache) ∧
    (∀ (ops1 : List Op) (s1 : System), run s ops1 = some s1 →
      s.world.alSourceCache.length ≤ s1.world.alSourceCache.length ∧
      s1.world.alSourceCache.length ≤ maxSourceNum ∧
      keepsEntries s.world.alSourceCache s1.world.alSourceCache) := by
  have hle : s.world.alSourceCache.length ≤ maxSourceNum :=
    run_length_le (s := { world := w0, players := [] }) (by simp [h0]) hrun
  refine ⟨hle, ?_, ?_⟩
  · intro op s1 hstep
    obtain ⟨a1, a2, a3⟩ := step_length hstep
    exact ⟨a1, a2, a3 hle, step_same_length hstep, step_keeps hstep⟩
  · intro ops1 s1 hr
    obtain ⟨b1, -, b3⟩ := run_grows hr
    exact ⟨b1, run_length_le hle hr, b3⟩

/-- Witness for C14: from `onePlayerPool`, closing the player keeps the single
entry in place. -/
theorem pool_growth_witness :
    run { world := World.init, players := [] } onePlayerOps = some onePlayerPool ∧
    step onePlayerPool (Op.close 0 (closeWith [101, 102])) =
      some { world := soloClosedWorld, players := [soloClosed] } ∧
    soloClosedWorld.alSourceCache.length = onePlayerPool.world.alSourceCache.length ∧
    keepsEntries onePlayerPool.world.alSourceCache soloClosedWorld.alSourceCache :=
  ⟨rfl, rfl,
    ((pool_growth World.init onePlayerOps onePlayerPool rfl rfl).2.1
      (Op.close 0 (closeWith [101, 102])) { world := soloClosedWorld, players := [soloClosed] }
      rfl).2.2.2.1 (by intro src rate env h; cases h),
    ((pool_growth World.init onePlayerOps onePlayerPool rfl rfl).2.1
      (Op.close 0 (closeWith [101, 102])) { world := soloClosedWorld, players := [soloClosed] }
      rfl).2.2.2.2⟩

/-- C15 at the failing input: after `close` released source 1 with the
buffers 20 and 21, a `proceed` on the closed player writes the bytes just
read into buffer 20, which is in the buffer list of the free entry, and queues
it on handle 0. -/
theorem proceed_after_close_uses_released_buffer :
    run System.init closeEarlyOps = some closedEarlyPool ∧
    proceed 1 closedEarly closedEarlyPool.world quietProceed =
      Run.ret (some Error.EOF)
        ({ closedEarly with alBuffers := [21],
                            source := { pos := 1, reads := shortReader.reads } },
         { closedEarlyPool.world with
           calls := closedEarlyPool.world.calls ++
             [AlCall.getError, AlCall.buffersProcessed 0,
              AlCall.bufferData 20 FormatStereo16 [1, 2, 3] 44100,
              AlCall.queueBuffers 0 20, AlCall.getError] }) ∧
    (∃ e ∈ closedEarlyPool.world.alSourceCache, e.isClosed = true ∧ 20 ∈ e.buffers) :=
  ⟨rfl, rfl, by decide⟩

theorem fill_stalled (env : ProceedEnv) : ∀ (fuel k : Nat) (p : player) (w : World),
    p.alBuffers ≠ [] → (∀ i, p.source.reads i = { data := [], err := none }) →
    fill env fuel k p w = Run.spin := by
  intro fuel
  induction fuel with
  | zero => intro k p w _ _; rfl
  | succ fuel ih =>
    intro k p w hne hreads
    cases hfree : p.alBuffers with
    | nil => exact absurd hfree hne
    | cons buf rest =>
      rw [fill_empty_read env fuel k p w buf rest hfree (by rw [hreads]; rfl), hreads]
      exact ih (k + 1) p.afterRead w (by simp [player.afterRead, hfree])
        (by simpa [player.afterRead] using hreads)

theorem fill_ends (env : ProceedEnv) : ∀ (m fuel k : Nat) (p : player) (w : World),
    p.alBuffers.length = m → m < fuel →
    (∀ i, i < m → ¬((p.source.reads (p.source.pos + i)).data = [] ∧
      (p.source.reads (p.source.pos + i)).err = none)) →
    (fill env fuel k p w).ended := by
  intro m
  induction m with
  | zero =>
    intro fuel k p w hlen hfuel _
    obtain ⟨f, rfl⟩ : ∃ f, fuel = f + 1 := ⟨fuel - 1, by omega⟩
    rw [fill_nil env f k p w (List.length_eq_zero.mp hlen)]
    trivial
  | succ m ih =>
    intro fuel k p w hlen hfuel hreads
    obtain ⟨f, rfl⟩ : ∃ f, fuel = f + 1 := ⟨fuel - 1, by omega⟩
    cases hfree : p.alBuffers with
    | nil => simp [hfree] at hlen
    | cons buf rest =>
      have hrest : rest.length = m := by simpa [hfree] using hlen
      have h0 := hreads 0 (by omega)
      simp only [Nat.add_zero] at h0
      by_cases hn : (p.source.reads p.source.pos).data.length = 0
      · have hd : (p.source.reads p.source.pos).data = [] := List.length_eq_zero.mp hn
        rw [fill_empty_read env f k p w buf rest hfree hn]
        cases herr : (p.source.reads p.source.pos).err with
        | none => exact absurd ⟨hd, herr⟩ h0
        | some e => trivial
      · have hpos : 0 < (p.source.reads p.source.pos).data.length := Nat.pos_of_ne_zero hn
        by_cases hlt : bufferSize < (p.source.reads p.source.pos).data.length
        · rw [fill_slice_panic env f k p w buf rest hfree hlt]
          trivial
        · have hle : (p.source.reads p.source.pos).data.length ≤ bufferSize := by omega
          by_cases hreg : (w.raise (env.queueFault k)).alErr = 0
          · rw [fill_chunk_ok env f k p w buf rest hfree hpos hle hreg]
            cases herr : (p.source.reads p.source.pos).err with
            | some e => trivial
            | none =>
              apply ih f (k + 1) (p.afterChunk rest) _ hrest (by omega)
              intro i hi
              have := hreads (i + 1) (by omega)
              simpa [player.afterChunk, Nat.add_assoc, Nat.add_comm 1 i] using this
          · rw [fill_chunk_panic env f k p w buf rest hfree hpos hle hreg]
            trivial

theorem restart_ended (env : ProceedEnv) (p : player) (w : World) :
    (restart env p w).ended := by
  unfold restart
  dsimp only
  split_ifs <;> trivial

theorem fillAndRestart_ended {env : ProceedEnv} {fuel : Nat} {p : player} {w : World}
    (h : (fill env fuel 0 p w).ended) : (fillAndRestart env fuel p w).ended := by
  unfold fillAndRestart
  split
  · exact restart_ended _ _ _
  · exact h

theorem proceed_ends (fuel : Nat) (p : player) (w : World) (env : ProceedEnv)
    (hfuel : (p.alBuffers ++ names env.unqueued env.processed).length < fuel)
    (hreads : ∀ i, i < (p.alBuffers ++ names env.unqueued env.processed).length →
      ¬((p.source.reads (p.source.pos + i)).data = [] ∧
        (p.source.reads (p.source.pos + i)).err = none)) :
    (proceed fuel p w env).ended := by
  unfold proceed
  dsimp only
  split_ifs with h0 hp h1
  · trivial
  · trivial
  · exact fillAndRestart_ended (fill_ends env _ fuel 0 _ _ rfl hfuel hreads)
  · apply fillAndRestart_ended
    rw [names_nonpos hp, List.append_nil] at hfuel hreads
    exact fill_ends env _ fuel 0 _ _ rfl hfuel hreads

theorem length_payloads_eq_filled (l : List AlCall) :
    (payloads l).length = (filled l).length := by
  induction l with
  | nil => rfl
  | cons c l ih =>
    cases c <;> simp [payloads, filled, List.filterMap_cons] at ih ⊢ <;> exact ih

/-- Counterexample to C16: on a reader whose every `Read` returns `(0, nil)`,
a `proceed` with one free buffer never leaves its fill loop: whatever the step
budget, the call has neither returned nor panicked. -/
theorem proceed_spins_on_empty_reads :
    ¬ ∃ fuel, (proceed fuel stalledPlayer World.init quietProceed).ended := by
  rintro ⟨fuel, h⟩
  rw [proceed_reclaim fuel stalledPlayer World.init quietProceed rfl rfl] at h
  unfold fillAndRestart at h
  rw [fill_stalled quietProceed fuel 0 _ _ (by simp [stalledPlayer, names_nonpos, quietProceed])
    (fun _ => rfl)] at h
  exact h

/-- C16, amended.  Let `k` be the length of the free list after the reclaim
step.  If none of the next `k` reads returns `(0, nil)`, a `proceed` call
with a budget of more than `k` loop steps ends: it returns or panics.
Whenever `proceed` returns after `n` reads, the free list has shrunk by one
for each read with more than 0 bytes and by nothing else, so `n ≤ k` when
every read returned more than 0 bytes; it returns nil only with an empty free
list, and it returns an error only if its last read returned that error and
every earlier read returned a nil error. -/
theorem proceed_terminates (fuel : Nat) (p : player) (w : World) (env : ProceedEnv) :
    ((p.alBuffers ++ names env.unqueued env.processed).length < fuel →
      (∀ i, i < (p.alBuffers ++ names env.unqueued env.processed).length →
        ¬((p.source.reads (p.source.pos + i)).data = [] ∧
          (p.source.reads (p.source.pos + i)).err = none)) →
      (proceed fuel p w env).ended) ∧
    (∀ r p1 w1, proceed fuel p w env = Run.ret r (p1, w1) →
      ∃ n, p1.source = { p.source with pos := p.source.pos + n } ∧
        p1.alBuffers.length +
            ((p.source.next n).filter fun x => !x.data.isEmpty).length =
          (p.alBuffers ++ names env.unqueued env.processed).length ∧
        ((∀ x ∈ p.source.next n, x.data ≠ []) →
          n ≤ (p.alBuffers ++ names env.unqueued env.processed).length) ∧
        (r = none → p1.alBuffers = []) ∧
        (∀ e, r = some e → ∃ m, n = m + 1 ∧
          (p.source.reads (p.source.pos + m)).err = some e ∧
          ∀ x ∈ p.source.next m, x.err = none)) := by
  refine ⟨proceed_ends fuel p w env, ?_⟩
  intro r p1 w1 h
  obtain ⟨n, extra, wa, wf, -, t, -, -, -⟩ := proceed_ret_spec h
  have hlen : (filled extra).length + p1.alBuffers.length =
      (p.alBuffers ++ names env.unqueued env.processed).length := by
    rw [← List.length_append, t.buffers]
  have hpay : (payloads extra).length =
      ((p.source.next n).filter fun x => !x.data.isEmpty).length := by
    rw [t.payloads]
    simp only [Reader.next, List.map_map, List.filter_map, List.length_map]
    rfl
  refine ⟨n, t.source, ?_, ?_, fun hr => (t.done hr).1, t.failed⟩
  · rw [← hpay, length_payloads_eq_filled]
    omega
  · intro hall
    have hfull : ((p.source.next n).filter fun x => !x.data.isEmpty).length = n := by
      rw [List.filter_eq_self.mpr]
      · simp [Reader.next]
      · intro x hx
        have := hall x hx
        cases hd : x.data with
        | nil => exact absurd hd this
        | cons a l => rfl
    rw [← hfull, ← hpay, length_payloads_eq_filled]
    omega

/-- Witness for C16, amended: `shortPlayer` has two free buffers and a reader
that never returns `(0, nil)`; its `proceed` ends within three loop steps. -/
theorem proceed_terminates_witness :
    (proceed 3 shortPlayer World.init quietProceed).ended :=
  (proceed_terminates 3 shortPlayer World.init quietProceed).1 (by decide)
    (by intro i _ h; exact absurd h.2 (by simp [shortPlayer, shortReader]))

theorem filled_append (a b : List AlCall) : filled (a ++ b) = filled a ++ filled b := by
  simp [filled, List.filterMap_append]

theorem queued_append (a b : List AlCall) : queued (a ++ b) = queued a ++ queued b := by
  simp [queued, List.filterMap_append]

theorem filled_reclaimCalls (s : Source) (n : Int) : filled (reclaimCalls s n) = [] := by
  unfold reclaimCalls
  split_ifs <;> rfl

theorem queued_reclaimCalls (s : Source) (n : Int) : queued (reclaimCalls s n) = [] := by
  unfold reclaimCalls
  split_ifs <;> rfl

theorem payloads_restartCalls (s : Source) (n : Int) : payloads (restartCalls s n) = [] := by
  unfold restartCalls
  split_ifs <;> rfl

theorem filled_restartCalls (s : Source) (n : Int) : filled (restartCalls s n) = [] := by
  unfold restartCalls
  split_ifs <;> rfl

theorem queued_restartCalls (s : Source) (n : Int) : queued (restartCalls s n) = [] := by
  unfold restartCalls
  split_ifs <;> rfl

theorem Reader.next_add (rd : Reader) (a b : Nat) :
    rd.next (a + b) = rd.next a ++ Reader.next { rd with pos := rd.pos + a } b := by
  simp only [Reader.next, List.range_add, List.map_append, List.map_map]
  congr 1
  apply List.map_congr_left
  intro i _
  simp [Nat.add_assoc]

theorem flatten_filter_nonempty (l : List (List Byte)) :
    (l.filter fun d => !d.isEmpty).flatten = l.flatten := by
  induction l with
  | nil => rfl
  | cons d l ih =>
    cases d with
    | nil => simpa [List.filter_cons] using ih
    | cons a d => simp [List.filter_cons, ih]

theorem streamLoop_chain {senv : StreamEnv} {fuel : Nat} {rounds : Nat} :
    ∀ {i : Nat} {p p1 : player} {w w1 : World} {err : Error},
    streamLoop senv fuel rounds i p w = Run.ret err (p1, w1) →
    ∃ k, k < rounds ∧
      proceedAll fuel ((List.range (k + 1)).map fun t => senv.proceedEnv (i + t)) p w =
        some (p1, w1) := by
  induction rounds with
  | zero =>
    intro i p p1 w w1 err h
    simp [streamLoop] at h
  | succ rounds ih =>
    intro i p p1 w w1 err h
    rw [streamLoop] at h
    split at h
    · rename_i e st hpr
      simp only [Run.ret.injEq] at h
      obtain ⟨rfl, rfl⟩ := h
      refine ⟨0, by omega, ?_⟩
      simp [proceedAll, hpr]
    · rename_i p2 w2 hpr
      obtain ⟨k, hk, hch⟩ := ih h
      refine ⟨k + 1, by omega, ?_⟩
      rw [List.range_succ_eq_map, List.map_cons, List.map_map, proceedAll]
      simp only [Nat.add_zero, hpr]
      rw [← hch]
      congr 1
      apply List.map_congr_left
      intro t _
      simp [Nat.add_comm, Nat.add_left_comm]
    · simp at h
    · simp at h
    · simp at h

theorem proceedAll_spec (fuel : Nat) :
    ∀ (envs : List ProceedEnv) (p p1 : player) (w w1 : World),
    proceedAll fuel envs p w = some (p1, w1) →
    ∃ n new, w1.calls = w.calls ++ new ∧
      p1.source = { p.source with pos := p.source.pos + n } ∧
      p1.alSource = p.alSource ∧
      payloads new = ((p.source.next n).map fun x => x.data).filter (fun d => !d.isEmpty) ∧
      queued new = (filled new).map (fun b => (p.alSource, b)) ∧
      filled new ++ p1.alBuffers =
        p.alBuffers ++ (envs.map fun env => names env.unqueued env.processed).flatten := by
  intro envs
  induction envs with
  | nil =>
    intro p p1 w w1 h
    simp only [proceedAll, Option.some.injEq, Prod.mk.injEq] at h
    obtain ⟨rfl, rfl⟩ := h
    exact ⟨0, [], by simp, rfl, rfl, rfl, rfl, by simp [filled]⟩
  | cons env envs ih =>
    intro p p1 w w1 h
    rw [proceedAll] at h
    split at h
    · rename_i r p2 w2 hpr
      obtain ⟨n2, new2, hc2, hs2, ha2, hp2, hq2, hf2⟩ := ih p2 p1 w2 w1 h
      obtain ⟨n1, extra, wa, wf, -, t, -, hwa, hw2⟩ := proceed_ret_spec hpr
      have tsrc : p2.source = { p.source with pos := p.source.pos + n1 } := t.source
      have tal : p2.alSource = p.alSource := t.alSource
      have tbuf : filled extra ++ p2.alBuffers =
          p.alBuffers ++ names env.unqueued env.processed := t.buffers
      have tq : queued extra = (filled extra).map fun b => (p.alSource, b) := t.queue
      have tpay : payloads extra =
          ((p.source.next n1).map fun x => x.data).filter fun d => !d.isEmpty := t.payloads
      refine ⟨n1 + n2, reclaimCalls p.alSource env.processed ++ extra ++
        (if r = none then restartCalls p.alSource env.state else []) ++ new2, ?_, ?_, ?_, ?_, ?_, ?_⟩
      · rw [hc2, hw2, t.calls, hwa]
        simp [List.append_assoc]
      · rw [hs2, tsrc]
        simp [Nat.add_assoc]
      · rw [ha2, tal]
      · rw [payloads_append, payloads_append, payloads_append, payloads_reclaimCalls, hp2,
          tpay, Reader.next_add, List.map_append, List.filter_append, tsrc]
        have : payloads (if r = none then restartCalls p.alSource env.state else []) = [] := by
          split_ifs
          · exact payloads_restartCalls _ _
          · rfl
        rw [this]
        simp
      · have h1 : queued (if r = none then restartCalls p.alSource env.state else []) = [] := by
          split_ifs
          · exact queued_restartCalls _ _
          · rfl
        have h2 : filled (if r = none then restartCalls p.alSource env.state else []) = [] := by
          split_ifs
          · exact filled_restartCalls _ _
          · rfl
        rw [queued_append, queued_append, queued_append, queued_reclaimCalls, h1,
          filled_append, filled_append, filled_append, filled_reclaimCalls, h2, hq2, tq, tal]
        simp
      · have h2 : filled (if r = none then restartCalls p.alSource env.state else []) = [] := by
          split_ifs
          · exact filled_restartCalls _ _
          · rfl
        rw [filled_append, filled_append, filled_append, filled_reclaimCalls, h2]
        simp only [List.nil_append, List.append_nil, List.append_assoc, List.map_cons,
          List.flatten_cons]
        rw [hf2, ← List.append_assoc, tbuf, List.append_assoc]
    all_goals simp at h

/-- C17: whenever a sequence of `proceed` calls on one player (a single call
is the sequence of length one) returns, the calls it added to the device log
queue each written buffer on the player's source in the order written, their
payloads are the non-empty results of the `n` reads it made in read order, so
the concatenation of the queued payloads is the concatenation of the bytes
read, and the buffers written followed by the free list left are the initial
free list followed by the buffers reclaimed by each call in turn (the head is
taken first, reclaimed buffers join at the tail).  The loop of `play` is such
a sequence. -/
theorem pcm_order_preserved (fuel : Nat) (p : player) (w : World) :
    (∀ (envs : List ProceedEnv) (p1 : player) (w1 : World),
      proceedAll fuel envs p w = some (p1, w1) →
      ∃ n new, w1.calls = w.calls ++ new ∧
        p1.source = { p.source with pos := p.source.pos + n } ∧
        (payloads new).flatten = ((p.source.next n).map fun x => x.data).flatten ∧
        payloads new = ((p.source.next n).map fun x => x.data).filter (fun d => !d.isEmpty) ∧
        queued new = (filled new).map (fun b => (p.alSource, b)) ∧
        filled new ++ p1.alBuffers =
          p.alBuffers ++ (envs.map fun env => names env.unqueued env.processed).flatten) ∧
    (∀ (senv : StreamEnv) (rounds : Nat) (err : Error) (p1 : player) (w1 : World),
      streamLoop senv fuel rounds 0 p w = Run.ret err (p1, w1) →
      ∃ k, proceedAll fuel ((List.range (k + 1)).map fun t => senv.proceedEnv t) p w =
        some (p1, w1)) := by
  constructor
  · intro envs p1 w1 h
    obtain ⟨n, new, hc, hs, -, hp, hq, hf⟩ := proceedAll_spec fuel envs p p1 w w1 h
    refine ⟨n, new, hc, hs, ?_, hp, hq, hf⟩
    rw [hp, flatten_filter_nonempty]
  · intro senv rounds err p1 w1 h
    obtain ⟨k, -, hk⟩ := streamLoop_chain h
    refine ⟨k, ?_⟩
    simpa using hk

/-- Witness for C17: two `proceed` calls on `shortPlayer`; each reads three
bytes together with `io.EOF`, the first queues them in buffer 5 and the second
in buffer 6. -/
theorem pcm_order_preserved_witness :
    ∃ n new,
      [AlCall.getError, AlCall.buffersProcessed 4,
        AlCall.bufferData 5 FormatStereo16 [1, 2, 3] 44100,
        AlCall.queueBuffers 4 5, AlCall.getError,
        AlCall.getError, AlCall.buffersProcessed 4,
        AlCall.bufferData 6 FormatStereo16 [1, 2, 3] 44100,
        AlCall.queueBuffers 4 6, AlCall.getError] = World.init.calls ++ new ∧
      ({ pos := 2, reads := shortReader.reads } : Reader) =
        { shortPlayer.source with pos := shortPlayer.source.pos + n } ∧
      (payloads new).flatten = ((shortPlayer.source.next n).map fun x => x.data).flatten ∧
      payloads new =
        ((shortPlayer.source.next n).map fun x => x.data).filter (fun d => !d.isEmpty) ∧
      queued new = (filled new).map (fun b => (shortPlayer.alSource, b)) ∧
      filled new ++ [] =
        shortPlayer.alBuffers ++
          ([quietProceed, quietProceed].map fun env =>
            names env.unqueued env.processed).flatten :=
  (pcm_order_preserved 1 shortPlayer World.init).1 [quietProceed, quietProceed]
    { alSource := 4, alBuffers := [],
      source := { pos := 2, reads := shortReader.reads }, sampleRate := 44100 }
    { alSourceCache := [], alErr := 0,
      calls :=
        [AlCall.getError, AlCall.buffersProcessed 4,
         AlCall.bufferData 5 FormatStereo16 [1, 2, 3] 44100,
         AlCall.queueBuffers 4 5, AlCall.getError,
         AlCall.getError, AlCall.buffersProcessed 4,
         AlCall.bufferData 6 FormatStereo16 [1, 2, 3] 44100,
         AlCall.queueBuffers 4 6, AlCall.getError] }
    rfl

theorem smear_step (y a n : Nat)
    (h : ∀ i, a.testBit i = true ↔ ∃ j, j < n ∧ y.testBit (i + j) = true) :
    ∀ i, (a ||| (a >>> n)).testBit i = true ↔ ∃ j, j < 2 * n ∧ y.testBit (i + j) = true := by
  intro i
  rw [Nat.testBit_lor, Nat.testBit_shiftRight, Bool.or_eq_true, h, h]
  constructor
  · rintro (⟨j, hj, hb⟩ | ⟨j, hj, hb⟩)
    · exact ⟨j, by omega, hb⟩
    · refine ⟨n + j, by omega, ?_⟩
      rw [← hb]
      congr 1
      omega
  · rintro ⟨j, hj, hb⟩
    by_cases hjn : j < n
    · exact Or.inl ⟨j, hjn, hb⟩
    · refine Or.inr ⟨j - n, by omega, ?_⟩
      rw [← hb]
      congr 1
      omega

theorem smear_eq (y : Nat) (hy : y < 2 ^ 64) :
    (let x1 := y ||| (y >>> 1)
     let x2 := x1 ||| (x1 >>> 2)
     let x3 := x2 ||| (x2 >>> 4)
     let x4 := x3 ||| (x3 >>> 8)
     let x5 := x4 ||| (x4 >>> 16)
     x5 ||| (x5 >>> 32)) = 2 ^ y.size - 1 := by
  have h0 : ∀ i, y.testBit i = true ↔ ∃ j, j < 1 ∧ y.testBit (i + j) = true := by
    intro i
    constructor
    · intro h
      exact ⟨0, by omega, h⟩
    · rintro ⟨j, hj, hb⟩
      have : j = 0 := by omega
      subst this
      exact hb
  have h1 := smear_step y _ 1 h0
  have h2 := smear_step y _ 2 h1
  have h3 := smear_step y _ 4 h2
  have h4 := smear_step y _ 8 h3
  have h5 := smear_step y _ 16 h4
  have h6 := smear_step y _ 32 h5
  dsimp only
  apply Nat.eq_of_testBit_eq
  intro i
  rw [Nat.testBit_two_pow_sub_one]
  rw [Bool.eq_iff_iff, h6, decide_eq_true_iff, Nat.lt_size]
  constructor
  · rintro ⟨j, -, hb⟩
    have := Nat.testBit_implies_ge hb
    calc 2 ^ i ≤ 2 ^ (i + j) := Nat.pow_le_pow_right (by omega) (by omega)
      _ ≤ y := this
  · intro hle
    obtain ⟨k, hk, hb⟩ := Nat.ge_two_pow_implies_high_bit_true hle
    have hk64 : k < 64 := by
      by_contra hge
      have hlt : y < 2 ^ k :=
        lt_of_lt_of_le hy (Nat.pow_le_pow_right (by omega) (by omega))
      rw [Nat.testBit_lt_two_pow hlt] at hb
      exact Bool.false_ne_true hb
    refine ⟨k - i, by omega, ?_⟩
    rw [← hb]
    congr 1
    omega

theorem NextPowerOf2_eq (x : Nat) :
    NextPowerOf2 x = 2 ^ ((x + 2 ^ 64 - 1) % 2 ^ 64).size % 2 ^ 64 := by
  have hy : (x + 2 ^ 64 - 1) % 2 ^ 64 < 2 ^ 64 := Nat.mod_lt _ (by norm_num)
  have h := smear_eq _ hy
  dsimp only at h
  unfold NextPowerOf2
  dsimp only
  rw [h, Nat.sub_add_cancel (Nat.one_le_two_pow)]

theorem NextPowerOf2_in_range (x : Nat) (h1 : 1 ≤ x) (h2 : x ≤ 2 ^ 63) :
    NextPowerOf2 x = 2 ^ (x - 1).size ∧ x ≤ 2 ^ (x - 1).size ∧ 2 ^ (x - 1).size < 2 * x := by
  have hy : (x + 2 ^ 64 - 1) % 2 ^ 64 = x - 1 := by omega
  have hs : (x - 1).size ≤ 63 := Nat.size_le.mpr (by omega)
  have hlt : 2 ^ (x - 1).size < 2 ^ 64 :=
    lt_of_le_of_lt (Nat.pow_le_pow_right (by omega) hs) (by norm_num)
  refine ⟨?_, ?_, ?_⟩
  · rw [NextPowerOf2_eq, hy, Nat.mod_eq_of_lt hlt]
  · have := Nat.lt_size_self (x - 1)
    omega
  · cases hsz : (x - 1).size with
    | zero => simp; omega
    | succ s =>
      have : 2 ^ s ≤ x - 1 := Nat.lt_size.mp (by omega)
      rw [pow_succ]
      omega

theorem NextPowerOf2_wraps (x : Nat) (hx : x < 2 ^ 64) (h : x = 0 ∨ 2 ^ 63 < x) :
    NextPowerOf2 x = 0 := by
  have hy1 : (x + 2 ^ 64 - 1) % 2 ^ 64 < 2 ^ 64 := Nat.mod_lt _ (by norm_num)
  have hy2 : 2 ^ 63 ≤ (x + 2 ^ 64 - 1) % 2 ^ 64 := by omega
  have hs : ((x + 2 ^ 64 - 1) % 2 ^ 64).size = 64 := by
    apply le_antisymm
    · exact Nat.size_le.mpr hy1
    · exact Nat.lt_size.mpr hy2
  rw [NextPowerOf2_eq, hs, Nat.mod_self]

/-- C18: for a `uint64` `x` with `1 ≤ x ≤ 2 ^ 63`, `NextPowerOf2 x` is a
power of two, is at least `x` and is below `2 * x`; hence it is the least
power of two not below `x`, and it is `x` itself when `x` is a power of two.
For `x = 0` and for `2 ^ 63 < x < 2 ^ 64` the arithmetic wraps and the result
is 0. -/
theorem NextPowerOf2_spec (x : Nat) (hx : x < 2 ^ 64) :
    (1 ≤ x → x ≤ 2 ^ 63 →
      (∃ k, NextPowerOf2 x = 2 ^ k) ∧ x ≤ NextPowerOf2 x ∧ NextPowerOf2 x < 2 * x ∧
      (∀ j, x ≤ 2 ^ j → NextPowerOf2 x ≤ 2 ^ j) ∧
      (∀ j, x = 2 ^ j → NextPowerOf2 x = x)) ∧
    (x = 0 ∨ 2 ^ 63 < x → NextPowerOf2 x = 0) := by
  refine ⟨?_, NextPowerOf2_wraps x hx⟩
  intro h1 h2
  obtain ⟨he, hle, hlt⟩ := NextPowerOf2_in_range x h1 h2
  have hleast : ∀ j, x ≤ 2 ^ j → 2 ^ (x - 1).size ≤ 2 ^ j := by
    intro j hj
    have h3 : 2 ^ (x - 1).size < 2 ^ (j + 1) := by
      rw [pow_succ]
      omega
    have h4 : (x - 1).size < j + 1 := (Nat.pow_lt_pow_iff_right (by norm_num)).mp h3
    exact Nat.pow_le_pow_right (by omega) (by omega)
  refine ⟨⟨_, he⟩, he ▸ hle, he ▸ hlt, ?_, ?_⟩
  · intro j hj
    rw [he]
    exact hleast j hj
  · intro j hj
    rw [he]
    have := hleast j (le_of_eq hj)
    omega

/-- Witness for C18: `NextPowerOf2 5 = 8` obeys the bounds. -/
theorem NextPowerOf2_spec_witness :
    (∃ k, NextPowerOf2 5 = 2 ^ k) ∧ 5 ≤ NextPowerOf2 5 ∧ NextPowerOf2 5 < 2 * 5 ∧
      (∀ j, 5 ≤ 2 ^ j → NextPowerOf2 5 ≤ 2 ^ j) ∧
      (∀ j, 5 = 2 ^ j → NextPowerOf2 5 = 5) :=
  (NextPowerOf2_spec 5 (by norm_num)).1 (by norm_num) (by norm_num)

theorem supply_succ (senv : StreamEnv) (i n0 : Nat) : ∀ t,
    supply senv i n0 (t + 1) =
      n0 + (senv.proceedEnv i).processed.toNat + supply senv (i + 1) 0 t := by
  intro t
  induction t with
  | zero => simp [supply]
  | succ t ih =>
    rw [supply, ih, supply]
    have : i + (t + 1) + 1 = i + 1 + t + 1 := by omega
    rw [this]
    omega

theorem proceed_count {fuel : Nat} {env : ProceedEnv} {p p1 : player} {w w1 : World}
    {r : Option Error} (h : proceed fuel p w env = Run.ret r (p1, w1)) :
    w1.calls.count (AlCall.buffersProcessed p.alSource) =
      w.calls.count (AlCall.buffersProcessed p.alSource) + 1 := by
  obtain ⟨n, extra, wa, wf, -, t, -, hwa, hw1⟩ := proceed_ret_spec h
  have h1 : (reclaimCalls p.alSource env.processed).count (AlCall.buffersProcessed p.alSource)
      = 1 := by
    unfold reclaimCalls
    split_ifs <;> simp
  have h2 : extra.count (AlCall.buffersProcessed p.alSource) = 0 :=
    count_fillCalls_zero t.fillCalls _ rfl
  have h3 : (if r = none then restartCalls p.alSource env.state else []).count
      (AlCall.buffersProcessed p.alSource) = 0 := by
    unfold restartCalls
    split_ifs <;> simp
  rw [hw1, t.calls, hwa, List.count_append, List.count_append, List.count_append, h1, h2, h3]

theorem chunkReader_at (data : List Byte) (hlen : data.length = 4096) (p : player)
    (hsrc : p.source.reads = (chunkReader data).reads) (k : Nat) (hk : k < 4) :
    (p.source.reads k).err = none ∧ (p.source.reads k).data = chunk data k ∧
      0 < (p.source.reads k).data.length ∧ (p.source.reads k).data.length ≤ bufferSize := by
  have hb : bufferSize = 1024 := rfl
  obtain ⟨h1, h2, h3⟩ := chunkReader_reads_lt data k (by rw [hlen, hb]; omega)
  rw [hsrc, h1]
  exact ⟨rfl, rfl, h2, h3⟩

theorem chunkReader_end (data : List Byte) (hlen : data.length = 4096) (p : player)
    (hsrc : p.source.reads = (chunkReader data).reads) :
    (p.source.reads 4).data = [] ∧ (p.source.reads 4).err = some Error.EOF := by
  have hb : bufferSize = 1024 := rfl
  have := chunkReader_reads_ge data 4 (by rw [hlen, hb]; omega)
  rw [hsrc, this]
  exact ⟨rfl, rfl⟩

theorem proceed_chunks_nil (data : List Byte) (hlen : data.length = 4096) (fuel : Nat)
    (p : player) (w : World) (env : ProceedEnv)
    (hsrc : p.source.reads = (chunkReader data).reads) (hw : w.alErr = 0)
    (hdev : quietDevice env) (hfuel : 5 ≤ fuel)
    (hfit : p.source.pos + (p.alBuffers.length + env.processed.toNat) ≤ 4) :
    ∃ w1, proceed fuel p w env =
        Run.ret none
          ({ p with alBuffers := [],
                    source := { p.source with
                      pos := p.source.pos + (p.alBuffers.length + env.processed.toNat) } },
           w1) ∧
      w1.alErr = 0 ∧
      payloads w1.calls = payloads w.calls ++
        (List.range (p.alBuffers.length + env.processed.toNat)).map
          fun t => chunk data (p.source.pos + t) := by
  obtain ⟨hr, hq, hf⟩ := hdev
  have hlenp : (p.alBuffers ++ names env.unqueued env.processed).length =
      p.alBuffers.length + env.processed.toNat := by
    rw [List.length_append, names_length]
  obtain ⟨w1, hrun, hw1, -, hpay⟩ := fillAndRestart_all env hq hf
    (fuel - 1 - (p.alBuffers.length + env.processed.toNat))
    { p with alBuffers := p.alBuffers ++ names env.unqueued env.processed }
    { w with calls := w.calls ++ reclaimCalls p.alSource env.processed } hw
    (by
      intro i hi
      simp only [hlenp] at hi
      obtain ⟨a, b, c, d⟩ := chunkReader_at data hlen p hsrc (p.source.pos + i) (by omega)
      exact ⟨a, c, d⟩)
  simp only [hlenp] at hrun hpay
  have hfu : fuel - 1 - (p.alBuffers.length + env.processed.toNat) + 1 +
      (p.alBuffers.length + env.processed.toNat) = fuel := by omega
  rw [hfu] at hrun
  refine ⟨w1, ?_, hw1, ?_⟩
  · rw [proceed_reclaim fuel p w env hw hr, hrun]
  · rw [hpay, payloads_append, payloads_reclaimCalls, List.append_nil]
    congr 1
    apply List.map_congr_left
    intro i hi
    rw [List.mem_range] at hi
    exact (chunkReader_at data hlen p hsrc (p.source.pos + i) (by omega)).2.1

theorem proceed_chunks_eof (data : List Byte) (hlen : data.length = 4096) (fuel : Nat)
    (p : player) (w : World) (env : ProceedEnv)
    (hsrc : p.source.reads = (chunkReader data).reads) (hw : w.alErr = 0)
    (hdev : quietDevice env) (hfuel : 5 ≤ fuel) (hpos : p.source.pos ≤ 4)
    (hmore : 5 ≤ p.source.pos + (p.alBuffers.length + env.processed.toNat)) :
    ∃ w1, proceed fuel p w env =
        Run.ret (some Error.EOF)
          ({ p with alBuffers :=
                      (p.alBuffers ++ names env.unqueued env.processed).drop (4 - p.source.pos),
                    source := { p.source with pos := 5 } },
           w1) ∧
      w1.alErr = 0 ∧
      payloads w1.calls = payloads w.calls ++
        (List.range (4 - p.source.pos)).map fun t => chunk data (p.source.pos + t) := by
  obtain ⟨hr, hq, hf⟩ := hdev
  have hlenp : (p.alBuffers ++ names env.unqueued env.processed).length =
      p.alBuffers.length + env.processed.toNat := by
    rw [List.length_append, names_length]
  cases hdrop : (p.alBuffers ++ names env.unqueued env.processed).drop (4 - p.source.pos) with
  | nil =>
    have := congrArg List.length hdrop
    rw [List.length_drop, hlenp] at this
    simp at this
    omega
  | cons buf rest =>
    have hsplit : p.alBuffers ++ names env.unqueued env.processed =
        (p.alBuffers ++ names env.unqueued env.processed).take (4 - p.source.pos) ++
          buf :: rest := by
      rw [← hdrop, List.take_append_drop]
    have hend := chunkReader_end data hlen p hsrc
    have h4 : p.source.pos + (4 - p.source.pos) = 4 := by omega
    obtain ⟨w1, hrun, hw1, -, hpay⟩ := fillAndRestart_fail env hq
      (fuel - 1 - (4 - p.source.pos)) (4 - p.source.pos)
      { p with alBuffers := p.alBuffers ++ names env.unqueued env.processed }
      { w with calls := w.calls ++ reclaimCalls p.alSource env.processed }
      ((p.alBuffers ++ names env.unqueued env.processed).take (4 - p.source.pos)) buf rest
      Error.EOF hsplit
      (by rw [List.length_take, hlenp]; omega) hw
      (by
        intro i hi
        obtain ⟨a, b, c, d⟩ := chunkReader_at data hlen p hsrc (p.source.pos + i) (by omega)
        exact ⟨a, c, d⟩)
      (by simp only [h4]; exact hend.1)
      (by simp only [h4]; exact hend.2)
    have hfu : fuel - 1 - (4 - p.source.pos) + 1 + (4 - p.source.pos) = fuel := by omega
    rw [hfu] at hrun
    simp only [h4] at hrun
    refine ⟨w1, ?_, hw1, ?_⟩
    · rw [proceed_reclaim fuel p w env hw hr, hrun]
    · rw [hpay, payloads_append, payloads_reclaimCalls, List.append_nil]
      congr 1
      apply List.map_congr_left
      intro i hi
      rw [List.mem_range] at hi
      exact (chunkReader_at data hlen p hsrc (p.source.pos + i) (by omega)).2.1

theorem range_split_map {α : Type} (g : Nat → α) (a b : Nat) :
    (List.range (a + b)).map g =
      (List.range a).map g ++ (List.range b).map (fun t => g (a + t)) := by
  rw [List.range_add, List.map_append, List.map_map]
  rfl

theorem streamLoop_chunks (data : List Byte) (hlen : data.length = 4096) (senv : StreamEnv)
    (hdev : ∀ i, quietDevice (senv.proceedEnv i)) (fuel : Nat) (hfuel : 5 ≤ fuel) :
    ∀ (j rounds i : Nat) (p : player) (w : World),
      p.source.reads = (chunkReader data).reads → w.alErr = 0 → p.source.pos ≤ 4 →
      j < rounds →
      (∀ t, t < j → p.source.pos + supply senv i p.alBuffers.length t ≤ 4) →
      5 ≤ p.source.pos + supply senv i p.alBuffers.length j →
      ∃ p1 w1, streamLoop senv fuel rounds i p w = Run.ret Error.EOF (p1, w1) ∧
        p1.source = { p.source with pos := 5 } ∧
        p1.alBuffers.length = p.source.pos + supply senv i p.alBuffers.length j - 4 ∧
        payloads w1.calls = payloads w.calls ++
          (List.range (4 - p.source.pos)).map (fun t => chunk data (p.source.pos + t)) ∧
        w1.calls.count (AlCall.buffersProcessed p.alSource) =
          w.calls.count (AlCall.buffersProcessed p.alSource) + (j + 1) := by
  intro j
  induction j with
  | zero =>
    intro rounds i p w hsrc hw hpos hr _ hj
    obtain ⟨r, rfl⟩ : ∃ r, rounds = r + 1 := ⟨rounds - 1, by omega⟩
    simp only [supply] at hj ⊢
    obtain ⟨w1, hrun, -, hpay⟩ :=
      proceed_chunks_eof data hlen fuel p w (senv.proceedEnv i) hsrc hw (hdev i) hfuel hpos hj
    refine ⟨{ p with
        alBuffers := (p.alBuffers ++ names (senv.proceedEnv i).unqueued
          (senv.proceedEnv i).processed).drop (4 - p.source.pos),
        source := { p.source with pos := 5 } }, w1, ?_, rfl, ?_, hpay, proceed_count hrun⟩
    · rw [streamLoop]
      simp only [hrun]
    · simp only [List.length_drop, List.length_append, names_length]
      omega
  | succ j ih =>
    intro rounds i p w hsrc hw hpos hr hbefore hj
    obtain ⟨r, rfl⟩ : ∃ r, rounds = r + 1 := ⟨rounds - 1, by omega⟩
    have h0 := hbefore 0 (by omega)
    simp only [supply] at h0
    obtain ⟨w1, hrun, hw1, hpay⟩ :=
      proceed_chunks_nil data hlen fuel p w (senv.proceedEnv i) hsrc hw (hdev i) hfuel h0
    obtain ⟨p2, w2, hloop, hs2, hl2, hp2, hc2⟩ := ih r (i + 1)
      { p with alBuffers := [],
               source := { p.source with
                 pos := p.source.pos +
                   (p.alBuffers.length + (senv.proceedEnv i).processed.toNat) } } w1
      hsrc hw1 h0 (by omega)
      (by
        intro t ht
        have := hbefore (t + 1) (by omega)
        rw [supply_succ] at this
        simp only [List.length_nil]
        omega)
      (by
        rw [supply_succ] at hj
        simp only [List.length_nil]
        omega)
    simp only [List.length_nil] at hl2
    refine ⟨p2, w2, ?_, hs2, ?_, ?_, ?_⟩
    · rw [streamLoop]
      simp only [hrun]
      exact hloop
    · rw [hl2, supply_succ]
      omega
    · have key := range_split_map (fun t => chunk data (p.source.pos + t))
        (p.alBuffers.length + (senv.proceedEnv i).processed.toNat)
        (4 - (p.source.pos + (p.alBuffers.length + (senv.proceedEnv i).processed.toNat)))
      have hsum : (p.alBuffers.length + (senv.proceedEnv i).processed.toNat) +
          (4 - (p.source.pos + (p.alBuffers.length + (senv.proceedEnv i).processed.toNat))) =
          4 - p.source.pos := by
        omega
      rw [hsum] at key
      simp only [Nat.add_assoc] at hp2 key ⊢
      rw [hp2, hpay, key, List.append_assoc]
    · have := proceed_count hrun
      simp only at hc2
      rw [hc2, this]
      omega

/-- C11, amended.  A source of exactly 4096 bytes is delivered in reads of
1024 bytes and followed by `(0, io.EOF)`; the device raises no error.

One call: a `proceed` that starts after `r ≤ 4` reads with `f` free buffers
once the processed buffers are reclaimed makes `f` reads, queues the chunks
`r`, ..., `r + f - 1`, leaves the free list empty and returns nil when
`r + f ≤ 4`; when `r + f ≥ 5` it makes the reads `r`, ..., 4, queues the
chunks `r`, ..., 3, keeps the other buffers free and returns `io.EOF`.

The loop: started before the first read, it ends with `io.EOF` at call `j`
(counting from 0), the first call by which the buffers free at the start and
those the device has reported processed are 5 or more.  By then the loop has
made `j + 1` calls of `proceed` and exactly 5 reads, and it has queued exactly
the four 1024-byte chunks of the source in source order, 4096 bytes in all. -/
theorem stream_4096_any_schedule (data : List Byte) (hlen : data.length = 4096) :
    (∀ (fuel : Nat) (p : player) (w : World) (env : ProceedEnv),
      p.source.reads = (chunkReader data).reads → w.alErr = 0 → quietDevice env →
      5 ≤ fuel → p.source.pos ≤ 4 →
      (p.source.pos + (p.alBuffers.length + env.processed.toNat) ≤ 4 →
        ∃ w1, proceed fuel p w env =
            Run.ret none
              ({ p with alBuffers := [],
                        source := { p.source with
                          pos := p.source.pos + (p.alBuffers.length + env.processed.toNat) } },
               w1) ∧
          w1.alErr = 0 ∧
          payloads w1.calls = payloads w.calls ++
            (List.range (p.alBuffers.length + env.processed.toNat)).map
              fun t => chunk data (p.source.pos + t)) ∧
      (5 ≤ p.source.pos + (p.alBuffers.length + env.processed.toNat) →
        ∃ w1, proceed fuel p w env =
            Run.ret (some Error.EOF)
              ({ p with alBuffers :=
                          (p.alBuffers ++ names env.unqueued env.processed).drop
                            (4 - p.source.pos),
                        source := { p.source with pos := 5 } },
               w1) ∧
          w1.alErr = 0 ∧
          payloads w1.calls = payloads w.calls ++
            (List.range (4 - p.source.pos)).map fun t => chunk data (p.source.pos + t))) ∧
    (∀ (senv : StreamEnv) (fuel rounds j : Nat) (p : player) (w : World),
      p.source = chunkReader data → w.alErr = 0 → (∀ i, quietDevice (senv.proceedEnv i)) →
      5 ≤ fuel → j < rounds →
      (∀ t, t < j → supply senv 0 p.alBuffers.length t ≤ 4) →
      5 ≤ supply senv 0 p.alBuffers.length j →
      ∃ p1 w1, streamLoop senv fuel rounds 0 p w = Run.ret Error.EOF (p1, w1) ∧
        p1.source = { p.source with pos := 5 } ∧
        p1.alBuffers.length = supply senv 0 p.alBuffers.length j - 4 ∧
        payloads w1.calls = payloads w.calls ++
          [chunk data 0, chunk data 1, chunk data 2, chunk data 3] ∧
        w1.calls.count (AlCall.buffersProcessed p.alSource) =
          w.calls.count (AlCall.buffersProcessed p.alSource) + (j + 1)) ∧
    chunk data 0 ++ chunk data 1 ++ chunk data 2 ++ chunk data 3 = data ∧
    ∀ i, i < 4 → (chunk data i).length = 1024 := by
  refine ⟨?_, ?_, chunks_4096 data hlen⟩
  · intro fuel p w env hsrc hw hdev hfuel hpos
    exact ⟨proceed_chunks_nil data hlen fuel p w env hsrc hw hdev hfuel,
      proceed_chunks_eof data hlen fuel p w env hsrc hw hdev hfuel hpos⟩
  · intro senv fuel rounds j p w hsrc hw hdev hfuel hr hbefore hj
    have hpos : p.source.pos = 0 := by rw [hsrc]; rfl
    obtain ⟨p1, w1, hloop, hs, hl, hpay, hc⟩ :=
      streamLoop_chunks data hlen senv hdev fuel hfuel j rounds 0 p w (by rw [hsrc])
        hw (by omega) hr
        (by intro t ht; have := hbefore t ht; omega) (by omega)
    refine ⟨p1, w1, hloop, hs, by rw [hl, hpos]; omega, ?_, hc⟩
    rw [hpay, hpos]
    rfl

/-- Witness for C11, amended: the 4096-byte source `pcm4096` on a device that
reports two, two and one processed buffers at the first three calls; the loop
ends with `io.EOF` at the third `proceed`. -/
theorem stream_4096_any_schedule_witness :
    pcm4096.length = 4096 ∧
    ∃ p1 w1, streamLoop twoTwoOne 5 3 0 pcmPlayer World.init = Run.ret Error.EOF (p1, w1) ∧
      p1.source = { pcmPlayer.source with pos := 5 } ∧
      p1.alBuffers.length = supply twoTwoOne 0 pcmPlayer.alBuffers.length 2 - 4 ∧
      payloads w1.calls = payloads World.init.calls ++
        [chunk pcm4096 0, chunk pcm4096 1, chunk pcm4096 2, chunk pcm4096 3] ∧
      w1.calls.count (AlCall.buffersProcessed pcmPlayer.alSource) =
        World.init.calls.count (AlCall.buffersProcessed pcmPlayer.alSource) + (2 + 1) :=
  ⟨List.length_replicate 4096 7,
    (stream_4096_any_schedule pcm4096 (List.length_replicate 4096 7)).2.1 twoTwoOne 5 3 2
      pcmPlayer World.init rfl rfl
      (by
        intro i
        simp only [twoTwoOne]
        split_ifs <;> exact ⟨rfl, fun _ => rfl, rfl⟩)
      (by decide) (by decide)
      (by
        intro t ht
        interval_cases t <;> decide)
      (by decide)⟩

end Audio
